import Mathlib

/-! # Reporting state machine, alignment sink and seed-extension driver of the aligner

A shallow embedding of three parts of the aligner, together with theorems about
them:

* `ReportingState` (`aln_sink.cpp`), the per-read state machine that decides when
  the search for alignments may stop and how many alignments of each kind are to
  be reported;
* `AlnSinkWrap` (`aln_sink.cpp`), the sink that collects the alignments of a read:
  `report`, `prepareDiscordants` and `selectAlnsToReport`;
* `SwDriver::extendSeeds` (`aligner_sw_driver.cpp`), the loop that extends seed
  hits into alignments and reports them to the sink.

The member functions `nextRead`, `foundConcordant`, `foundDiscordant`,
`foundUnpaired`, `finish`, `getReport` and `areDone` are translated line by line
from `aln_sink.cpp`.  The class declarations (`aln_sink.h`) are not among the
sources; the few one-line members declared there (`updateDone`, the accessors,
`convertUnpairedToDiscordant`, `ReportingParams::mhitsSet`) are modelled from the
specification and from the unit tests at the foot of `aln_sink.cpp`, and are
marked as such.

C++ `assert`s are not executed by the embedded functions (they vanish in a
release build); the asserted preconditions of the event functions are given as
separate Boolean predicates (`foundConcordantPre`, ...).
-/

/-- Modelled from the spec: the enumeration of exit codes is declared in
`aln_sink.h`, which is not among the sources.  The values are the eight codes
listed in the data model of the specification (section 3); the `EXIT_` of the
enumerators is dropped. -/
inductive Exit where
  | DID_NOT_ENTER
  | DID_NOT_EXIT
  | SHORT_CIRCUIT_k
  | SHORT_CIRCUIT_m
  | SHORT_CIRCUIT_M
  | SHORT_CIRCUIT_TRUMPED
  | WITH_ALIGNMENTS
  | NO_ALIGNMENTS
  deriving DecidableEq

/-- Modelled from the spec: the enumeration behind `state_` is declared in
`aln_sink.h`, which is not among the sources.  Only the enumerators that
`aln_sink.cpp` mentions are needed. -/
inductive Phase where
  | NO_READ
  | UNPAIRED
  | CONCORDANT_PAIRS
  deriving DecidableEq

/-- Modelled from the spec: `ReportingParams` is declared in `aln_sink.h`, which
is not among the sources.  The fields are those of the data model of the
specification, `{khits, mhits, msample, discord, mixed, mhitsSet}`; `mhitsSet`
(a member function in the code, `p_.mhitsSet()`) says whether the user gave a
`-m`/`-M` ceiling.  `khits` and `mhits` are positive by the invariant the
specification states (`khits > 0`, `mhits > 0`), so the casts `(uint64_t)p_.khits`
and `(uint64_t)p_.mhits` of the code are the identity and both are natural
numbers here; positivity is a hypothesis wherever a theorem needs it. -/
structure ReportingParams where
  khits : Nat
  mhits : Nat
  mhitsSet : Bool
  msample : Bool
  discord : Bool
  mixed : Bool
  deriving DecidableEq

/-- Modelled from the spec: the data members of `ReportingState` are declared in
`aln_sink.h`, which is not among the sources; they are the members that
`aln_sink.cpp` reads and writes (the parameters `p_` are passed to each function
separately).  The four counters are the counters of the specification's data
model: natural numbers that start at 0 and grow by one per event. -/
structure ReportingState where
  state_ : Phase
  paired_ : Bool
  nconcord_ : Nat
  ndiscord_ : Nat
  nunpair1_ : Nat
  nunpair2_ : Nat
  doneConcord_ : Bool
  doneDiscord_ : Bool
  doneUnpair1_ : Bool
  doneUnpair2_ : Bool
  doneUnpair_ : Bool
  done_ : Bool
  exitConcord_ : Exit
  exitDiscord_ : Exit
  exitUnpair1_ : Exit
  exitUnpair2_ : Exit
  deriving DecidableEq

/-- The seven output arguments of `ReportingState::getReport`. -/
structure Report where
  nconcordAln : Nat
  ndiscordAln : Nat
  nunpair1Aln : Nat
  nunpair2Aln : Nat
  pairMax : Bool
  unpair1Max : Bool
  unpair2Max : Bool
  deriving DecidableEq

namespace ReportingState

/-- Modelled from the spec: `done()` is declared in `aln_sink.h` (absent); it
returns the cached flag `done_`. -/
def done (s : ReportingState) : Bool := s.done_

/-- Modelled from the spec: accessor of `aln_sink.h` (absent). -/
def doneConcordant (s : ReportingState) : Bool := s.doneConcord_

/-- Modelled from the spec: accessor of `aln_sink.h` (absent). -/
def doneDiscordant (s : ReportingState) : Bool := s.doneDiscord_

/-- Modelled from the spec: `doneUnpaired(bool mate1)` of `aln_sink.h` (absent),
the done flag of the given mate. -/
def doneUnpaired (s : ReportingState) (mate1 : Bool) : Bool :=
  if mate1 then s.doneUnpair1_ else s.doneUnpair2_

/-- Modelled from the spec: the overload `doneUnpaired()` of `aln_sink.h`
(absent), the cached flag `doneUnpair_` (fifth argument of `testDones`). -/
def doneUnpairedAll (s : ReportingState) : Bool := s.doneUnpair_

/-- Modelled from the spec: counter accessor of `aln_sink.h` (absent). -/
def numConcordant (s : ReportingState) : Nat := s.nconcord_

/-- Modelled from the spec: counter accessor of `aln_sink.h` (absent). -/
def numDiscordant (s : ReportingState) : Nat := s.ndiscord_

/-- Modelled from the spec: counter accessor of `aln_sink.h` (absent). -/
def numUnpaired1 (s : ReportingState) : Nat := s.nunpair1_

/-- Modelled from the spec: counter accessor of `aln_sink.h` (absent). -/
def numUnpaired2 (s : ReportingState) : Nat := s.nunpair2_

/-- Modelled from the spec: `updateDone()` is declared in `aln_sink.h` (absent).
The specification says that `done()` holds exactly when all four category done
flags are true; `updateDone` recomputes the two cached flags accordingly (the
same assignment to `doneUnpair_` is written out in `nextRead` and
`foundUnpaired`). -/
def updateDone (s : ReportingState) : ReportingState :=
  let s1 := { s with doneUnpair_ := s.doneUnpair1_ && s.doneUnpair2_ }
  { s1 with done_ := s1.doneUnpair_ && s1.doneDiscord_ && s1.doneConcord_ }

/-- Modelled from the spec: `convertUnpairedToDiscordant()` is declared in
`aln_sink.h` (absent).  The specification says that the two unique unpaired
alignments are promoted to one discordant result; test case 6 of `aln_sink.cpp`
expects `numDiscordant() = 1` and `numUnpaired1() = numUnpaired2() = 0`
afterwards. -/
def convertUnpairedToDiscordant (s : ReportingState) : ReportingState :=
  { s with nunpair1_ := 0, nunpair2_ := 0, ndiscord_ := 1 }

/-- `ReportingState::areDone(cnt, done, exit)`: the two reference arguments are
returned as a pair. -/
def areDone (p : ReportingParams) (cnt : Nat) (done : Bool) (exit : Exit) :
    Bool × Exit :=
  if decide (cnt ≥ p.khits) && !p.mhitsSet then
    (true, Exit.SHORT_CIRCUIT_k)
  else if p.mhitsSet && decide (cnt > p.mhits) then
    (true, if p.msample then Exit.SHORT_CIRCUIT_M else Exit.SHORT_CIRCUIT_m)
  else
    (done, exit)

/-- `ReportingState::nextRead(paired)`. -/
def nextRead (p : ReportingParams) (s : ReportingState) (paired : Bool) :
    ReportingState :=
  let s := { s with paired_ := paired }
  let s :=
    if paired then
      { s with
        state_ := Phase.CONCORDANT_PAIRS
        doneConcord_ := false
        doneDiscord_ := if p.discord then false else true
        doneUnpair1_ := if p.mixed then false else true
        doneUnpair2_ := if p.mixed then false else true
        exitConcord_ := Exit.DID_NOT_EXIT
        exitDiscord_ := if p.discord then Exit.DID_NOT_EXIT else Exit.DID_NOT_ENTER
        exitUnpair1_ := if p.mixed then Exit.DID_NOT_EXIT else Exit.DID_NOT_ENTER
        exitUnpair2_ := if p.mixed then Exit.DID_NOT_EXIT else Exit.DID_NOT_ENTER }
    else
      { s with
        state_ := Phase.UNPAIRED
        doneConcord_ := true
        doneDiscord_ := true
        doneUnpair1_ := false
        doneUnpair2_ := true
        exitConcord_ := Exit.DID_NOT_ENTER
        exitDiscord_ := Exit.DID_NOT_ENTER
        exitUnpair1_ := Exit.DID_NOT_EXIT
        exitUnpair2_ := Exit.DID_NOT_ENTER }
  let s := { s with doneUnpair_ := s.doneUnpair1_ && s.doneUnpair2_ }
  let s := { s with done_ := false }
  { s with nconcord_ := 0, ndiscord_ := 0, nunpair1_ := 0, nunpair2_ := 0 }

/-- The state written by `foundConcordant`; the function returns `done()` of
it. -/
def foundConcordant (p : ReportingParams) (s : ReportingState) : ReportingState :=
  let s := { s with nconcord_ := s.nconcord_ + 1 }
  let de := areDone p s.nconcord_ s.doneConcord_ s.exitConcord_
  let s := { s with doneConcord_ := de.1, exitConcord_ := de.2 }
  let s := { s with doneDiscord_ := true, exitDiscord_ := Exit.SHORT_CIRCUIT_TRUMPED }
  let s :=
    if s.doneConcord_ then
      if s.exitConcord_ ≠ Exit.SHORT_CIRCUIT_m ∧ s.exitConcord_ ≠ Exit.SHORT_CIRCUIT_M then
        let s :=
          if !s.doneUnpair1_ then
            { s with doneUnpair1_ := true, exitUnpair1_ := Exit.SHORT_CIRCUIT_TRUMPED }
          else s
        if !s.doneUnpair2_ then
          { s with doneUnpair2_ := true, exitUnpair2_ := Exit.SHORT_CIRCUIT_TRUMPED }
        else s
      else s
    else s
  updateDone s

/-- The state written by `foundDiscordant`; the function returns `done()` of
it. -/
def foundDiscordant (s : ReportingState) : ReportingState :=
  let s := { s with ndiscord_ := s.ndiscord_ + 1 }
  let s := { s with doneDiscord_ := true, exitDiscord_ := Exit.WITH_ALIGNMENTS }
  let s :=
    if !s.doneUnpair1_ then
      { s with doneUnpair1_ := true, exitUnpair1_ := Exit.SHORT_CIRCUIT_TRUMPED }
    else s
  let s :=
    if !s.doneUnpair2_ then
      { s with doneUnpair2_ := true, exitUnpair2_ := Exit.SHORT_CIRCUIT_TRUMPED }
    else s
  updateDone s

/-- The state written by `foundUnpaired(mate1)`; the function returns `done()`
of it. -/
def foundUnpaired (p : ReportingParams) (s : ReportingState) (mate1 : Bool) :
    ReportingState :=
  if mate1 then
    let s : ReportingState := { s with nunpair1_ := s.nunpair1_ + 1 }
    let s : ReportingState :=
      if !s.doneUnpair1_ then
        let de := areDone p s.nunpair1_ s.doneUnpair1_ s.exitUnpair1_
        let s : ReportingState := { s with doneUnpair1_ := de.1, exitUnpair1_ := de.2 }
        if s.doneUnpair1_ then
          updateDone { s with doneUnpair_ := s.doneUnpair1_ && s.doneUnpair2_ }
        else s
      else s
    if s.nunpair1_ > 1 then
      { s with doneDiscord_ := true, exitDiscord_ := Exit.NO_ALIGNMENTS }
    else s
  else
    let s : ReportingState := { s with nunpair2_ := s.nunpair2_ + 1 }
    let s : ReportingState :=
      if !s.doneUnpair2_ then
        let de := areDone p s.nunpair2_ s.doneUnpair2_ s.exitUnpair2_
        let s : ReportingState := { s with doneUnpair2_ := de.1, exitUnpair2_ := de.2 }
        if s.doneUnpair2_ then
          updateDone { s with doneUnpair_ := s.doneUnpair1_ && s.doneUnpair2_ }
        else s
      else s
    if s.nunpair2_ > 1 then
      { s with doneDiscord_ := true, exitDiscord_ := Exit.NO_ALIGNMENTS }
    else s

/-- `ReportingState::finish()`. -/
def finish (s : ReportingState) : ReportingState :=
  let s :=
    if !s.doneConcord_ then
      { s with
        doneConcord_ := true
        exitConcord_ :=
          if s.nconcord_ > 0 then Exit.WITH_ALIGNMENTS else Exit.NO_ALIGNMENTS }
    else s
  let s :=
    if !s.doneUnpair1_ then
      { s with
        doneUnpair1_ := true
        exitUnpair1_ :=
          if s.nunpair1_ > 0 then Exit.WITH_ALIGNMENTS else Exit.NO_ALIGNMENTS }
    else s
  let s :=
    if !s.doneUnpair2_ then
      { s with
        doneUnpair2_ := true
        exitUnpair2_ :=
          if s.nunpair2_ > 0 then Exit.WITH_ALIGNMENTS else Exit.NO_ALIGNMENTS }
    else s
  let s :=
    if !s.doneDiscord_ then
      let s :=
        if s.nconcord_ = 0 ∧ s.nunpair1_ = 1 ∧ s.nunpair2_ = 1 then
          convertUnpairedToDiscordant s
        else s
      { s with
        doneDiscord_ := true
        exitDiscord_ :=
          if s.ndiscord_ > 0 then Exit.WITH_ALIGNMENTS else Exit.NO_ALIGNMENTS }
    else s
  { s with doneUnpair_ := true, done_ := true }

/-- The part of `getReport` after the `if(paired_)` block (from the test
`(paired_ && !p_.mixed) || nunpair1_ + nunpair2_ == 0` to the end), applied to
the outputs `r` written so far. -/
def getReportUnpaired (p : ReportingParams) (s : ReportingState) (r : Report) :
    Report :=
  if (s.paired_ && !p.mixed) || s.nunpair1_ + s.nunpair2_ == 0 then r
  else
    let r :=
      if s.exitUnpair1_ = Exit.SHORT_CIRCUIT_k then
        { r with nunpair1Aln := p.khits }
      else if s.exitUnpair1_ = Exit.SHORT_CIRCUIT_M then
        { r with unpair1Max := true, nunpair1Aln := 1 }
      else if s.exitUnpair1_ = Exit.WITH_ALIGNMENTS then
        { r with nunpair1Aln := min s.nunpair1_ p.khits }
      else r
    let r :=
      if s.exitUnpair1_ = Exit.SHORT_CIRCUIT_m then
        { r with unpair1Max := true }
      else r
    let r :=
      if s.exitUnpair2_ = Exit.SHORT_CIRCUIT_k then
        { r with nunpair2Aln := p.khits }
      else if s.exitUnpair2_ = Exit.SHORT_CIRCUIT_M then
        { r with unpair2Max := true, nunpair2Aln := 1 }
      else if s.exitUnpair2_ = Exit.WITH_ALIGNMENTS then
        { r with nunpair2Aln := min s.nunpair2_ p.khits }
      else r
    if s.exitUnpair2_ = Exit.SHORT_CIRCUIT_m then
      { r with unpair2Max := true }
    else r

/-- `ReportingState::getReport(...)`: the seven reference arguments are returned
as a `Report`; each `return` of the code ends a branch here. -/
def getReport (p : ReportingParams) (s : ReportingState) : Report :=
  let r : Report := ⟨0, 0, 0, 0, false, false, false⟩
  if s.paired_ then
    if s.exitConcord_ = Exit.SHORT_CIRCUIT_k then
      { r with nconcordAln := p.khits }
    else if s.exitConcord_ = Exit.SHORT_CIRCUIT_M then
      let r := { r with pairMax := true }
      let r :=
        if p.mixed then
          { r with
            unpair1Max := decide (s.nunpair1_ > p.mhits)
            unpair2Max := decide (s.nunpair2_ > p.mhits) }
        else r
      { r with nconcordAln := 1 }
    else if s.exitConcord_ = Exit.WITH_ALIGNMENTS then
      { r with nconcordAln := min s.nconcord_ p.khits }
    else
      let r :=
        if s.exitConcord_ = Exit.SHORT_CIRCUIT_m then
          let r := { r with pairMax := true }
          if p.mixed then
            { r with
              unpair1Max := decide (s.nunpair1_ > p.mhits)
              unpair2Max := decide (s.nunpair2_ > p.mhits) }
          else r
        else r
      if s.exitDiscord_ = Exit.WITH_ALIGNMENTS then
        { r with ndiscordAln := 1 }
      else getReportUnpaired p s r
  else getReportUnpaired p s r

/-- The asserted precondition of `foundConcordant`: `paired_`,
`state_ >= CONCORDANT_PAIRS` and `!doneConcord_` (`state_` is `CONCORDANT_PAIRS`
on every paired read, `nextRead` being the only function that writes it). -/
def foundConcordantPre (s : ReportingState) : Bool :=
  s.paired_ && decide (s.state_ = Phase.CONCORDANT_PAIRS) && !s.doneConcord_

/-- The asserted precondition of `foundDiscordant`: `paired_`,
`state_ > NO_READ` and `!doneDiscord_`. -/
def foundDiscordantPre (s : ReportingState) : Bool :=
  s.paired_ && decide (s.state_ ≠ Phase.NO_READ) && !s.doneDiscord_

/-- The asserted precondition of `foundUnpaired`: `state_ > NO_READ`. -/
def foundUnpairedPre (s : ReportingState) : Bool :=
  decide (s.state_ ≠ Phase.NO_READ)

end ReportingState

/-- The calls a caller can make on a `ReportingState` between `nextRead` and
`getReport`. -/
inductive Event where
  | concordant
  | discordant
  | unpaired (mate1 : Bool)
  | finish
  deriving DecidableEq

namespace ReportingState

/-- One call on the state machine. -/
def step (p : ReportingParams) (s : ReportingState) : Event → ReportingState
  | Event.concordant => foundConcordant p s
  | Event.discordant => foundDiscordant s
  | Event.unpaired m => foundUnpaired p s m
  | Event.finish => finish s

/-- A sequence of calls, first to last. -/
def run (p : ReportingParams) (s : ReportingState) : List Event → ReportingState
  | [] => s
  | e :: es => run p (step p s e) es

/-- The asserted precondition of one call. -/
def pre (s : ReportingState) : Event → Bool
  | Event.concordant => foundConcordantPre s
  | Event.discordant => foundDiscordantPre s
  | Event.unpaired _ => foundUnpairedPre s
  | Event.finish => true

/-- Every call of the sequence is made within its asserted precondition. -/
def runOk (p : ReportingParams) (s : ReportingState) : List Event → Bool
  | [] => true
  | e :: es => pre s e && runOk p (step p s e) es

end ReportingState

/-- A state to start from: no read yet. -/
def ReportingState.noRead : ReportingState :=
  { state_ := Phase.NO_READ, paired_ := false,
    nconcord_ := 0, ndiscord_ := 0, nunpair1_ := 0, nunpair2_ := 0,
    doneConcord_ := false, doneDiscord_ := false, doneUnpair1_ := false,
    doneUnpair2_ := false, doneUnpair_ := false, done_ := false,
    exitConcord_ := Exit.DID_NOT_EXIT, exitDiscord_ := Exit.DID_NOT_EXIT,
    exitUnpair1_ := Exit.DID_NOT_EXIT, exitUnpair2_ := Exit.DID_NOT_EXIT }

open ReportingState

/-- The number of alignments the per-mate table of `getReport` writes for a mate
with exit code `e` and counter `n` (`old` is kept when no row applies). -/
def mateAln (p : ReportingParams) (e : Exit) (n old : Nat) : Nat :=
  match e with
  | Exit.SHORT_CIRCUIT_k => p.khits
  | Exit.SHORT_CIRCUIT_M => 1
  | Exit.WITH_ALIGNMENTS => min n p.khits
  | _ => old

/-- The repetitiveness flag the per-mate table of `getReport` writes for a mate
with exit code `e` (`old` is kept when no row applies). -/
def mateMax (e : Exit) (old : Bool) : Bool :=
  match e with
  | Exit.SHORT_CIRCUIT_M => true
  | Exit.SHORT_CIRCUIT_m => true
  | _ => old

/-- The parameters of test case 1 (`-k 2`, no `-m`/`-M` ceiling; the value of
`mhits` is not looked at while `mhitsSet` is false). -/
def paramsK2 : ReportingParams :=
  { khits := 2, mhits := 1, mhitsSet := false, msample := false,
    discord := false, mixed := false }

/-- The parameters of test cases 4 to 6 (`-k 2 -m 3`, discordant and mixed
mode). -/
def paramsM3 : ReportingParams :=
  { khits := 2, mhits := 3, mhitsSet := true, msample := false,
    discord := true, mixed := true }

/-- The parameters of test case 9 (`-k 1 -M 1`, discordant and mixed mode). -/
def paramsBigM1 : ReportingParams :=
  { khits := 1, mhits := 1, mhitsSet := true, msample := true,
    discord := true, mixed := true }

/-- The cached flags agree with the four category flags, and a closed concordant
category has closed the discordant one. -/
def Consistent (s : ReportingState) : Prop :=
  s.done_ = (s.doneConcord_ && s.doneDiscord_ && s.doneUnpair1_ && s.doneUnpair2_) ∧
  s.doneUnpair_ = (s.doneUnpair1_ && s.doneUnpair2_) ∧
  (s.doneConcord_ = true → s.doneDiscord_ = true)

/-- A category that is done has an exit code other than `DID_NOT_EXIT`. -/
def ExitsClosed (s : ReportingState) : Prop :=
  (s.doneConcord_ = true → s.exitConcord_ ≠ Exit.DID_NOT_EXIT) ∧
  (s.doneDiscord_ = true → s.exitDiscord_ ≠ Exit.DID_NOT_EXIT) ∧
  (s.doneUnpair1_ = true → s.exitUnpair1_ ≠ Exit.DID_NOT_EXIT) ∧
  (s.doneUnpair2_ = true → s.exitUnpair2_ ≠ Exit.DID_NOT_EXIT)

/-- The test of `finish` that guards `convertUnpairedToDiscordant`: the
discordant category is still open, there is no concordant alignment and each
mate has exactly one unpaired alignment. -/
def converts (s : ReportingState) : Bool :=
  !s.doneDiscord_ && decide (s.nconcord_ = 0) && decide (s.nunpair1_ = 1) &&
    decide (s.nunpair2_ = 1)

/-- The test of `areDone`: the count `n` has reached the `-k` limit (no `-m`/`-M`
ceiling given) or exceeded the `-m`/`-M` ceiling. -/
def ceilingHit (p : ReportingParams) (n : Nat) : Bool :=
  if p.mhitsSet then decide (n > p.mhits) else decide (n ≥ p.khits)

/-- The exit code `areDone` writes when its test succeeds. -/
def ceilingExit (p : ReportingParams) : Exit :=
  if p.mhitsSet then
    (if p.msample then Exit.SHORT_CIRCUIT_M else Exit.SHORT_CIRCUIT_m)
  else Exit.SHORT_CIRCUIT_k

/-- The test of `foundConcordant` that closes the open unpaired categories: the
concordant category is done after `areDone` and its exit code is neither
`SHORT_CIRCUIT_m` nor `SHORT_CIRCUIT_M`. -/
def concordTrumps (p : ReportingParams) (s : ReportingState) : Bool :=
  (areDone p (s.nconcord_ + 1) s.doneConcord_ s.exitConcord_).1 &&
    decide ((areDone p (s.nconcord_ + 1) s.doneConcord_ s.exitConcord_).2
      ≠ Exit.SHORT_CIRCUIT_m) &&
    decide ((areDone p (s.nconcord_ + 1) s.doneConcord_ s.exitConcord_).2
      ≠ Exit.SHORT_CIRCUIT_M)

/-- The calls that `AlnSinkWrap::report` makes on the state machine:
`foundConcordant` and `foundUnpaired`. -/
def Event.isReport : Event → Bool
  | Event.concordant => true
  | Event.unpaired _ => true
  | _ => false

/-- What a paired read keeps true of its discordant category as long as only
`foundConcordant` and `foundUnpaired` are called: no discordant alignment is
counted or recorded in the exit code, the category is open exactly when
discordant alignments are sought, no concordant alignment was found and neither
mate has more than one unpaired alignment, and the concordant category is open
while no concordant alignment was found. -/
def DiscordInv (p : ReportingParams) (s : ReportingState) : Prop :=
  s.paired_ = true ∧ s.ndiscord_ = 0 ∧ s.exitDiscord_ ≠ Exit.WITH_ALIGNMENTS ∧
  (s.doneDiscord_ = false ↔
    p.discord = true ∧ s.nconcord_ = 0 ∧ s.nunpair1_ ≤ 1 ∧ s.nunpair2_ ≤ 1) ∧
  (s.nconcord_ = 0 → s.doneConcord_ = false)

/-- What a paired read keeps true under a `-m`/`-M` ceiling as long as only
`foundConcordant` and `foundUnpaired` are called: the concordant category, and in
mixed mode each unpaired category, is done exactly when its counter has exceeded
the ceiling, with the exit code `areDone` writes, and is open with
`DID_NOT_EXIT` before. -/
def CeilingInv (p : ReportingParams) (s : ReportingState) : Prop :=
  s.doneConcord_ = ceilingHit p s.nconcord_ ∧
  s.exitConcord_ =
    (if ceilingHit p s.nconcord_ then ceilingExit p else Exit.DID_NOT_EXIT) ∧
  (p.mixed = true →
    s.doneUnpair1_ = ceilingHit p s.nunpair1_ ∧
    s.exitUnpair1_ =
      (if ceilingHit p s.nunpair1_ then ceilingExit p else Exit.DID_NOT_EXIT) ∧
    s.doneUnpair2_ = ceilingHit p s.nunpair2_ ∧
    s.exitUnpair2_ =
      (if ceilingHit p s.nunpair2_ then ceilingExit p else Exit.DID_NOT_EXIT))

/-- The parameters of test case 8 (`-k 1 -m 1`, discordant mode, not mixed). -/
def paramsM1NotMixed : ReportingParams :=
  { khits := 1, mhits := 1, mhitsSet := true, msample := false,
    discord := true, mixed := false }

/-- The parameters of test case 7 (`-k 1 -m 1`, discordant and mixed mode). -/
def paramsM1 : ReportingParams :=
  { khits := 1, mhits := 1, mhitsSet := true, msample := false,
    discord := true, mixed := true }

/-- The per-mate table as the specification words it: what `getReport` is to
return as (number of alignments to report, repetitive flag) for a mate with exit
code `e` and counter `n`. -/
def unpairedTable (p : ReportingParams) (e : Exit) (n : Nat) : Nat × Bool :=
  match e with
  | Exit.SHORT_CIRCUIT_k => (p.khits, false)
  | Exit.SHORT_CIRCUIT_M => (1, true)
  | Exit.SHORT_CIRCUIT_m => (0, true)
  | Exit.WITH_ALIGNMENTS => (min n p.khits, false)
  | _ => (0, false)

/-- The exit codes written by `areDone`. -/
def Exit.isCeiling : Exit → Bool
  | Exit.SHORT_CIRCUIT_k => true
  | Exit.SHORT_CIRCUIT_m => true
  | Exit.SHORT_CIRCUIT_M => true
  | _ => false

/-- What a read keeps true as long as only `foundConcordant` and `foundUnpaired`
are called: an unpaired category closed by `areDone` has a positive counter, the
discordant category of an unpaired read is done, and the concordant category of
a paired read is open with `DID_NOT_EXIT` while no concordant alignment was
found. -/
def MateInv (s : ReportingState) : Prop :=
  (s.exitUnpair1_.isCeiling = true → 1 ≤ s.nunpair1_) ∧
  (s.exitUnpair2_.isCeiling = true → 1 ≤ s.nunpair2_) ∧
  (s.paired_ = false → s.doneDiscord_ = true) ∧
  (s.paired_ = true → s.nconcord_ = 0 →
    s.doneConcord_ = false ∧ s.exitConcord_ = Exit.DID_NOT_EXIT)

/-! ## The alignment sink (`AlnSinkWrap`, `aln_sink.cpp`) -/

/-- Modelled from the spec: `AlnRes` is declared in a header that is not among
the sources.  The fields are those of the specification's data model: reference
id, reference offset, extent on the reference, orientation and score. -/
structure AlnRes where
  refid : Nat
  refoff : Int
  extent : Nat
  fw : Bool
  score : Int
  deriving DecidableEq

/-- Modelled from the spec: the data members of `AlnSinkWrap` are declared in
`aln_sink.h`, which is not among the sources; they are the members that
`report`, `prepareDiscordants` and `finishRead` read and write: the reporting
parameters `rp_`, the reporting state `st_`, the paired results `rs1_`/`rs2_`,
the unpaired results `rs1u_`/`rs2u_` of each mate, and the best score `best_`. -/
structure AlnSinkWrap where
  rp_ : ReportingParams
  st_ : ReportingState
  rs1_ : List AlnRes
  rs2_ : List AlnRes
  rs1u_ : List AlnRes
  rs2u_ : List AlnRes
  best_ : Int
  deriving DecidableEq

namespace AlnSinkWrap

/-- `AlnSinkWrap::report(stage, rs1, rs2)`: a null pointer is `none`; the new
sink and the returned `st_.done()`.  (`stage` is not used by the function.) -/
def report (w : AlnSinkWrap) (rs1 rs2 : Option AlnRes) : AlnSinkWrap × Bool :=
  let paired := rs1.isSome && rs2.isSome
  let one := rs1.isSome
  let rsa := if one then rs1 else rs2
  let rsb := if one then rs2 else rs1
  let w : AlnSinkWrap :=
    if paired then
      let w := { w with st_ := foundConcordant w.rp_ w.st_ }
      { w with rs1_ := w.rs1_ ++ rs1.toList, rs2_ := w.rs2_ ++ rs2.toList }
    else
      let w := { w with st_ := foundUnpaired w.rp_ w.st_ one }
      if one then { w with rs1u_ := w.rs1u_ ++ rs1.toList }
      else { w with rs2u_ := w.rs2u_ ++ rs2.toList }
  let score : Int := match rsa with
    | some a => a.score
    | none => 0
  let score : Int := match rsb with
    | some b => score + b.score
    | none => score
  let w : AlnSinkWrap := if score < w.best_ then { w with best_ := score } else w
  (w, w.st_.done)

/-- `AlnSinkWrap::prepareDiscordants()`: the new sink and the returned flag. -/
def prepareDiscordants (w : AlnSinkWrap) : AlnSinkWrap × Bool :=
  if h : w.rs1u_.length = 1 ∧ w.rs2u_.length = 1 then
    ({ w with
        rs1_ := w.rs1_ ++ [w.rs1u_.get ⟨0, by omega⟩]
        rs2_ := w.rs2_ ++ [w.rs2u_.get ⟨0, by omega⟩] },
      true)
  else (w, false)

/-- Modelled from the spec: `EList::resize` is declared in a header that is not
among the sources.  The list keeps its first `sz` elements and is padded to
length `sz`; the padding value is immaterial, every branch of
`selectAlnsToReport` overwrites the whole list. -/
def resizeList (l : List Nat) (sz : Nat) : List Nat :=
  l.take sz ++ List.replicate (sz - l.length) 0

/-- The loop `for(size_t i = 1; i <= num; i++)` of `selectAlnsToReport` with `k`
iterations to go: `off` is a `uint32_t`, so `off++` wraps at `2^32`. -/
def selectLoop (sz : Nat) : Nat → Nat → Nat → List Nat → List Nat
  | 0, _, _, select => select
  | k + 1, i, off, select =>
    let select := select.set off i
    let off := (off + 1) % 2 ^ 32
    let off := if off = sz then 0 else off
    selectLoop sz k (i + 1) off select

/-- `AlnSinkWrap::selectAlnsToReport(rs, num, select, rnd)`: `rndU32` is the
value that `rnd.nextU32()` returns; the new `select` list and the returned
index.  `(uint32_t)sz` is `sz % 2^32`. -/
def selectAlnsToReport (rs : List AlnRes) (num : Nat) (select : List Nat)
    (rndU32 : Nat) : List Nat × Nat :=
  let sz := rs.length
  let select := resizeList select sz
  if sz < 1 then (select, 0)
  else if sz = 1 then (select.set 0 1, 0)
  else
    let select := List.replicate select.length 0
    let off := rndU32 % (sz % 2 ^ 32)
    let offOrig := off
    let num := if sz < num then sz else num
    (selectLoop sz num 1 off select, offOrig)

end AlnSinkWrap

/-- An alignment to fill lists with. -/
def AlnRes.sample (refoff : Int) : AlnRes :=
  { refid := 0, refoff := refoff, extent := 10, fw := true, score := 0 }

/-- A sink with empty result lists whose reporting state is the one right after
`nextRead(paired)`. -/
def AlnSinkWrap.fresh (p : ReportingParams) (paired : Bool) : AlnSinkWrap :=
  { rp_ := p, st_ := nextRead p noRead paired,
    rs1_ := [], rs2_ := [], rs1u_ := [], rs2u_ := [], best_ := 0 }

/-! ## The seed-extension driver (`SwDriver::extendSeeds`, `aligner_sw_driver.cpp`)

`extendSeeds` calls collaborators whose code is not among the sources: the
suffix-array walkers `gws_[i]`, the index (`joinedToTextOff`), the framer
(`frameSeedExtension`), the dynamic-programming aligner `swa` and the two
redundancy sets.  What they answer is an input of the embedding: each seed hit
carries the elements its walker yields, each element carries what the aligner
answers for the problem framed from it, and the index and the framer are given
as functions.  The sink `msink` is the `AlnSinkWrap` embedded above.  The calls
made on the collaborators are recorded in a log, in the order the code makes
them. -/

/-- Modelled from the spec: `Coord` (reference id, reference offset,
orientation), the key of the anchor redundancy set `redSeed1_`. -/
structure Coord where
  ref : Nat
  off : Int
  fw : Bool
  deriving DecidableEq

/-- One element yielded by `gws_[i].advanceQvalPos`: `wr.toff`, `wr.elt.len`,
and what the aligner answers if the problem framed from this element is solved:
the flag returned by `swa.align`, and the results of the successive
`swa.nextAlignment` calls until `swa.done()` (`none` is an empty result). -/
structure WalkElt where
  toff : Nat
  len : Nat
  aligned : Bool
  alns : List (Option AlnRes)

/-- One seed hit in rank order: the outputs `rdoff`, `fw`, `seedlen` of
`sh.hitsByRank(i, ...)` and the elements that the walker `gws_[i]` yields until
`gws_[i].done()`. -/
structure SeedHit where
  rdoff : Nat
  fw : Bool
  seedlen : Nat
  walk : List WalkElt

/-- The arguments of `extendSeeds` that the control flow looks at, and the
collaborators that are functions of their arguments: `joinedToTextOff` returns
(`tidx`, `toff`, `tlen`), `frameSeedExtension` returns `found` for (`refoff`,
`rows`, `tlen`). -/
structure ExtendArgs where
  rdlen : Nat
  mate1 : Bool
  color : Bool
  reportImmediately : Bool
  joinedToTextOff : Nat → Nat → Nat × Nat × Nat
  frameSeedExtension : Int → Nat → Nat → Bool

/-- A call recorded in the log: `advance rank` is `gws_[rank].advanceQvalPos`,
`frame c` is `dpframe.frameSeedExtension` for the anchor at coordinate `c`,
`dp tidx refoff` is `swa.init` with `swa.align` on reference `tidx` at offset
`refoff`, `next` is `swa.nextAlignment`, and `report a ret` is `msink->report` of
the alignment `a`, which returned `ret`. -/
inductive Call where
  | advance (rank : Nat)
  | frame (c : Coord)
  | dp (tidx : Nat) (refoff : Int)
  | next
  | report (a : AlnRes) (ret : Bool)
  deriving DecidableEq

/-- What `extendSeeds` changes: the redundancy sets `redSeed1_` and `redAnchor_`
of the driver, the counter `swmSeed.rshit`, the sink, and the log. -/
structure ExtendState where
  redSeed1_ : List Coord
  redAnchor_ : List AlnRes
  rshit : Nat
  msink : AlnSinkWrap
  log : List Call

/-- Modelled from the spec: `RedundantAlns::overlap`.  Two alignments are
redundant iff they have the same reference id and orientation and their
intervals `[refoff, refoff + extent)` intersect. -/
def redundant (a b : AlnRes) : Bool :=
  a.refid == b.refid && a.fw == b.fw &&
    decide (a.refoff < b.refoff + b.extent) && decide (b.refoff < a.refoff + a.extent)

/-- Modelled from the spec: `redAnchor_.overlap(res)`, true iff `res` is
redundant with an alignment added before. -/
def overlap (red : List AlnRes) (res : AlnRes) : Bool :=
  red.any (fun b => redundant b res)

/-- The loop `while(true)` of `extendSeeds` that pulls the alignments of one
dynamic-programming problem; the flag is true when the function returns true
from inside the loop. -/
def extendAlns (args : ExtendArgs) (st : ExtendState) :
    List (Option AlnRes) → ExtendState × Bool
  | [] => (st, false)
  | none :: _ => ({ st with log := st.log ++ [Call.next] }, false)
  | some res :: rest =>
    let st := { st with log := st.log ++ [Call.next] }
    if overlap st.redAnchor_ res then extendAlns args st rest
    else
      let st := { st with redAnchor_ := res :: st.redAnchor_ }
      if args.reportImmediately then
        let r := st.msink.report (if args.mate1 then some res else none)
          (if args.mate1 then none else some res)
        let st := { st with msink := r.1, log := st.log ++ [Call.report res r.2] }
        if r.2 then (st, true) else extendAlns args st rest
      else extendAlns args st rest

/-- The loop `while(!gws_[i].done())` of `extendSeeds` for the seed hit of rank
`rank`, whose read offset is `rdoff` and orientation `fw`; the flag is true when
the function returns true from inside the loop. -/
def extendWalk (args : ExtendArgs) (rank rdoff : Nat) (fw : Bool) (st : ExtendState) :
    List WalkElt → ExtendState × Bool
  | [] => (st, false)
  | wr :: more =>
    let st := { st with log := st.log ++ [Call.advance rank] }
    let c : Coord := { ref := 0, off := (wr.toff : Int) - (rdoff : Int), fw := fw }
    if c ∈ st.redSeed1_ then
      extendWalk args rank rdoff fw { st with rshit := st.rshit + 1 } more
    else
      let st := { st with redSeed1_ := c :: st.redSeed1_ }
      let t := args.joinedToTextOff wr.len wr.toff
      let tidx := t.1
      let toff := t.2.1
      let tlen := (t.2.2 + (if args.color then 1 else 0)) % 2 ^ 32
      if tidx = 0xffffffff then extendWalk args rank rdoff fw st more
      else
        let refoff : Int := (toff : Int) - (rdoff : Int)
        let rows := args.rdlen + (if args.color then 1 else 0)
        let st := { st with log := st.log ++ [Call.frame c] }
        if !args.frameSeedExtension refoff rows tlen then
          extendWalk args rank rdoff fw st more
        else
          let st := { st with log := st.log ++ [Call.dp tidx refoff] }
          if !wr.aligned then extendWalk args rank rdoff fw st more
          else
            let r := extendAlns args st wr.alns
            if r.2 then (r.1, true) else extendWalk args rank rdoff fw r.1 more

/-- The loop `for(size_t i = 0; i < poss; i++)` of `extendSeeds` from rank `i`
on. -/
def extendRanks (args : ExtendArgs) (st : ExtendState) :
    Nat → List SeedHit → ExtendState × Bool
  | _, [] => (st, false)
  | i, hit :: hits =>
    let rdoff :=
      if !hit.fw then
        (((args.rdlen : Int) - (hit.rdoff : Int) - (hit.seedlen : Int)) % 2 ^ 32).toNat
      else hit.rdoff
    let r := extendWalk args i rdoff hit.fw st hit.walk
    if r.2 then (r.1, true) else extendRanks args r.1 (i + 1) hits

/-- `SwDriver::extendSeeds`: `hits` are the seed hits in rank order and `poss`
the number of ranks to explore; the state left behind and the returned flag. -/
def extendSeeds (args : ExtendArgs) (hits : List SeedHit) (poss : Nat)
    (st : ExtendState) : ExtendState × Bool :=
  extendRanks args st 0 (hits.take poss)

/-- The log holds no `msink->report` call that returned true. -/
def noTrueReport (l : List Call) : Prop :=
  ∀ a, Call.report a true ∉ l

/-- What a stretch of the log looks like when the loop that wrote it ended with
the flag `ret`: if the flag is true, hits are reported immediately and the
stretch ends with a report that returned true, the only one in it; if the flag is
false, no report returned true; without immediate reporting there is no report
at all. -/
def LogOK (args : ExtendArgs) (l : List Call) (ret : Bool) : Prop :=
  (ret = true → args.reportImmediately = true ∧
    ∃ pre a, l = pre ++ [Call.report a true] ∧ noTrueReport pre) ∧
  (ret = false → noTrueReport l) ∧
  (args.reportImmediately = false → ∀ a r, Call.report a r ∉ l)

/-- Sample arguments of `extendSeeds`: a 20-base read that is mate 1, one
reference of length 1000 that joined offsets fall into unchanged, and a framer
that always succeeds. -/
def ExtendArgs.sample (reportImmediately : Bool) : ExtendArgs :=
  { rdlen := 20, mate1 := true, color := false, reportImmediately := reportImmediately,
    joinedToTextOff := fun _ toff => (0, toff, 1000),
    frameSeedExtension := fun _ _ _ => true }

/-- Sample seed hits: the first walker yields the joined offset 100 twice and
then 400, the second one yields 700 for a seed of the reverse-complement read. -/
def SeedHit.samples : List SeedHit :=
  [ { rdoff := 0, fw := true, seedlen := 10,
      walk :=
        [ { toff := 100, len := 10, aligned := true,
            alns := [some (AlnRes.sample 100), some (AlnRes.sample 105),
              some (AlnRes.sample 200)] },
          { toff := 100, len := 10, aligned := true, alns := [some (AlnRes.sample 300)] },
          { toff := 400, len := 10, aligned := true,
            alns := [some (AlnRes.sample 400), some (AlnRes.sample 500)] } ] },
    { rdoff := 5, fw := false, seedlen := 10,
      walk := [ { toff := 700, len := 10, aligned := true,
                  alns := [some (AlnRes.sample 700)] } ] } ]

/-- A driver state with empty redundancy sets, an empty log and a sink for an
unpaired read. -/
def ExtendState.fresh (p : ReportingParams) : ExtendState :=
  { redSeed1_ := [], redAnchor_ := [], rshit := 0,
    msink := AlnSinkWrap.fresh p false, log := [] }

/-! ## The assertions of `getReport` and the calls the driver makes -/

namespace ReportingState

/-- The assertions of the part of `getReport` after the `if(paired_)` block: the
two `assert_neq` on the unpaired exit codes, and, past the test
`(paired_ && !p_.mixed) || nunpair1_ + nunpair2_ == 0`, the assertions of the
per-mate blocks (the block of mate 2 has no assertion under `SHORT_CIRCUIT_k`). -/
def getReportUnpairedAsserts (p : ReportingParams) (s : ReportingState) : Bool :=
  decide (s.exitUnpair1_ ≠ Exit.SHORT_CIRCUIT_TRUMPED) &&
  decide (s.exitUnpair2_ ≠ Exit.SHORT_CIRCUIT_TRUMPED) &&
  (if (s.paired_ && !p.mixed) || s.nunpair1_ + s.nunpair2_ == 0 then true
   else
    (if s.exitUnpair1_ = Exit.SHORT_CIRCUIT_k then decide (s.nunpair1_ ≥ p.khits)
     else if s.exitUnpair1_ = Exit.SHORT_CIRCUIT_M then
       p.msample && decide (s.nunpair1_ > 0)
     else if s.exitUnpair1_ = Exit.WITH_ALIGNMENTS then decide (s.nunpair1_ > 0)
     else true) &&
    (if s.exitUnpair1_ = Exit.SHORT_CIRCUIT_m then !p.msample
     else !p.mhitsSet || s.paired_ || decide (s.nunpair1_ ≤ p.mhits + 1)) &&
    (if s.exitUnpair2_ = Exit.SHORT_CIRCUIT_k then true
     else if s.exitUnpair2_ = Exit.SHORT_CIRCUIT_M then
       p.msample && decide (s.nunpair2_ > 0)
     else if s.exitUnpair2_ = Exit.WITH_ALIGNMENTS then decide (s.nunpair2_ > 0)
     else true) &&
    (if s.exitUnpair2_ = Exit.SHORT_CIRCUIT_m then !p.msample
     else !p.mhitsSet || s.paired_ || decide (s.nunpair2_ ≤ p.mhits + 1)))

/-- The assertions of `getReport`, along the path the function takes on the state
`s`: true iff every `assert` that is executed holds. -/
def getReportAsserts (p : ReportingParams) (s : ReportingState) : Bool :=
  decide (p.khits > 0) && decide (p.mhits > 0) &&
  (if s.paired_ then
    if s.exitConcord_ = Exit.SHORT_CIRCUIT_k then decide (s.nconcord_ ≥ p.khits)
    else if s.exitConcord_ = Exit.SHORT_CIRCUIT_M then
      p.msample && decide (s.nconcord_ > 0)
    else if s.exitConcord_ = Exit.WITH_ALIGNMENTS then decide (s.nconcord_ > 0)
    else
      (if s.exitConcord_ = Exit.SHORT_CIRCUIT_m then !p.msample
       else !p.mhitsSet || decide (s.nconcord_ ≤ p.mhits + 1)) &&
      (if s.exitDiscord_ = Exit.WITH_ALIGNMENTS then p.discord
       else getReportUnpairedAsserts p s)
  else getReportUnpairedAsserts p s)

/-- What the sink requires of a call it passes on to the state machine: the read
is not done, and a pair is reported only while the concordant category is open
(`foundConcordant` asserts `!doneConcord_`).  `report` makes no other call than
`foundConcordant` and `foundUnpaired`. -/
def sinkPre (s : ReportingState) : Event → Bool
  | Event.concordant => !s.done_ && !s.doneConcord_
  | Event.unpaired _ => !s.done_
  | _ => false

/-- What the driver keeps to when it reports: the calls are made while `done()` is
false, `foundConcordant` only on a paired read whose concordant category is open,
and on an unpaired read only `foundUnpaired(true)`. -/
def driverPre (s : ReportingState) : Event → Bool
  | Event.concordant => !s.done_ && s.paired_ && !s.doneConcord_
  | Event.unpaired m => !s.done_ && (s.paired_ || m)
  | _ => false

/-- Every call of the sequence is one the sink may pass on. -/
def sinkOk (p : ReportingParams) (s : ReportingState) : List Event → Bool
  | [] => true
  | e :: es => sinkPre s e && sinkOk p (step p s e) es

/-- Every call of the sequence is one the driver makes. -/
def driverOk (p : ReportingParams) (s : ReportingState) : List Event → Bool
  | [] => true
  | e :: es => driverPre s e && driverOk p (step p s e) es

end ReportingState

/-- What holds of one unpaired category (done flag `d`, exit code `e`, counter
`n`) between `nextRead` and `finish`: while it is open the exit code is
`DID_NOT_EXIT` and the counter is below the limit; once it is done, it was never
entered, or `areDone` closed it at the limit, or a concordant exit with
`SHORT_CIRCUIT_k` trumped it. -/
def MateOk (p : ReportingParams) (s : ReportingState) (d : Bool) (e : Exit) (n : Nat) :
    Prop :=
  (d = false → e = Exit.DID_NOT_EXIT ∧ ceilingHit p n = false) ∧
  (d = true → e = Exit.DID_NOT_ENTER ∨ (e = ceilingExit p ∧ ceilingHit p n = true) ∨
    (e = Exit.SHORT_CIRCUIT_TRUMPED ∧ s.paired_ = true ∧
      s.exitConcord_ = Exit.SHORT_CIRCUIT_k))

/-- What holds of the state between `nextRead` and `finish` as long as the calls
are those the sink passes on: the cached flags are consistent; the concordant
category of a paired read is open below the limit or closed by `areDone` at the
limit; no discordant alignment is counted and the discordant category is open
only on a paired read in discordant mode; each unpaired category is as `MateOk`
says; on an unpaired read the concordant, discordant and mate-2 categories are
done and mate 2 was never entered. -/
def SinkInv (p : ReportingParams) (s : ReportingState) : Prop :=
  Consistent s ∧
  (s.paired_ = true →
    (s.doneConcord_ = false ∧ s.exitConcord_ = Exit.DID_NOT_EXIT ∧
      ceilingHit p s.nconcord_ = false) ∨
    (s.doneConcord_ = true ∧ s.exitConcord_ = ceilingExit p ∧
      ceilingHit p s.nconcord_ = true)) ∧
  (s.ndiscord_ = 0 ∧ s.exitDiscord_ ≠ Exit.WITH_ALIGNMENTS ∧
    (s.doneDiscord_ = false → p.discord = true ∧ s.paired_ = true)) ∧
  MateOk p s s.doneUnpair1_ s.exitUnpair1_ s.nunpair1_ ∧
  MateOk p s s.doneUnpair2_ s.exitUnpair2_ s.nunpair2_ ∧
  (s.paired_ = false →
    s.doneConcord_ = true ∧ s.doneDiscord_ = true ∧ s.doneUnpair2_ = true ∧
      s.exitUnpair2_ = Exit.DID_NOT_ENTER)

/-- What holds in addition on an unpaired read as long as the calls are those the
driver makes: mate 2 has no alignment, and under a `-m`/`-M` ceiling mate 1 has at
most `mhits + 1`. -/
def UnpairedReadInv (p : ReportingParams) (s : ReportingState) : Prop :=
  s.paired_ = false →
    s.nunpair2_ = 0 ∧ (p.mhitsSet = true → s.nunpair1_ ≤ p.mhits + 1)

/-! ## The sink between `nextRead` and `finishRead` -/

namespace AlnSinkWrap

/-- Modelled from the spec: `readIsPair()` is declared in `aln_sink.h`, which is
not among the sources.  The comment on the parameters of `nextRead` says that one
or the other of `rd1`, `rd2` is `NULL` if the read is unpaired, so a read is a
pair when both mates are present (`rd1`, `rd2` say whether `rd1_`, `rd2_` are
non-null). -/
def readIsPair (rd1 rd2 : Bool) : Bool := rd1 && rd2

/-- `AlnSinkWrap::nextRead(rd1, rd2, rdid, qualitiesMatter)`, the part that resets
the sink for the new read: `rd1`, `rd2` say whether the mates are present, and
`bestInit` is `std::numeric_limits<THitInt>::min()` (`THitInt` is declared in a
header that is not among the sources). -/
def nextRead (w : AlnSinkWrap) (rd1 rd2 : Bool) (bestInit : Int) : AlnSinkWrap :=
  { w with
    best_ := bestInit
    rs1_ := []
    rs2_ := []
    rs1u_ := []
    rs2u_ := []
    st_ := ReportingState.nextRead w.rp_ w.st_ (readIsPair rd1 rd2) }

/-- What a caller keeps to when it calls `report(stage, rs1, rs2)`: one of the two
alignments is given (asserted by `report`), the reporting state is not done, and
a pair is reported only while the concordant category is open (asserted by
`foundConcordant`). -/
def reportPre (w : AlnSinkWrap) (rs1 rs2 : Option AlnRes) : Bool :=
  (rs1.isSome || rs2.isSome) && !w.st_.done &&
    (!(rs1.isSome && rs2.isSome) || !w.st_.doneConcordant)

/-- A sequence of `report` calls, first to last. -/
def reports (w : AlnSinkWrap) : List (Option AlnRes × Option AlnRes) → AlnSinkWrap
  | [] => w
  | c :: cs => reports (w.report c.1 c.2).1 cs

/-- Every call of the sequence is made as `reportPre` says. -/
def reportsOk (w : AlnSinkWrap) : List (Option AlnRes × Option AlnRes) → Bool
  | [] => true
  | c :: cs => w.reportPre c.1 c.2 && reportsOk (w.report c.1 c.2).1 cs

end AlnSinkWrap

/-- The call of the state machine that `report(stage, rs1, rs2)` makes. -/
def reportEvent (c : Option AlnRes × Option AlnRes) : Event :=
  if c.1.isSome && c.2.isSome then Event.concordant else Event.unpaired c.1.isSome

/-- The calls that report a pair. -/
def isPairCall (c : Option AlnRes × Option AlnRes) : Bool := c.1.isSome && c.2.isSome

/-- The calls that report an unpaired alignment of mate 1. -/
def isMate1Call (c : Option AlnRes × Option AlnRes) : Bool := c.1.isSome && !c.2.isSome

/-- The calls that report an unpaired alignment of mate 2. -/
def isMate2Call (c : Option AlnRes × Option AlnRes) : Bool := !c.1.isSome && c.2.isSome

/-- The result lists of the sink are as long as the counters of its reporting
state say. -/
def ListInv (w : AlnSinkWrap) : Prop :=
  w.rs1_.length = w.st_.nconcord_ ∧ w.rs2_.length = w.st_.nconcord_ ∧
  w.rs1u_.length = w.st_.nunpair1_ ∧ w.rs2u_.length = w.st_.nunpair2_

/-! ## `finishRead`: the alignment summary counters -/

/-- Modelled from the spec: `ReportingMetrics` is declared in a header that is not
among the sources.  The fields are the counters that `finishRead` increments and
`printAlSumm` prints; they are natural numbers here (no read count reaches
`2^64`). -/
structure ReportingMetrics where
  nread : Nat
  npaired : Nat
  nunpaired : Nat
  nconcord_uni : Nat
  nconcord_rep : Nat
  nconcord_0 : Nat
  ndiscord : Nat
  nunp_0_0 : Nat
  nunp_0_uni : Nat
  nunp_0_rep : Nat
  nunp_rep_0 : Nat
  nunp_rep_uni : Nat
  nunp_rep_rep : Nat
  nunp_0 : Nat
  nunp_uni : Nat
  nunp_rep : Nat
  deriving DecidableEq

namespace AlnSinkWrap

/-- The counter update that `finishRead` makes for one mate (the block
`if(rd1_ != NULL) { ... }`, and the same block for `rd2_`): `nunpair` and
`unpairMax` are the values `getReport` returned for the mate. -/
def countMate (pair pairMax : Bool) (nunpair : Nat) (unpairMax : Bool)
    (met : ReportingMetrics) : ReportingMetrics :=
  if nunpair > 0 then
    if pair then
      if pairMax then
        if unpairMax then { met with nunp_rep_rep := met.nunp_rep_rep + 1 }
        else { met with nunp_rep_uni := met.nunp_rep_uni + 1 }
      else
        if unpairMax then { met with nunp_0_rep := met.nunp_0_rep + 1 }
        else { met with nunp_0_uni := met.nunp_0_uni + 1 }
    else
      if unpairMax then { met with nunp_rep := met.nunp_rep + 1 }
      else { met with nunp_uni := met.nunp_uni + 1 }
  else if unpairMax then
    if pair then
      if pairMax then { met with nunp_rep_rep := met.nunp_rep_rep + 1 }
      else { met with nunp_0_rep := met.nunp_0_rep + 1 }
    else { met with nunp_rep := met.nunp_rep + 1 }
  else
    if pair then
      if pairMax then { met with nunp_rep_0 := met.nunp_rep_0 + 1 }
      else { met with nunp_0_0 := met.nunp_0_0 + 1 }
    else { met with nunp_0 := met.nunp_0 + 1 }

/-- `AlnSinkWrap::finishRead(...)`: what it does to the sink and to the counters
`met`.  `rd1`, `rd2` say whether `rd1_`, `rd2_` are non-null.  The calls on the
output object `g_` (`reportHits`, `reportMaxed`, `reportUnaligned`, the seed
summaries), the flags written into the alignments and the selection list
`select_` are left out: the counters do not depend on them. -/
def finishRead (w : AlnSinkWrap) (rd1 rd2 : Bool) (met : ReportingMetrics)
    (suppressAlignments : Bool) : AlnSinkWrap × ReportingMetrics :=
  if !suppressAlignments then
    let pair := readIsPair rd1 rd2
    let w : AlnSinkWrap := { w with st_ := ReportingState.finish w.st_ }
    let r := getReport w.rp_ w.st_
    let met : ReportingMetrics := { met with nread := met.nread + 1 }
    let met : ReportingMetrics :=
      if pair then { met with npaired := met.npaired + 1 }
      else { met with nunpaired := met.nunpaired + 1 }
    let wm : AlnSinkWrap × ReportingMetrics :=
      if r.nconcordAln > 0 then
        (w, if r.pairMax then { met with nconcord_rep := met.nconcord_rep + 1 }
            else { met with nconcord_uni := met.nconcord_uni + 1 })
      else if r.ndiscordAln > 0 then
        ((prepareDiscordants w).1,
          { met with nconcord_0 := met.nconcord_0 + 1, ndiscord := met.ndiscord + 1 })
      else (w, met)
    let w := wm.1
    let met := wm.2
    let met : ReportingMetrics :=
      if !pair || (r.nconcordAln == 0 && r.ndiscordAln == 0) || r.pairMax then
        let met : ReportingMetrics :=
          if !r.pairMax && pair then { met with nconcord_0 := met.nconcord_0 + 1 }
          else met
        let met : ReportingMetrics :=
          if rd1 then countMate pair r.pairMax r.nunpair1Aln r.unpair1Max met else met
        if rd2 then countMate pair r.pairMax r.nunpair2Aln r.unpair2Max met else met
      else met
    (w, met)
  else (w, met)

end AlnSinkWrap

/-- Counters that are all zero. -/
def ReportingMetrics.zero : ReportingMetrics :=
  { nread := 0, npaired := 0, nunpaired := 0, nconcord_uni := 0, nconcord_rep := 0,
    nconcord_0 := 0, ndiscord := 0, nunp_0_0 := 0, nunp_0_uni := 0, nunp_0_rep := 0,
    nunp_rep_0 := 0, nunp_rep_uni := 0, nunp_rep_rep := 0, nunp_0 := 0, nunp_uni := 0,
    nunp_rep := 0 }

/-- The sum that the first three lines of the paired summary of `printAlSumm` add
up to. -/
def ReportingMetrics.concordTotal (m : ReportingMetrics) : Nat :=
  m.nconcord_0 + m.nconcord_uni + m.nconcord_rep

/-! ## SAM output: the positions `AlnSinkSam::appendMate` writes -/

/-- The two position fields of a SAM record, as the numbers that `itoa10` prints
in decimal. -/
structure SamPositions where
  POS : Int
  PNEXT : Int
  deriving DecidableEq

namespace AlnSinkSam

/-- `AlnSinkSam::appendMate(o, rd, rdo, rdid, rs, rso, summ, flags)`, the fields
POS and PNEXT of the record it writes: `color` is `rd.color`, `exEnds_` the member
of the sink, `rs` the alignment of the mate the record is for and `rso` that of the
opposite mate (a null pointer is `none`).  The sums are `int64_t` sums of offsets
far below `2^63`. -/
def appendMate (exEnds_ : Bool) (color : Bool) (rs rso : Option AlnRes) : SamPositions :=
  let offAdj : Int := if color && exEnds_ then 1 else 0
  { POS :=
      match rs with
      | some a => a.refoff + 1 + offAdj
      | none => 0
    PNEXT :=
      match rs, rso with
      | some _, some b => b.refoff + 1
      | _, _ => 0 }

end AlnSinkSam

/-! ## What a run of `extendSeeds` leaves in the log and in the redundancy sets -/

/-- The coordinates for which the log records a call of `frameSeedExtension`, in
the order of the calls. -/
def framed (l : List Call) : List Coord :=
  l.filterMap (fun c => match c with
    | Call.frame c => some c
    | _ => none)

/-- The number of walker results (`advanceQvalPos` calls) that the log records. -/
def advances (l : List Call) : Nat :=
  l.countP (fun c => match c with
    | Call.advance _ => true
    | _ => false)

/-- The alignments that the log records as passed to `msink->report`, in the order
of the calls. -/
def reported (l : List Call) : List AlnRes :=
  l.filterMap (fun c => match c with
    | Call.report a _ => some a
    | _ => none)

/-- The elements `ins`, in the order given, can be inserted one after the other
into the set `red` without any of them being related by `R` to an element that is
in the set when it is inserted. -/
def Fresh {α : Type} (R : α → α → Prop) : List α → List α → Prop
  | _, [] => True
  | red, a :: rest => (∀ b ∈ red, ¬ R b a) ∧ Fresh R (a :: red) rest

/-- Redundancy of two alignments as a proposition. -/
def Redundant (a b : AlnRes) : Prop := redundant a b = true

/-- What a stretch of `extendSeeds` that leads from the state `st` to the state
`st'` does: it writes the calls `new` to the log; it inserts the coordinates `ins`
into `redSeed1_`, none of them already there, it calls `frameSeedExtension` only
for coordinates it inserts, in the order of insertion, and every walker result
either inserts its coordinate or increments `rshit`; it inserts the alignments
`insA` into `redAnchor_`, none of them redundant with an alignment already there,
and it reports only alignments it inserts, in the order of insertion. -/
def StepsU (st st' : ExtendState) : Prop :=
  ∃ (new : List Call) (ins : List Coord) (insA : List AlnRes),
    st'.log = st.log ++ new ∧
    st'.redSeed1_ = ins.reverse ++ st.redSeed1_ ∧
    Fresh (fun b a => b = a) st.redSeed1_ ins ∧
    (framed new).Sublist ins ∧
    st'.rshit + ins.length = st.rshit + advances new ∧
    st'.redAnchor_ = insA.reverse ++ st.redAnchor_ ∧
    Fresh Redundant st.redAnchor_ insA ∧
    (reported new).Sublist insA

/-! ## The paired driver (`SwDriver::extendSeedsPaired`, `aligner_sw_driver.cpp`)

As for `extendSeeds`, what the collaborators answer is an input of the embedding.
Each alignment of the anchor mate carries what the mate-finding collaborators
answer for it: `pepol.otherMate`, `dpframe.frameFindMate`, and the results of the
successive `oswa.nextAlignment` calls of the `do ... while` loop.
The loop consults `oswa` whether or not `oswa.init` was called for this anchor, so
the results are an input in either case. -/

/-- Modelled from the spec: `AlnRes::within(id, off, fw, extent)` is declared in a
header that is not among the sources.  The alignment lies on reference `id` with
orientation `fw`, within `[off, off + extent)`. -/
def AlnRes.within (a : AlnRes) (id : Nat) (off : Int) (fw : Bool) (extent : Nat) : Bool :=
  a.refid == id && a.fw == fw && decide (off ≤ a.refoff) &&
    decide (a.refoff + a.extent ≤ off + extent)

/-- What the mate-finding collaborators answer for one anchor alignment:
`otherMate` and `ofw` are the flag returned by `pepol.otherMate` and the
orientation it writes to `ofw`, `frameFindMate` is the flag returned by
`dpframe.frameFindMate`, and `mates` are the results of the successive
`oswa.nextAlignment` calls (`[]` when `oswa.done()`, `none` for an empty result).
The flag returned by `oswa.align` is overwritten at the top of the `do ... while`
loop before it is read, so it is not among the answers. -/
structure MateAns where
  otherMate : Bool
  ofw : Bool
  frameFindMate : Bool
  mates : List (Option AlnRes)

/-- One alignment of the anchor mate pulled by `swa.nextAlignment`, with the
answers of the mate-finding collaborators for it. -/
structure AnchorAln where
  res : AlnRes
  mate : MateAns

/-- One element yielded by `gws_[i].advanceQvalPos` in `extendSeedsPaired`:
`wr.toff`, `wr.elt.len`, the flag returned by `swa.align`, and the results of the
successive `swa.nextAlignment` calls until `swa.done()` (`none` is an empty
result). -/
structure PairedWalkElt where
  toff : Nat
  len : Nat
  aligned : Bool
  alns : List (Option AnchorAln)

/-- One seed hit of the anchor mate in rank order, as `SeedHit`. -/
structure PairedSeedHit where
  rdoff : Nat
  fw : Bool
  seedlen : Nat
  walk : List PairedWalkElt

/-- The arguments of `extendSeedsPaired` that the control flow looks at, the
global `gReportOverhangs`, and the collaborators that are functions of their
arguments.  `peClassifyPair`, the constant `PE_ALS_DISCORD` (`pe.h`) and
`ReportingState::doneWithMate` (`aln_sink.h`) are declared in headers that are not
among the sources and are parameters here. -/
structure PairedArgs where
  rdlen : Nat
  anchor1 : Bool
  color : Bool
  reportImmediately : Bool
  discord : Bool
  mixed : Bool
  gReportOverhangs : Bool
  joinedToTextOff : Nat → Nat → Nat × Nat × Nat
  frameSeedExtension : Int → Nat → Nat → Bool
  peClassifyPair : Int → Nat → Bool → Int → Nat → Bool → Int
  PE_ALS_DISCORD : Int
  doneWithMate : ReportingState → Bool → Bool

/-- A call recorded in the log of `extendSeedsPaired`.  `advance`, `frame`, `dp`
and `next` are as in `Call`; `otherMate`, `frameFindMate`, `mateDp` and `mateNext`
are `pepol.otherMate`, `dpframe.frameFindMate`, `oswa.init` with `oswa.align`, and
`oswa.nextAlignment`.  `reportPair before tidx tlen ofw r1 r2 ret` is the call
`msink->report(0, &r1, &r2)` that returned `ret`, made when the reporting state of
the sink was `before`, for an anchor on reference `tidx` of length `tlen` and an
opposite mate looked for with orientation `ofw`; `reportUnpaired mate1 a ret` is
the call that reports `a` as an unpaired alignment of mate 1 (`mate1 = true`) or
mate 2. -/
inductive PairedCall where
  | advance (rank : Nat)
  | frame (c : Coord)
  | dp (tidx : Nat) (refoff : Int)
  | next
  | otherMate
  | frameFindMate
  | mateDp
  | mateNext
  | reportPair (before : ReportingState) (tidx tlen : Nat) (ofw : Bool) (r1 r2 : AlnRes)
      (ret : Bool)
  | reportUnpaired (mate1 : Bool) (a : AlnRes) (ret : Bool)
  deriving DecidableEq

/-- What `extendSeedsPaired` changes: the redundancy sets of the driver, the
counter `swmSeed.rshit`, the sink, its own copy of the argument
`swMateImmediately`, and the log. -/
structure PairedState where
  redSeed1_ : List Coord
  redSeed2_ : List Coord
  redAnchor_ : List AlnRes
  redMate1_ : List AlnRes
  redMate2_ : List AlnRes
  rshit : Nat
  msink : AlnSinkWrap
  swMateImmediately : Bool
  log : List PairedCall

/-- The statement that reports `r` as an unpaired alignment of one mate:
`if(!msink->state().doneUnpaired(mate1)) { if(!red.overlap(r)) { red.add(r);
if(msink->report(...)) return true; } }` with `red` the set of the mate.  The flag
is true when the function returns true. -/
def reportUnpairedHit (s : PairedState) (mate1 : Bool) (r : AlnRes) : PairedState × Bool :=
  if !s.msink.st_.doneUnpaired mate1 then
    if !overlap (if mate1 then s.redMate1_ else s.redMate2_) r then
      let s : PairedState :=
        if mate1 then { s with redMate1_ := r :: s.redMate1_ }
        else { s with redMate2_ := r :: s.redMate2_ }
      let rep := s.msink.report (if mate1 then some r else none)
        (if mate1 then none else some r)
      ({ s with msink := rep.1, log := s.log ++ [PairedCall.reportUnpaired mate1 r rep.2] },
        rep.2)
    else (s, false)
  else (s, false)

/-- The branch that reports the anchor alignment `res` alone, under
`mixed || discord`: the unpaired report for the anchor mate, then
`if(msink->state().doneWithMate(anchor1)) return false`.  The result is `some b`
when the function returns `b`, and `none` when it goes on. -/
def anchorUnpaired (args : PairedArgs) (res : AlnRes) (s : PairedState) :
    PairedState × Option Bool :=
  if args.mixed || args.discord then
    let u := reportUnpairedHit s args.anchor1 res
    if u.2 then (u.1, some true)
    else if args.doneWithMate u.1.msink.st_ args.anchor1 then (u.1, some false)
    else (u.1, none)
  else (s, none)

/-- The block `if(mixed || discord) { ... }` that follows the report of a pair: the
alignment `r1` of mate 1 and then the alignment `r2` of mate 2 are each reported as
an unpaired alignment.  The flag is true when the function returns true. -/
def reportBothUnpaired (args : PairedArgs) (r1 r2 : AlnRes) (s : PairedState) :
    PairedState × Bool :=
  if args.mixed || args.discord then
    let u1 := reportUnpairedHit s true r1
    if u1.2 then u1 else reportUnpairedHit u1.1 false r2
  else (s, false)

/-- The branch that reports the pair of the anchor alignment `res` and the
opposite alignment `m`: the pair, then under `mixed || discord` each of the two
as an unpaired alignment of its mate, then
`if(msink->state().doneWithMate(anchor1)) return false`. -/
def reportPairHit (args : PairedArgs) (tidx tlen : Nat) (ofw : Bool) (res m : AlnRes)
    (s : PairedState) : PairedState × Option Bool :=
  let r1 := if args.anchor1 then res else m
  let r2 := if args.anchor1 then m else res
  let rep := s.msink.report (some r1) (some r2)
  let s : PairedState :=
    { s with
      msink := rep.1
      log := s.log ++ [PairedCall.reportPair s.msink.st_ tidx tlen ofw r1 r2 rep.2] }
  if rep.2 then (s, some true)
  else
    let u := reportBothUnpaired args r1 r2 s
    if u.2 then (u.1, some true)
    else if args.doneWithMate u.1.msink.st_ args.anchor1 then (u.1, some false)
    else (u.1, none)

/-- The value of `foundMate` at `if(reportImmediately)`, for an opposite alignment
`m` that was pulled (`foundMate = !ores_.empty()` is true): it is set to false if
overhangs are not permitted and `m` is not within the reference, then to
`pairCl != PE_ALS_DISCORD`, then to false if the concordant category is done. -/
def pairFound (args : PairedArgs) (tidx tlen : Nat) (ofw : Bool) (res m : AlnRes)
    (s : PairedState) : Bool :=
  let foundMate : Bool := true
  let foundMate : Bool :=
    if !args.gReportOverhangs && !m.within tidx 0 ofw tlen then false else foundMate
  let foundMate : Bool :=
    if foundMate then
      let off := res.refoff
      let off1 := if args.anchor1 then off else m.refoff
      let off2 := if args.anchor1 then m.refoff else off
      let len1 := if args.anchor1 then res.extent else m.extent
      let len2 := if args.anchor1 then m.extent else res.extent
      let fw1 := if args.anchor1 then res.fw else m.fw
      let fw2 := if args.anchor1 then m.fw else res.fw
      decide (args.peClassifyPair off1 len1 fw1 off2 len2 fw2 ≠ args.PE_ALS_DISCORD)
    else foundMate
  if s.msink.st_.doneConcordant then false else foundMate

/-- One pass through the body of the loop `do { ... } while(!ores_.empty())` after
`ores_` was filled: `o` is the opposite alignment pulled (`none` when `oswa.done()`
or the result is empty). -/
def mateBody (args : PairedArgs) (tidx tlen : Nat) (ofw : Bool) (res : AlnRes)
    (s : PairedState) (o : Option AlnRes) : PairedState × Option Bool :=
  match o with
  | none =>
    if args.reportImmediately then anchorUnpaired args res s else (s, none)
  | some m =>
    let s : PairedState :=
      if !overlap s.redAnchor_ m then { s with redAnchor_ := m :: s.redAnchor_ } else s
    if args.reportImmediately then
      if pairFound args tidx tlen ofw res m s then reportPairHit args tidx tlen ofw res m s
      else anchorUnpaired args res s
    else (s, none)

/-- The loop `do { ... } while(!ores_.empty())` of `extendSeedsPaired` for the
anchor alignment `res`, over the results that `oswa` yields. -/
def mateLoop (args : PairedArgs) (tidx tlen : Nat) (ofw : Bool) (res : AlnRes)
    (s : PairedState) : List (Option AlnRes) → PairedState × Option Bool
  | [] => mateBody args tidx tlen ofw res s none
  | none :: _ =>
    mateBody args tidx tlen ofw res { s with log := s.log ++ [PairedCall.mateNext] } none
  | some m :: rest =>
    let r := mateBody args tidx tlen ofw res
      { s with log := s.log ++ [PairedCall.mateNext] } (some m)
    match r.2 with
    | some b => (r.1, some b)
    | none => mateLoop args tidx tlen ofw res r.1 rest

/-- The branch `if(found && swMateImmediately)` of `extendSeedsPaired` for the
anchor alignment `x.res`: `pepol.otherMate` unless the concordant category is done,
`dpframe.frameFindMate` and `oswa.init`/`oswa.align` while `foundMate` is true, and
the loop over the opposite alignments. -/
def mateSearch (args : PairedArgs) (tidx tlen : Nat) (x : AnchorAln) (s : PairedState) :
    PairedState × Option Bool :=
  let dc := s.msink.st_.doneConcordant
  let foundMate : Bool := if !dc then x.mate.otherMate else false
  let ofw : Bool := if !dc then x.mate.ofw else false
  let s : PairedState :=
    if !dc then { s with log := s.log ++ [PairedCall.otherMate] } else s
  let s : PairedState :=
    if foundMate then { s with log := s.log ++ [PairedCall.frameFindMate] } else s
  let foundMate : Bool := if foundMate then x.mate.frameFindMate else foundMate
  let s : PairedState :=
    if foundMate then { s with log := s.log ++ [PairedCall.mateDp] } else s
  mateLoop args tidx tlen ofw x.res s x.mate.mates

/-- What `extendSeedsPaired` does with one anchor alignment that is not redundant,
from `redAnchor_.add(res_.alres)` to the end of the body of the loop
`while(true)`. -/
def anchorHit (args : PairedArgs) (tidx tlen : Nat) (x : AnchorAln) (s : PairedState) :
    PairedState × Option Bool :=
  let s : PairedState := { s with redAnchor_ := x.res :: s.redAnchor_ }
  let s : PairedState :=
    if args.doneWithMate s.msink.st_ (!args.anchor1) &&
        !args.doneWithMate s.msink.st_ args.anchor1 then
      { s with swMateImmediately := false }
    else s
  if s.swMateImmediately then mateSearch args tidx tlen x s
  else if args.reportImmediately then anchorUnpaired args x.res s
  else (s, none)

/-- The loop `while(true)` of `extendSeedsPaired` that pulls the anchor alignments
of one dynamic-programming problem. -/
def anchorLoop (args : PairedArgs) (tidx tlen : Nat) (s : PairedState) :
    List (Option AnchorAln) → PairedState × Option Bool
  | [] => (s, none)
  | none :: _ => ({ s with log := s.log ++ [PairedCall.next] }, none)
  | some x :: rest =>
    let s : PairedState := { s with log := s.log ++ [PairedCall.next] }
    if overlap s.redAnchor_ x.res then anchorLoop args tidx tlen s rest
    else
      let r := anchorHit args tidx tlen x s
      match r.2 with
      | some b => (r.1, some b)
      | none => anchorLoop args tidx tlen r.1 rest

/-- The set `redSeedAnchor` of `extendSeedsPaired`: `redSeed1_` when the anchor is
mate 1, `redSeed2_` otherwise. -/
def PairedState.redSeedAnchor (s : PairedState) (anchor1 : Bool) : List Coord :=
  if anchor1 then s.redSeed1_ else s.redSeed2_

/-- The loop `while(!gws_[i].done())` of `extendSeedsPaired` for the seed hit of
rank `rank`, whose read offset is `rdoff` and orientation `fw`. -/
def pairedWalk (args : PairedArgs) (rank rdoff : Nat) (fw : Bool) (s : PairedState) :
    List PairedWalkElt → PairedState × Option Bool
  | [] => (s, none)
  | wr :: more =>
    let s : PairedState := { s with log := s.log ++ [PairedCall.advance rank] }
    let c : Coord := { ref := 0, off := (wr.toff : Int) - (rdoff : Int), fw := fw }
    if c ∈ s.redSeedAnchor args.anchor1 then
      pairedWalk args rank rdoff fw { s with rshit := s.rshit + 1 } more
    else
      let s : PairedState :=
        if args.anchor1 then { s with redSeed1_ := c :: s.redSeed1_ }
        else { s with redSeed2_ := c :: s.redSeed2_ }
      let t := args.joinedToTextOff wr.len wr.toff
      let tidx := t.1
      let toff := t.2.1
      let tlen := (t.2.2 + (if args.color then 1 else 0)) % 2 ^ 32
      if tidx = 0xffffffff then pairedWalk args rank rdoff fw s more
      else
        let refoff : Int := (toff : Int) - (rdoff : Int)
        let rows := args.rdlen + (if args.color then 1 else 0)
        let s : PairedState := { s with log := s.log ++ [PairedCall.frame c] }
        if !args.frameSeedExtension refoff rows tlen then
          pairedWalk args rank rdoff fw s more
        else
          let s : PairedState := { s with log := s.log ++ [PairedCall.dp tidx refoff] }
          if !wr.aligned then pairedWalk args rank rdoff fw s more
          else
            let r := anchorLoop args tidx tlen s wr.alns
            match r.2 with
            | some b => (r.1, some b)
            | none => pairedWalk args rank rdoff fw r.1 more

/-- The loop `for(size_t i = 0; i < poss; i++)` of `extendSeedsPaired` from rank
`i` on. -/
def pairedRanks (args : PairedArgs) (s : PairedState) :
    Nat → List PairedSeedHit → PairedState × Option Bool
  | _, [] => (s, none)
  | i, hit :: hits =>
    let rdoff :=
      if !hit.fw then
        (((args.rdlen : Int) - (hit.rdoff : Int) - (hit.seedlen : Int)) % 2 ^ 32).toNat
      else hit.rdoff
    let r := pairedWalk args i rdoff hit.fw s hit.walk
    match r.2 with
    | some b => (r.1, some b)
    | none => pairedRanks args r.1 (i + 1) hits

/-- `SwDriver::extendSeedsPaired`: `hits` are the seed hits of the anchor mate in
rank order, `poss` the number of ranks to explore, and `s.swMateImmediately` the
argument `swMateImmediately`; the state left behind and the returned flag (the
function returns false when the loops run out). -/
def extendSeedsPaired (args : PairedArgs) (hits : List PairedSeedHit) (poss : Nat)
    (s : PairedState) : PairedState × Bool :=
  let r := pairedRanks args s 0 (hits.take poss)
  (r.1, r.2.getD false)

/-- The coordinates for which the log of `extendSeedsPaired` records a call of
`frameSeedExtension`, in the order of the calls. -/
def pairedFramed (l : List PairedCall) : List Coord :=
  l.filterMap (fun c => match c with
    | PairedCall.frame c => some c
    | _ => none)

/-- The number of walker results that the log of `extendSeedsPaired` records. -/
def pairedAdvances (l : List PairedCall) : Nat :=
  l.countP (fun c => match c with
    | PairedCall.advance _ => true
    | _ => false)

/-- The alignments that the log of `extendSeedsPaired` records as reported as
unpaired alignments of mate 1 (`mate1 = true`) or of mate 2, in the order of the
calls. -/
def unpairedReported (mate1 : Bool) (l : List PairedCall) : List AlnRes :=
  l.filterMap (fun c => match c with
    | PairedCall.reportUnpaired m a _ => if m = mate1 then some a else none
    | _ => none)

/-- What C25 says of a recorded report of a pair: the concordant category was open
when the call was made, the alignment of the opposite mate lies within the
reference unless overhangs are permitted, and `peClassifyPair` on the two
placements is not `PE_ALS_DISCORD`.  (Other calls are not constrained.) -/
def PairOk (args : PairedArgs) : PairedCall → Prop
  | PairedCall.reportPair before tidx tlen ofw r1 r2 _ =>
    before.doneConcordant = false ∧
    (args.gReportOverhangs = true ∨
      (if args.anchor1 then r2 else r1).within tidx 0 ofw tlen = true) ∧
    args.peClassifyPair r1.refoff r1.extent r1.fw r2.refoff r2.extent r2.fw ≠
      args.PE_ALS_DISCORD
  | _ => True

/-- What a stretch of `extendSeedsPaired` that leads from the state `s` to the
state `s'` does: it writes the calls `new` to the log; it inserts the coordinates
`ins` into the anchor set, none of them already there, it calls
`frameSeedExtension` only for coordinates it inserts, in the order of insertion,
and every walker result either inserts its coordinate or increments `rshit`; the
alignments it reports as unpaired alignments of mate 1 are those it inserts into
`redMate1_`, none of them redundant with an alignment already there, and likewise
for mate 2; and every report of a pair is as `PairOk` says. -/
def StepsP (args : PairedArgs) (s s' : PairedState) : Prop :=
  ∃ (new : List PairedCall) (ins : List Coord) (ins1 ins2 : List AlnRes),
    s'.log = s.log ++ new ∧
    s'.redSeedAnchor args.anchor1 = ins.reverse ++ s.redSeedAnchor args.anchor1 ∧
    Fresh (fun b a => b = a) (s.redSeedAnchor args.anchor1) ins ∧
    (pairedFramed new).Sublist ins ∧
    s'.rshit + ins.length = s.rshit + pairedAdvances new ∧
    s'.redMate1_ = ins1.reverse ++ s.redMate1_ ∧
    Fresh Redundant s.redMate1_ ins1 ∧
    unpairedReported true new = ins1 ∧
    s'.redMate2_ = ins2.reverse ++ s.redMate2_ ∧
    Fresh Redundant s.redMate2_ ins2 ∧
    unpairedReported false new = ins2 ∧
    ∀ c ∈ new, PairOk args c

/-! ## Overhanging alignments, and the sink in Mode 2 -/

/-- The assertion of `extendSeeds` on an alignment pulled from the aligner,
`assert(gReportOverhangs || res_.alres.within(tidx, 0, fw, tlen))`. -/
def extendSeedsOverhangAssert (gReportOverhangs : Bool) (tidx tlen : Nat) (fw : Bool)
    (res : AlnRes) : Bool :=
  gReportOverhangs || res.within tidx 0 fw tlen

/-- The loop `while(true)` of `extendSeeds` with its assertion on the alignment
pulled executed: as `extendAlns`, but the run ends where
`assert(gReportOverhangs || res_.alres.within(tidx, 0, fw, tlen))` fails.
`Except.error st` is a failed assertion, with the state `st` in which it failed;
`Except.ok` carries what `extendAlns` returns. -/
def extendAlnsAsserted (gReportOverhangs : Bool) (tidx tlen : Nat) (fw : Bool)
    (args : ExtendArgs) (st : ExtendState) :
    List (Option AlnRes) → Except ExtendState (ExtendState × Bool)
  | [] => Except.ok (st, false)
  | none :: _ => Except.ok ({ st with log := st.log ++ [Call.next] }, false)
  | some res :: rest =>
    let st := { st with log := st.log ++ [Call.next] }
    if !extendSeedsOverhangAssert gReportOverhangs tidx tlen fw res then Except.error st
    else if overlap st.redAnchor_ res then
      extendAlnsAsserted gReportOverhangs tidx tlen fw args st rest
    else
      let st := { st with redAnchor_ := res :: st.redAnchor_ }
      if args.reportImmediately then
        let r := st.msink.report (if args.mate1 then some res else none)
          (if args.mate1 then none else some res)
        let st := { st with msink := r.1, log := st.log ++ [Call.report res r.2] }
        if r.2 then Except.ok (st, true)
        else extendAlnsAsserted gReportOverhangs tidx tlen fw args st rest
      else extendAlnsAsserted gReportOverhangs tidx tlen fw args st rest

/-- The state in which a run of `extendAlnsAsserted` ended, at a return or at a
failed assertion. -/
def lastState : Except ExtendState (ExtendState × Bool) → ExtendState
  | Except.error st => st
  | Except.ok r => r.1

/-- The sink does not take unpaired alignments and has none: both unpaired
categories are done, as `ReportingState::nextRead` leaves them for a paired read
when `mixed` is false, the unpaired and discordant counters are 0, the discordant
category has not exited with alignments, and the lists of unpaired alignments are
empty. -/
def UnpairedShut (w : AlnSinkWrap) : Prop :=
  w.st_.doneUnpair1_ = true ∧ w.st_.doneUnpair2_ = true ∧
  w.st_.nunpair1_ = 0 ∧ w.st_.nunpair2_ = 0 ∧ w.st_.ndiscord_ = 0 ∧
  w.st_.exitDiscord_ ≠ Exit.WITH_ALIGNMENTS ∧ w.rs1u_ = [] ∧ w.rs2u_ = []

/-- A stretch of `extendSeedsPaired` from `s` to `s'` that, when the sink does not
take unpaired alignments, leaves it so and adds nothing to the sets `redMate1_`
and `redMate2_`. -/
def KeepsShut (s s' : PairedState) : Prop :=
  UnpairedShut s.msink →
    UnpairedShut s'.msink ∧ s'.redMate1_ = s.redMate1_ ∧ s'.redMate2_ = s.redMate2_

/-- Sample arguments of `extendSeedsPaired` in Mode 2 (`discord` true, `mixed`
false) with immediate reporting: a 20-base anchor mate, one reference of length
1000 that joined offsets fall into unchanged, a framer that always succeeds, and
`d` for `doneWithMate`. -/
def PairedArgs.sample (anchor1 : Bool) (d : ReportingState → Bool → Bool) : PairedArgs :=
  { rdlen := 20, anchor1 := anchor1, color := false, reportImmediately := true,
    discord := true, mixed := false, gReportOverhangs := false,
    joinedToTextOff := fun _ toff => (0, toff, 1000),
    frameSeedExtension := fun _ _ _ => true,
    peClassifyPair := fun _ _ _ _ _ _ => 0, PE_ALS_DISCORD := 0,
    doneWithMate := d }

/-- One seed hit of the anchor mate whose walker yields the joined offset `toff`,
for which the aligner answers one alignment, at offset `toff` of the reference,
and no alignment of the opposite mate is found for it. -/
def PairedSeedHit.sample (toff : Nat) : List PairedSeedHit :=
  [ { rdoff := 0, fw := true, seedlen := 10,
      walk := [ { toff := toff, len := 10, aligned := true,
                  alns := [some { res := AlnRes.sample toff,
                                  mate := { otherMate := false, ofw := false,
                                            frameFindMate := false, mates := [] } }] } ] } ]

/-- A driver state with empty redundancy sets and an empty log, the sink `w`, and
true for the argument `swMateImmediately`. -/
def PairedState.fresh (w : AlnSinkWrap) : PairedState :=
  { redSeed1_ := [], redSeed2_ := [], redAnchor_ := [], redMate1_ := [], redMate2_ := [],
    rshit := 0, msink := w, swMateImmediately := true, log := [] }

/-- A paired read in Mode 2 with `-k 1 -m 1` (the parameters of test case 8): the
sink after `nextRead` for the two mates, then `extendSeedsPaired` with mate 1 as
the anchor, which finds one alignment of mate 1 at offset 100, then
`extendSeedsPaired` with mate 2 as the anchor, which finds one alignment of mate 2
at offset 500. -/
def mode2Run (d : ReportingState → Bool → Bool) : PairedState :=
  let w := (AlnSinkWrap.fresh paramsM1NotMixed true).nextRead true true 0
  let s := (extendSeedsPaired (PairedArgs.sample true d) (PairedSeedHit.sample 100) 1
    (PairedState.fresh w)).1
  (extendSeedsPaired (PairedArgs.sample false d) (PairedSeedHit.sample 500) 1
    { s with swMateImmediately := true }).1

/-! ## The report computed by `getReport` -/

theorem getReportUnpaired_eq (p : ReportingParams) (s : ReportingState) (r : Report) :
    getReportUnpaired p s r =
      if (s.paired_ && !p.mixed) || s.nunpair1_ + s.nunpair2_ == 0 then r
      else
        { nconcordAln := r.nconcordAln, ndiscordAln := r.ndiscordAln,
          nunpair1Aln := mateAln p s.exitUnpair1_ s.nunpair1_ r.nunpair1Aln,
          nunpair2Aln := mateAln p s.exitUnpair2_ s.nunpair2_ r.nunpair2Aln,
          pairMax := r.pairMax,
          unpair1Max := mateMax s.exitUnpair1_ r.unpair1Max,
          unpair2Max := mateMax s.exitUnpair2_ r.unpair2Max } := by
  unfold getReportUnpaired
  split
  · rfl
  · cases h1 : s.exitUnpair1_ <;> cases h2 : s.exitUnpair2_ <;> simp [mateAln, mateMax]

theorem mateAln_le (p : ReportingParams) (e : Exit) (n old : Nat)
    (hk : 1 ≤ p.khits) (ho : old ≤ p.khits) : mateAln p e n old ≤ p.khits := by
  cases e <;> simp [mateAln] <;> omega

theorem getReportUnpaired_bounds (p : ReportingParams) (s : ReportingState) (r : Report)
    (hk : 1 ≤ p.khits) (h0 : r.nconcordAln ≤ p.khits) (h1 : r.nunpair1Aln ≤ p.khits)
    (h2 : r.nunpair2Aln ≤ p.khits) :
    (getReportUnpaired p s r).nconcordAln ≤ p.khits ∧
      (getReportUnpaired p s r).nunpair1Aln ≤ p.khits ∧
      (getReportUnpaired p s r).nunpair2Aln ≤ p.khits := by
  rw [getReportUnpaired_eq]
  split
  · exact ⟨h0, h1, h2⟩
  · exact ⟨h0, mateAln_le p _ _ _ hk h1, mateAln_le p _ _ _ hk h2⟩

theorem getReport_bounds (p : ReportingParams) (s : ReportingState) (hk : 1 ≤ p.khits) :
    (getReport p s).nconcordAln ≤ p.khits ∧ (getReport p s).nunpair1Aln ≤ p.khits ∧
      (getReport p s).nunpair2Aln ≤ p.khits := by
  unfold getReport
  by_cases hp : s.paired_ = true
  · simp only [hp, if_true]
    split_ifs
    all_goals first
      | (apply getReportUnpaired_bounds p s _ hk <;> simp)
      | (simp; try omega)
  · simp only [hp]
    apply getReportUnpaired_bounds p s _ hk <;> simp

theorem getReportUnpaired_nconcordAln (p : ReportingParams) (s : ReportingState)
    (r : Report) : (getReportUnpaired p s r).nconcordAln = r.nconcordAln := by
  rw [getReportUnpaired_eq]
  split <;> rfl

theorem getReportUnpaired_ndiscordAln (p : ReportingParams) (s : ReportingState)
    (r : Report) : (getReportUnpaired p s r).ndiscordAln = r.ndiscordAln := by
  rw [getReportUnpaired_eq]
  split <;> rfl

theorem getReportUnpaired_pairMax (p : ReportingParams) (s : ReportingState)
    (r : Report) : (getReportUnpaired p s r).pairMax = r.pairMax := by
  rw [getReportUnpaired_eq]
  split <;> rfl

/-- C1: for every parameter set with `khits >= 1`, after `nextRead` (from any
previous state, paired or not), any sequence of calls of the state machine and
`finish`, the numbers of concordant, mate-1 and mate-2 alignments that
`getReport` asks to report are each at most `khits`. -/
theorem getReport_le_khits (p : ReportingParams) (s0 : ReportingState) (paired : Bool)
    (evs : List Event) (hk : 1 ≤ p.khits) :
    (getReport p (finish (run p (nextRead p s0 paired) evs))).nconcordAln ≤ p.khits ∧
    (getReport p (finish (run p (nextRead p s0 paired) evs))).nunpair1Aln ≤ p.khits ∧
    (getReport p (finish (run p (nextRead p s0 paired) evs))).nunpair2Aln ≤ p.khits :=
  getReport_bounds p _ hk

theorem getReport_le_khits_witness :
    1 ≤ paramsM3.khits ∧
    (getReport paramsM3 (finish (run paramsM3 (nextRead paramsM3 noRead true)
      [Event.unpaired true, Event.unpaired false, Event.concordant]))).nconcordAln
        ≤ paramsM3.khits :=
  ⟨by decide,
    (getReport_le_khits paramsM3 noRead true
      [Event.unpaired true, Event.unpaired false, Event.concordant] (by decide)).1⟩

/-- C5: for every state and all parameters, the outputs of `getReport` never have
both `nconcordAln > 0` and `ndiscordAln > 0`; whenever `nconcordAln > 0` or
`ndiscordAln > 0`, both `nunpair1Aln` and `nunpair2Aln` are 0; and `ndiscordAln`
is 0 or 1. -/
theorem getReport_exclusive (p : ReportingParams) (s : ReportingState) :
    ¬ (0 < (getReport p s).nconcordAln ∧ 0 < (getReport p s).ndiscordAln) ∧
    ((0 < (getReport p s).nconcordAln ∨ 0 < (getReport p s).ndiscordAln) →
      (getReport p s).nunpair1Aln = 0 ∧ (getReport p s).nunpair2Aln = 0) ∧
    ((getReport p s).ndiscordAln = 0 ∨ (getReport p s).ndiscordAln = 1) := by
  unfold getReport
  by_cases hp : s.paired_ = true
  · simp only [hp, if_true]
    split_ifs <;>
      simp [getReportUnpaired_nconcordAln, getReportUnpaired_ndiscordAln]
  · simp [hp, getReportUnpaired_nconcordAln, getReportUnpaired_ndiscordAln]

/-! ## The event functions, field by field -/

theorem areDone_eq (p : ReportingParams) (n : Nat) (d : Bool) (e : Exit) :
    areDone p n d e = if ceilingHit p n then (true, ceilingExit p) else (d, e) := by
  unfold areDone ceilingHit ceilingExit
  cases p.mhitsSet <;> cases p.msample <;> simp

/-- The state written by `foundUnpaired(true)`, field by field. -/
theorem foundUnpaired_true_eq (p : ReportingParams) (s : ReportingState) :
    foundUnpaired p s true =
      { s with
        nunpair1_ := s.nunpair1_ + 1
        doneUnpair1_ := s.doneUnpair1_ || ceilingHit p (s.nunpair1_ + 1)
        exitUnpair1_ :=
          if !s.doneUnpair1_ && ceilingHit p (s.nunpair1_ + 1) then ceilingExit p
          else s.exitUnpair1_
        doneUnpair_ :=
          if !s.doneUnpair1_ && ceilingHit p (s.nunpair1_ + 1) then s.doneUnpair2_
          else s.doneUnpair_
        done_ :=
          if !s.doneUnpair1_ && ceilingHit p (s.nunpair1_ + 1) then
            s.doneUnpair2_ && s.doneDiscord_ && s.doneConcord_
          else s.done_
        doneDiscord_ := s.doneDiscord_ || decide (s.nunpair1_ + 1 > 1)
        exitDiscord_ :=
          if s.nunpair1_ + 1 > 1 then Exit.NO_ALIGNMENTS else s.exitDiscord_ } := by
  obtain ⟨st, pa, nc, nd, n1, n2, dc, dd, d1, d2, du, d, ec, ed, e1, e2⟩ := s
  cases d1
  · cases h : ceilingHit p (n1 + 1) <;>
      simp [foundUnpaired, updateDone, areDone_eq, h] <;> split_ifs <;> simp_all
  · simp [foundUnpaired]
    split_ifs <;> simp_all

/-- The state written by `foundUnpaired(false)`, field by field. -/
theorem foundUnpaired_false_eq (p : ReportingParams) (s : ReportingState) :
    foundUnpaired p s false =
      { s with
        nunpair2_ := s.nunpair2_ + 1
        doneUnpair2_ := s.doneUnpair2_ || ceilingHit p (s.nunpair2_ + 1)
        exitUnpair2_ :=
          if !s.doneUnpair2_ && ceilingHit p (s.nunpair2_ + 1) then ceilingExit p
          else s.exitUnpair2_
        doneUnpair_ :=
          if !s.doneUnpair2_ && ceilingHit p (s.nunpair2_ + 1) then s.doneUnpair1_
          else s.doneUnpair_
        done_ :=
          if !s.doneUnpair2_ && ceilingHit p (s.nunpair2_ + 1) then
            s.doneUnpair1_ && s.doneDiscord_ && s.doneConcord_
          else s.done_
        doneDiscord_ := s.doneDiscord_ || decide (s.nunpair2_ + 1 > 1)
        exitDiscord_ :=
          if s.nunpair2_ + 1 > 1 then Exit.NO_ALIGNMENTS else s.exitDiscord_ } := by
  obtain ⟨st, pa, nc, nd, n1, n2, dc, dd, d1, d2, du, d, ec, ed, e1, e2⟩ := s
  cases d2
  · cases h : ceilingHit p (n2 + 1) <;>
      simp [foundUnpaired, updateDone, areDone_eq, h] <;> split_ifs <;> simp_all
  · simp [foundUnpaired]
    split_ifs <;> simp_all

/-- The state written by `foundConcordant`, field by field. -/
theorem foundConcordant_eq (p : ReportingParams) (s : ReportingState) :
    foundConcordant p s =
      { s with
        nconcord_ := s.nconcord_ + 1
        doneConcord_ := (areDone p (s.nconcord_ + 1) s.doneConcord_ s.exitConcord_).1
        exitConcord_ := (areDone p (s.nconcord_ + 1) s.doneConcord_ s.exitConcord_).2
        doneDiscord_ := true
        exitDiscord_ := Exit.SHORT_CIRCUIT_TRUMPED
        doneUnpair1_ := s.doneUnpair1_ || concordTrumps p s
        doneUnpair2_ := s.doneUnpair2_ || concordTrumps p s
        exitUnpair1_ :=
          if !s.doneUnpair1_ && concordTrumps p s then Exit.SHORT_CIRCUIT_TRUMPED
          else s.exitUnpair1_
        exitUnpair2_ :=
          if !s.doneUnpair2_ && concordTrumps p s then Exit.SHORT_CIRCUIT_TRUMPED
          else s.exitUnpair2_
        doneUnpair_ :=
          (s.doneUnpair1_ || concordTrumps p s) && (s.doneUnpair2_ || concordTrumps p s)
        done_ :=
          (s.doneUnpair1_ || concordTrumps p s) && (s.doneUnpair2_ || concordTrumps p s) &&
            (areDone p (s.nconcord_ + 1) s.doneConcord_ s.exitConcord_).1 } := by
  obtain ⟨st, pa, nc, nd, n1, n2, dc, dd, d1, d2, du, d, ec, ed, e1, e2⟩ := s
  unfold concordTrumps
  simp only []
  cases h : areDone p (nc + 1) dc ec with
  | mk b e =>
    cases b <;> cases d1 <;> cases d2 <;>
      simp [foundConcordant, updateDone, h] <;>
      (by_cases h1 : e = Exit.SHORT_CIRCUIT_m <;> by_cases h2 : e = Exit.SHORT_CIRCUIT_M <;>
        simp [h1, h2])

/-- The state written by `foundDiscordant`, field by field. -/
theorem foundDiscordant_eq (s : ReportingState) :
    foundDiscordant s =
      { s with
        ndiscord_ := s.ndiscord_ + 1
        doneDiscord_ := true
        exitDiscord_ := Exit.WITH_ALIGNMENTS
        doneUnpair1_ := true
        doneUnpair2_ := true
        exitUnpair1_ :=
          if s.doneUnpair1_ then s.exitUnpair1_ else Exit.SHORT_CIRCUIT_TRUMPED
        exitUnpair2_ :=
          if s.doneUnpair2_ then s.exitUnpair2_ else Exit.SHORT_CIRCUIT_TRUMPED
        doneUnpair_ := true
        done_ := s.doneConcord_ } := by
  obtain ⟨st, pa, nc, nd, n1, n2, dc, dd, d1, d2, du, d, ec, ed, e1, e2⟩ := s
  cases d1 <;> cases d2 <;> rfl

/-- The state written by `finish`, field by field. -/
theorem finish_eq (s : ReportingState) :
    finish s =
      { state_ := s.state_, paired_ := s.paired_, nconcord_ := s.nconcord_,
        ndiscord_ := if converts s then 1 else s.ndiscord_,
        nunpair1_ := if converts s then 0 else s.nunpair1_,
        nunpair2_ := if converts s then 0 else s.nunpair2_,
        doneConcord_ := true, doneDiscord_ := true, doneUnpair1_ := true,
        doneUnpair2_ := true, doneUnpair_ := true, done_ := true,
        exitConcord_ :=
          if s.doneConcord_ then s.exitConcord_
          else if s.nconcord_ > 0 then Exit.WITH_ALIGNMENTS else Exit.NO_ALIGNMENTS,
        exitDiscord_ :=
          if s.doneDiscord_ then s.exitDiscord_
          else if converts s ∨ s.ndiscord_ > 0 then Exit.WITH_ALIGNMENTS
          else Exit.NO_ALIGNMENTS,
        exitUnpair1_ :=
          if s.doneUnpair1_ then s.exitUnpair1_
          else if s.nunpair1_ > 0 then Exit.WITH_ALIGNMENTS else Exit.NO_ALIGNMENTS,
        exitUnpair2_ :=
          if s.doneUnpair2_ then s.exitUnpair2_
          else if s.nunpair2_ > 0 then Exit.WITH_ALIGNMENTS else Exit.NO_ALIGNMENTS } := by
  obtain ⟨st, pa, nc, nd, n1, n2, dc, dd, d1, d2, du, d, ec, ed, e1, e2⟩ := s
  cases dd
  · by_cases hc : nc = 0 ∧ n1 = 1 ∧ n2 = 1
    · obtain ⟨rfl, rfl, rfl⟩ := hc
      cases dc <;> cases d1 <;> cases d2 <;> rfl
    · have hc2 : converts ⟨st, pa, nc, nd, n1, n2, dc, false, d1, d2, du, d, ec, ed, e1, e2⟩
          = false := by
        simp only [converts, Bool.not_false, Bool.true_and]
        simpa using hc
      rw [hc2]
      cases dc <;> cases d1 <;> cases d2 <;> simp [finish, hc]
  · cases dc <;> cases d1 <;> cases d2 <;> rfl

/-! ## Invariants of the state machine -/

theorem run_append (p : ReportingParams) (s : ReportingState) (es fs : List Event) :
    run p s (es ++ fs) = run p (run p s es) fs := by
  induction es generalizing s with
  | nil => rfl
  | cons e es ih => simp [run, ih]

theorem Consistent_nextRead (p : ReportingParams) (s : ReportingState) (paired : Bool) :
    Consistent (nextRead p s paired) := by
  unfold Consistent nextRead
  cases paired <;> cases p.discord <;> cases p.mixed <;> simp

theorem Consistent_foundConcordant (p : ReportingParams) (s : ReportingState) :
    Consistent (foundConcordant p s) := by
  rw [foundConcordant_eq]
  unfold Consistent
  simp only [Bool.true_and, Bool.and_true, implies_true, and_true]
  cases (areDone p (s.nconcord_ + 1) s.doneConcord_ s.exitConcord_).1 <;> simp

theorem Consistent_foundDiscordant (s : ReportingState) :
    Consistent (foundDiscordant s) := by
  rw [foundDiscordant_eq]
  simp [Consistent]

theorem Consistent_foundUnpaired (p : ReportingParams) (s : ReportingState) (m : Bool)
    (h : Consistent s) : Consistent (foundUnpaired p s m) := by
  cases m
  · rw [foundUnpaired_false_eq]
    obtain ⟨st, pa, nc, nd, n1, n2, dc, dd, d1, d2, du, d, ec, ed, e1, e2⟩ := s
    unfold Consistent at *
    cases dc <;> cases dd <;> cases d1 <;> cases d2 <;>
      cases ceilingHit p (n2 + 1) <;> simp_all
  · rw [foundUnpaired_true_eq]
    obtain ⟨st, pa, nc, nd, n1, n2, dc, dd, d1, d2, du, d, ec, ed, e1, e2⟩ := s
    unfold Consistent at *
    cases dc <;> cases dd <;> cases d1 <;> cases d2 <;>
      cases ceilingHit p (n1 + 1) <;> simp_all

theorem Consistent_finish (s : ReportingState) : Consistent (finish s) := by
  rw [finish_eq]
  simp [Consistent]

theorem ExitsClosed_nextRead (p : ReportingParams) (s : ReportingState) (paired : Bool) :
    ExitsClosed (nextRead p s paired) := by
  unfold ExitsClosed nextRead
  cases paired <;> cases p.discord <;> cases p.mixed <;> simp

theorem ceilingExit_ne (p : ReportingParams) : ceilingExit p ≠ Exit.DID_NOT_EXIT := by
  unfold ceilingExit
  cases p.mhitsSet <;> cases p.msample <;> simp

theorem areDone_closed (p : ReportingParams) (cnt : Nat) (d : Bool) (e : Exit)
    (h : d = true → e ≠ Exit.DID_NOT_EXIT) :
    (areDone p cnt d e).1 = true → (areDone p cnt d e).2 ≠ Exit.DID_NOT_EXIT := by
  rw [areDone_eq]
  cases ceilingHit p cnt
  · simpa using h
  · simpa using ceilingExit_ne p

theorem ExitsClosed_foundConcordant (p : ReportingParams) (s : ReportingState)
    (h : ExitsClosed s) : ExitsClosed (foundConcordant p s) := by
  obtain ⟨h1, h2, h3, h4⟩ := h
  have ha := areDone_closed p (s.nconcord_ + 1) s.doneConcord_ s.exitConcord_ h1
  rw [foundConcordant_eq]
  unfold ExitsClosed
  refine ⟨ha, by simp, ?_, ?_⟩
  · cases hd : s.doneUnpair1_ <;> cases ht : concordTrumps p s <;> simp_all
  · cases hd : s.doneUnpair2_ <;> cases ht : concordTrumps p s <;> simp_all

theorem ExitsClosed_foundDiscordant (s : ReportingState)
    (h : ExitsClosed s) : ExitsClosed (foundDiscordant s) := by
  obtain ⟨h1, h2, h3, h4⟩ := h
  rw [foundDiscordant_eq]
  unfold ExitsClosed
  refine ⟨h1, by simp, ?_, ?_⟩
  · cases hd : s.doneUnpair1_ <;> simp_all
  · cases hd : s.doneUnpair2_ <;> simp_all

theorem ExitsClosed_foundUnpaired (p : ReportingParams) (s : ReportingState) (m : Bool)
    (h : ExitsClosed s) : ExitsClosed (foundUnpaired p s m) := by
  obtain ⟨h1, h2, h3, h4⟩ := h
  have hx := ceilingExit_ne p
  cases m
  · rw [foundUnpaired_false_eq]
    unfold ExitsClosed
    refine ⟨h1, ?_, h3, ?_⟩
    · simp only []
      split_ifs <;> simp_all
    · cases hd : s.doneUnpair2_ <;> cases ht : ceilingHit p (s.nunpair2_ + 1) <;> simp_all
  · rw [foundUnpaired_true_eq]
    unfold ExitsClosed
    refine ⟨h1, ?_, ?_, h4⟩
    · simp only []
      split_ifs <;> simp_all
    · cases hd : s.doneUnpair1_ <;> cases ht : ceilingHit p (s.nunpair1_ + 1) <;> simp_all

theorem ite_counter_ne (d : Bool) (e : Exit) (n : Nat)
    (h : d = true → e ≠ Exit.DID_NOT_EXIT) :
    (if d = true then e
      else if n > 0 then Exit.WITH_ALIGNMENTS else Exit.NO_ALIGNMENTS) ≠
        Exit.DID_NOT_EXIT := by
  cases d
  · simp only [Bool.false_eq_true, if_false]
    split_ifs <;> simp
  · simpa using h

theorem ExitsClosed_finish (s : ReportingState) (h : ExitsClosed s) :
    ExitsClosed (finish s) := by
  obtain ⟨h1, h2, h3, h4⟩ := h
  rw [finish_eq]
  unfold ExitsClosed
  simp only [forall_const]
  refine ⟨ite_counter_ne _ _ _ h1, ?_, ite_counter_ne _ _ _ h3, ite_counter_ne _ _ _ h4⟩
  cases hd : s.doneDiscord_
  · simp only [Bool.false_eq_true, if_false]
    split_ifs <;> simp
  · simpa [hd] using h2

theorem Consistent_step (p : ReportingParams) (s : ReportingState) (e : Event)
    (h : Consistent s) : Consistent (step p s e) := by
  cases e with
  | concordant => exact Consistent_foundConcordant p s
  | discordant => exact Consistent_foundDiscordant s
  | unpaired m => exact Consistent_foundUnpaired p s m h
  | finish => exact Consistent_finish s

theorem Consistent_run (p : ReportingParams) (s : ReportingState) (evs : List Event)
    (h : Consistent s) : Consistent (run p s evs) := by
  induction evs generalizing s with
  | nil => exact h
  | cons e es ih => exact ih _ (Consistent_step p s e h)

theorem ExitsClosed_step (p : ReportingParams) (s : ReportingState) (e : Event)
    (h : ExitsClosed s) : ExitsClosed (step p s e) := by
  cases e with
  | concordant => exact ExitsClosed_foundConcordant p s h
  | discordant => exact ExitsClosed_foundDiscordant s h
  | unpaired m => exact ExitsClosed_foundUnpaired p s m h
  | finish => exact ExitsClosed_finish s h

theorem ExitsClosed_run (p : ReportingParams) (s : ReportingState) (evs : List Event)
    (h : ExitsClosed s) : ExitsClosed (run p s evs) := by
  induction evs generalizing s with
  | nil => exact h
  | cons e es ih => exact ih _ (ExitsClosed_step p s e h)

/-! ## Termination of a read: `finish` and `done()` -/

/-- C6: after `nextRead` (from any previous state, paired or not) and any
sequence of calls, `finish` leaves `done()` true and all four category done flags
true, and no exit code is `DID_NOT_EXIT`.  A category that was still open is
closed with `WITH_ALIGNMENTS` if its counter is positive at the moment `finish`
closes it and with `NO_ALIGNMENTS` otherwise (for the concordant and the two
unpaired categories this is the counter on entry to `finish`; the discordant
category is closed last, after the possible conversion of two unique unpaired
alignments, so its counter is the one `finish` leaves); a category that was
already done keeps its exit code. -/
theorem finish_closes_all (p : ReportingParams) (s0 : ReportingState) (paired : Bool)
    (evs : List Event) :
    (finish (run p (nextRead p s0 paired) evs)).done = true ∧
    (finish (run p (nextRead p s0 paired) evs)).doneConcordant = true ∧
    (finish (run p (nextRead p s0 paired) evs)).doneDiscordant = true ∧
    (finish (run p (nextRead p s0 paired) evs)).doneUnpaired true = true ∧
    (finish (run p (nextRead p s0 paired) evs)).doneUnpaired false = true ∧
    (finish (run p (nextRead p s0 paired) evs)).exitConcord_ ≠ Exit.DID_NOT_EXIT ∧
    (finish (run p (nextRead p s0 paired) evs)).exitDiscord_ ≠ Exit.DID_NOT_EXIT ∧
    (finish (run p (nextRead p s0 paired) evs)).exitUnpair1_ ≠ Exit.DID_NOT_EXIT ∧
    (finish (run p (nextRead p s0 paired) evs)).exitUnpair2_ ≠ Exit.DID_NOT_EXIT ∧
    (finish (run p (nextRead p s0 paired) evs)).exitConcord_ =
      (if (run p (nextRead p s0 paired) evs).doneConcord_ then
        (run p (nextRead p s0 paired) evs).exitConcord_
      else if (run p (nextRead p s0 paired) evs).nconcord_ > 0 then Exit.WITH_ALIGNMENTS
      else Exit.NO_ALIGNMENTS) ∧
    (finish (run p (nextRead p s0 paired) evs)).exitUnpair1_ =
      (if (run p (nextRead p s0 paired) evs).doneUnpair1_ then
        (run p (nextRead p s0 paired) evs).exitUnpair1_
      else if (run p (nextRead p s0 paired) evs).nunpair1_ > 0 then Exit.WITH_ALIGNMENTS
      else Exit.NO_ALIGNMENTS) ∧
    (finish (run p (nextRead p s0 paired) evs)).exitUnpair2_ =
      (if (run p (nextRead p s0 paired) evs).doneUnpair2_ then
        (run p (nextRead p s0 paired) evs).exitUnpair2_
      else if (run p (nextRead p s0 paired) evs).nunpair2_ > 0 then Exit.WITH_ALIGNMENTS
      else Exit.NO_ALIGNMENTS) ∧
    (finish (run p (nextRead p s0 paired) evs)).exitDiscord_ =
      (if (run p (nextRead p s0 paired) evs).doneDiscord_ then
        (run p (nextRead p s0 paired) evs).exitDiscord_
      else if (finish (run p (nextRead p s0 paired) evs)).ndiscord_ > 0 then
        Exit.WITH_ALIGNMENTS
      else Exit.NO_ALIGNMENTS) := by
  have hc := ExitsClosed_finish _
    (ExitsClosed_run p _ evs (ExitsClosed_nextRead p s0 paired))
  generalize run p (nextRead p s0 paired) evs = s at hc ⊢
  obtain ⟨h1, h2, h3, h4⟩ := hc
  rw [finish_eq] at h1 h2 h3 h4 ⊢
  simp only [forall_const] at h1 h2 h3 h4
  refine ⟨rfl, rfl, rfl, rfl, rfl, h1, h2, h3, h4, rfl, rfl, rfl, ?_⟩
  simp only []
  cases hd : s.doneDiscord_
  · cases hv : converts s <;> simp
  · simp

/-- C7: in every state reached from `nextRead` (from any previous state, paired
or not) by calls of `foundConcordant`, `foundDiscordant`, `foundUnpaired` and
`finish`, `done()` is true if and only if `doneConcordant()`, `doneDiscordant()`,
`doneUnpaired(true)` and `doneUnpaired(false)` are all true, and `doneUnpaired()`
equals `doneUnpaired(true) && doneUnpaired(false)`.  (The asserted preconditions
of the calls are not needed.) -/
theorem done_iff_all_categories_done (p : ReportingParams) (s0 : ReportingState)
    (paired : Bool) (evs : List Event) :
    ((run p (nextRead p s0 paired) evs).done = true ↔
      (run p (nextRead p s0 paired) evs).doneConcordant = true ∧
      (run p (nextRead p s0 paired) evs).doneDiscordant = true ∧
      (run p (nextRead p s0 paired) evs).doneUnpaired true = true ∧
      (run p (nextRead p s0 paired) evs).doneUnpaired false = true) ∧
    (run p (nextRead p s0 paired) evs).doneUnpairedAll =
      ((run p (nextRead p s0 paired) evs).doneUnpaired true &&
        (run p (nextRead p s0 paired) evs).doneUnpaired false) := by
  have hc := Consistent_run p _ evs (Consistent_nextRead p s0 paired)
  generalize run p (nextRead p s0 paired) evs = s at hc ⊢
  obtain ⟨h1, h2, -⟩ := hc
  simp [done, doneConcordant, doneDiscordant, doneUnpaired, doneUnpairedAll, h1, h2,
    and_assoc]

/-- C8 as stated fails: in test case 1 (`-k 2`, unpaired read) the state after two
`foundUnpaired(true)` calls has `done()` true, and a third call still changes the
mate-1 counter, from 2 to 3. -/
theorem done_state_still_counts :
    (run paramsK2 (nextRead paramsK2 noRead false)
      [Event.unpaired true, Event.unpaired true]).done = true ∧
    (run paramsK2 (nextRead paramsK2 noRead false)
      [Event.unpaired true, Event.unpaired true]).nunpair1_ = 2 ∧
    (foundUnpaired paramsK2 (run paramsK2 (nextRead paramsK2 noRead false)
      [Event.unpaired true, Event.unpaired true]) true).nunpair1_ = 3 := by
  decide

/-- C8 (amended): in every state reached from `nextRead` by calls of the state
machine in which `done()` is true, `finish` changes nothing, and
`foundUnpaired(m)` changes only the counter of mate `m`, which grows by one, and
the exit code of the discordant category, which becomes `NO_ALIGNMENTS` when the
new counter exceeds 1; every done flag, the other counters and the exit codes of
the concordant and both unpaired categories are unchanged. -/
theorem done_state_frozen (p : ReportingParams) (s0 : ReportingState) (paired : Bool)
    (evs : List Event) (hd : (run p (nextRead p s0 paired) evs).done = true) :
    finish (run p (nextRead p s0 paired) evs) = run p (nextRead p s0 paired) evs ∧
    foundUnpaired p (run p (nextRead p s0 paired) evs) true =
      { run p (nextRead p s0 paired) evs with
        nunpair1_ := (run p (nextRead p s0 paired) evs).nunpair1_ + 1
        exitDiscord_ :=
          if (run p (nextRead p s0 paired) evs).nunpair1_ + 1 > 1 then Exit.NO_ALIGNMENTS
          else (run p (nextRead p s0 paired) evs).exitDiscord_ } ∧
    foundUnpaired p (run p (nextRead p s0 paired) evs) false =
      { run p (nextRead p s0 paired) evs with
        nunpair2_ := (run p (nextRead p s0 paired) evs).nunpair2_ + 1
        exitDiscord_ :=
          if (run p (nextRead p s0 paired) evs).nunpair2_ + 1 > 1 then Exit.NO_ALIGNMENTS
          else (run p (nextRead p s0 paired) evs).exitDiscord_ } := by
  have hc := Consistent_run p _ evs (Consistent_nextRead p s0 paired)
  generalize run p (nextRead p s0 paired) evs = s at hc hd ⊢
  obtain ⟨st, pa, nc, nd, n1, n2, dc, dd, d1, d2, du, d, ec, ed, e1, e2⟩ := s
  obtain ⟨h1, h2, -⟩ := hc
  simp only [done] at hd h1 h2
  subst hd
  have h1' : dc = true ∧ dd = true ∧ d1 = true ∧ d2 = true := by
    simpa [and_assoc] using h1.symm
  obtain ⟨rfl, rfl, rfl, rfl⟩ := h1'
  subst h2
  refine ⟨?_, ?_, ?_⟩
  · rw [finish_eq]
    simp [converts]
  · rw [foundUnpaired_true_eq]
    simp
  · rw [foundUnpaired_false_eq]
    simp

theorem done_state_frozen_witness :
    (run paramsK2 (nextRead paramsK2 noRead false)
      [Event.unpaired true, Event.unpaired true]).done = true ∧
    finish (run paramsK2 (nextRead paramsK2 noRead false)
        [Event.unpaired true, Event.unpaired true]) =
      run paramsK2 (nextRead paramsK2 noRead false)
        [Event.unpaired true, Event.unpaired true] :=
  ⟨by decide,
    (done_state_frozen paramsK2 noRead false [Event.unpaired true, Event.unpaired true]
      (by decide)).1⟩

/-! ## Unpaired reads under `-k` and `-m` -/

theorem ceilingHit_zero (p : ReportingParams) (hk : p.mhitsSet = false → 1 ≤ p.khits) :
    ceilingHit p 0 = false := by
  unfold ceilingHit
  cases h : p.mhitsSet
  · have := hk h
    simp
    omega
  · simp

theorem ceilingHit_succ (p : ReportingParams) (n : Nat) (h : ceilingHit p n = true) :
    ceilingHit p (n + 1) = true := by
  unfold ceilingHit at *
  cases hm : p.mhitsSet <;> simp [hm] at h ⊢ <;> omega

/-- The state of an unpaired read after `j` calls of `foundUnpaired(true)`. -/
theorem run_unpaired_read (p : ReportingParams) (s0 : ReportingState) (j : Nat)
    (hk : p.mhitsSet = false → 1 ≤ p.khits) :
    run p (nextRead p s0 false) (List.replicate j (Event.unpaired true)) =
      { state_ := Phase.UNPAIRED, paired_ := false,
        nconcord_ := 0, ndiscord_ := 0, nunpair1_ := j, nunpair2_ := 0,
        doneConcord_ := true, doneDiscord_ := true, doneUnpair1_ := ceilingHit p j,
        doneUnpair2_ := true, doneUnpair_ := ceilingHit p j, done_ := ceilingHit p j,
        exitConcord_ := Exit.DID_NOT_ENTER,
        exitDiscord_ := if j > 1 then Exit.NO_ALIGNMENTS else Exit.DID_NOT_ENTER,
        exitUnpair1_ := if ceilingHit p j then ceilingExit p else Exit.DID_NOT_EXIT,
        exitUnpair2_ := Exit.DID_NOT_ENTER } := by
  induction j with
  | zero =>
    simp [run, nextRead, ceilingHit_zero p hk]
  | succ n ih =>
    rw [List.replicate_succ', run_append, ih]
    simp only [run, step]
    rw [foundUnpaired_true_eq]
    cases h : ceilingHit p n
    · cases h2 : ceilingHit p (n + 1) <;> simp <;> split_ifs <;> first | rfl | omega
    · simp [ceilingHit_succ p n h]
      split_ifs <;> first | rfl | omega

theorem getReport_unpaired_read (p : ReportingParams) (s : ReportingState)
    (h : s.paired_ = false) :
    getReport p s =
      getReportUnpaired p s
        { nconcordAln := 0, ndiscordAln := 0, nunpair1Aln := 0, nunpair2Aln := 0,
          pairMax := false, unpair1Max := false, unpair2Max := false } := by
  unfold getReport
  simp [h]

/-- C2: `-k` mode (no `-m`/`-M` ceiling), unpaired read, `khits >= 1`: after
`nextRead(false)` and `j` calls of `foundUnpaired(true)`, `done()` is true iff
`j >= khits`; after `finish`, `getReport` returns `nunpair1Aln = min(j, khits)`,
the three other numbers 0 and all three max flags false. -/
theorem k_mode_unpaired_read (p : ReportingParams) (s0 : ReportingState) (j : Nat)
    (hk : 1 ≤ p.khits) (hm : p.mhitsSet = false) :
    ((run p (nextRead p s0 false) (List.replicate j (Event.unpaired true))).done = true ↔
      p.khits ≤ j) ∧
    getReport p
        (finish (run p (nextRead p s0 false) (List.replicate j (Event.unpaired true)))) =
      { nconcordAln := 0, ndiscordAln := 0, nunpair1Aln := min j p.khits, nunpair2Aln := 0,
        pairMax := false, unpair1Max := false, unpair2Max := false } := by
  rw [run_unpaired_read p s0 j (fun _ => hk)]
  have hh : ceilingHit p j = decide (p.khits ≤ j) := by simp [ceilingHit, hm]
  have hx : ceilingExit p = Exit.SHORT_CIRCUIT_k := by simp [ceilingExit, hm]
  refine ⟨by simp [done, hh], ?_⟩
  rw [getReport_unpaired_read _ _ (by rw [finish_eq]), getReportUnpaired_eq, finish_eq]
  simp only [hh, hx]
  by_cases h : p.khits ≤ j
  · have hj : ¬ j = 0 := by omega
    simp [h, hj, mateAln, mateMax, converts]
  · rcases Nat.eq_zero_or_pos j with rfl | hj
    · simp [converts]
    · have hj' : ¬ j = 0 := by omega
      simp [h, hj, hj', mateAln, mateMax, converts]

theorem k_mode_unpaired_read_witness :
    (1 ≤ paramsK2.khits ∧ paramsK2.mhitsSet = false) ∧
    getReport paramsK2
        (finish (run paramsK2 (nextRead paramsK2 noRead false)
          (List.replicate 2 (Event.unpaired true)))) =
      { nconcordAln := 0, ndiscordAln := 0, nunpair1Aln := min 2 paramsK2.khits,
        nunpair2Aln := 0, pairMax := false, unpair1Max := false, unpair2Max := false } :=
  ⟨⟨by decide, rfl⟩, (k_mode_unpaired_read paramsK2 noRead 2 (by decide) rfl).2⟩

/-- C3: `-m` mode (`mhits` set, `msample = false`), unpaired read: after
`nextRead(false)` and `j` calls of `foundUnpaired(true)`, `done()` is true iff
`j > mhits`; after `finish`, `getReport` returns all four numbers 0 and
`unpair1Max = true` when `j > mhits`, and `nunpair1Aln = min(j, khits)` with
`unpair1Max = false` when `j <= mhits`; `pairMax` and `unpair2Max` are false in
both cases.  (Positivity of `khits` and `mhits` is not needed.) -/
theorem m_mode_unpaired_read (p : ReportingParams) (s0 : ReportingState) (j : Nat)
    (hm : p.mhitsSet = true) (hs : p.msample = false) :
    ((run p (nextRead p s0 false) (List.replicate j (Event.unpaired true))).done = true ↔
      p.mhits < j) ∧
    getReport p
        (finish (run p (nextRead p s0 false) (List.replicate j (Event.unpaired true)))) =
      (if p.mhits < j then
        { nconcordAln := 0, ndiscordAln := 0, nunpair1Aln := 0, nunpair2Aln := 0,
          pairMax := false, unpair1Max := true, unpair2Max := false }
      else
        { nconcordAln := 0, ndiscordAln := 0, nunpair1Aln := min j p.khits,
          nunpair2Aln := 0, pairMax := false, unpair1Max := false, unpair2Max := false }) := by
  rw [run_unpaired_read p s0 j (fun h => by simp [hm] at h)]
  have hh : ceilingHit p j = decide (p.mhits < j) := by simp [ceilingHit, hm]
  have hx : ceilingExit p = Exit.SHORT_CIRCUIT_m := by simp [ceilingExit, hm, hs]
  refine ⟨by simp [done, hh], ?_⟩
  rw [getReport_unpaired_read _ _ (by rw [finish_eq]), getReportUnpaired_eq, finish_eq]
  simp only [hh, hx]
  by_cases h : p.mhits < j
  · have hj : ¬ j = 0 := by omega
    simp [h, hj, mateAln, mateMax, converts]
  · rcases Nat.eq_zero_or_pos j with rfl | hj
    · simp [converts]
    · have hj' : ¬ j = 0 := by omega
      simp [h, hj, hj', mateAln, mateMax, converts]

theorem m_mode_unpaired_read_witness :
    (paramsM3.mhitsSet = true ∧ paramsM3.msample = false) ∧
    ((run paramsM3 (nextRead paramsM3 noRead false)
        (List.replicate 4 (Event.unpaired true))).done = true ↔ paramsM3.mhits < 4) :=
  ⟨⟨rfl, rfl⟩, (m_mode_unpaired_read paramsM3 noRead 4 rfl rfl).1⟩

/-! ## Paired reads: the report under `-M`, `-m`, and discordant pairs -/

theorem getReport_ndiscordAln (p : ReportingParams) (s : ReportingState) :
    (getReport p s).ndiscordAln =
      if s.paired_ = true ∧ s.exitConcord_ ≠ Exit.SHORT_CIRCUIT_k ∧
          s.exitConcord_ ≠ Exit.SHORT_CIRCUIT_M ∧ s.exitConcord_ ≠ Exit.WITH_ALIGNMENTS ∧
          s.exitDiscord_ = Exit.WITH_ALIGNMENTS then 1 else 0 := by
  unfold getReport
  by_cases hp : s.paired_ = true
  · simp only [hp, if_true]
    split_ifs <;> simp_all [getReportUnpaired_ndiscordAln]
  · simp [hp, getReportUnpaired_ndiscordAln]

/-- C9: `-M` mode: for a paired read whose concordant category has exited with
`SHORT_CIRCUIT_M`, `getReport` returns `nconcordAln = 1`,
`ndiscordAln = nunpair1Aln = nunpair2Aln = 0`, `pairMax = true`, and
`unpairXMax = (mixed and nunpairX > mhits)` for each mate X. -/
theorem getReport_SHORT_CIRCUIT_M (p : ReportingParams) (s : ReportingState)
    (hp : s.paired_ = true) (he : s.exitConcord_ = Exit.SHORT_CIRCUIT_M) :
    getReport p s =
      { nconcordAln := 1, ndiscordAln := 0, nunpair1Aln := 0, nunpair2Aln := 0,
        pairMax := true,
        unpair1Max := p.mixed && decide (s.nunpair1_ > p.mhits),
        unpair2Max := p.mixed && decide (s.nunpair2_ > p.mhits) } := by
  unfold getReport
  simp only [hp, he, if_true]
  cases p.mixed <;> simp

theorem getReport_SHORT_CIRCUIT_M_witness :
    ((run paramsBigM1 (nextRead paramsBigM1 noRead true)
        [Event.concordant, Event.unpaired true, Event.unpaired false, Event.concordant,
          Event.unpaired true, Event.unpaired false, Event.finish]).paired_ = true ∧
      (run paramsBigM1 (nextRead paramsBigM1 noRead true)
        [Event.concordant, Event.unpaired true, Event.unpaired false, Event.concordant,
          Event.unpaired true, Event.unpaired false, Event.finish]).exitConcord_ =
        Exit.SHORT_CIRCUIT_M) ∧
    getReport paramsBigM1
        (run paramsBigM1 (nextRead paramsBigM1 noRead true)
          [Event.concordant, Event.unpaired true, Event.unpaired false, Event.concordant,
            Event.unpaired true, Event.unpaired false, Event.finish]) =
      { nconcordAln := 1, ndiscordAln := 0, nunpair1Aln := 0, nunpair2Aln := 0,
        pairMax := true, unpair1Max := true, unpair2Max := true } :=
  ⟨⟨by decide, by decide⟩,
    getReport_SHORT_CIRCUIT_M paramsBigM1 _ (by decide) (by decide)⟩

theorem DiscordInv_nextRead (p : ReportingParams) (s0 : ReportingState) :
    DiscordInv p (nextRead p s0 true) := by
  unfold DiscordInv nextRead
  cases p.discord <;> cases p.mixed <;> simp

theorem DiscordInv_foundConcordant (p : ReportingParams) (s : ReportingState)
    (h : DiscordInv p s) : DiscordInv p (foundConcordant p s) := by
  obtain ⟨h1, h2, -, -, -⟩ := h
  rw [foundConcordant_eq]
  unfold DiscordInv
  simp [h1, h2]

theorem DiscordInv_foundUnpaired (p : ReportingParams) (s : ReportingState) (m : Bool)
    (h : DiscordInv p s) : DiscordInv p (foundUnpaired p s m) := by
  obtain ⟨h1, h2, h3, h4, h5⟩ := h
  cases m
  · rw [foundUnpaired_false_eq]
    unfold DiscordInv
    refine ⟨h1, h2, ?_, ?_, h5⟩
    · simp only []
      split_ifs <;> simp [h3]
    · cases hd : s.doneDiscord_ <;> cases hdis : p.discord <;>
        simp [hd, hdis] at h4 ⊢ <;> omega
  · rw [foundUnpaired_true_eq]
    unfold DiscordInv
    refine ⟨h1, h2, ?_, ?_, h5⟩
    · simp only []
      split_ifs <;> simp [h3]
    · cases hd : s.doneDiscord_ <;> cases hdis : p.discord <;>
        simp [hd, hdis] at h4 ⊢ <;> omega

theorem DiscordInv_run (p : ReportingParams) (s : ReportingState) (evs : List Event)
    (hev : evs.all Event.isReport = true) (h : DiscordInv p s) :
    DiscordInv p (run p s evs) := by
  induction evs generalizing s with
  | nil => exact h
  | cons e es ih =>
    simp only [List.all_cons, Bool.and_eq_true] at hev
    refine ih _ hev.2 ?_
    cases e with
    | concordant => exact DiscordInv_foundConcordant p s h
    | discordant => simp [Event.isReport] at hev
    | unpaired m => exact DiscordInv_foundUnpaired p s m h
    | finish => simp [Event.isReport] at hev

/-- C4: for a paired read and every sequence of `foundConcordant` and
`foundUnpaired` calls followed by `finish`, `getReport` returns `ndiscordAln = 1`
if and only if `discord` is set and, at the moment `finish` is called,
`nconcord = 0`, `nunpair1 = 1` and `nunpair2 = 1`; otherwise `ndiscordAln = 0`.
In the converted case `numDiscordant() = 1` and
`numUnpaired1() = numUnpaired2() = 0` after `finish`.  (The restriction of
`foundConcordant` to an open concordant category is not needed.) -/
theorem discordant_reported_iff (p : ReportingParams) (s0 : ReportingState)
    (evs : List Event) (hev : evs.all Event.isReport = true) :
    ((getReport p (finish (run p (nextRead p s0 true) evs))).ndiscordAln = 1 ↔
      (p.discord = true ∧ (run p (nextRead p s0 true) evs).nconcord_ = 0 ∧
        (run p (nextRead p s0 true) evs).nunpair1_ = 1 ∧
        (run p (nextRead p s0 true) evs).nunpair2_ = 1)) ∧
    (¬ (p.discord = true ∧ (run p (nextRead p s0 true) evs).nconcord_ = 0 ∧
        (run p (nextRead p s0 true) evs).nunpair1_ = 1 ∧
        (run p (nextRead p s0 true) evs).nunpair2_ = 1) →
      (getReport p (finish (run p (nextRead p s0 true) evs))).ndiscordAln = 0) ∧
    ((p.discord = true ∧ (run p (nextRead p s0 true) evs).nconcord_ = 0 ∧
        (run p (nextRead p s0 true) evs).nunpair1_ = 1 ∧
        (run p (nextRead p s0 true) evs).nunpair2_ = 1) →
      (finish (run p (nextRead p s0 true) evs)).numDiscordant = 1 ∧
      (finish (run p (nextRead p s0 true) evs)).numUnpaired1 = 0 ∧
      (finish (run p (nextRead p s0 true) evs)).numUnpaired2 = 0) := by
  have hI := DiscordInv_run p _ evs hev (DiscordInv_nextRead p s0)
  generalize run p (nextRead p s0 true) evs = s at hI ⊢
  obtain ⟨h1, h2, h3, h4, h5⟩ := hI
  rw [getReport_ndiscordAln, finish_eq]
  simp only [numDiscordant, numUnpaired1, numUnpaired2, h1, true_and]
  by_cases hc : p.discord = true ∧ s.nconcord_ = 0 ∧ s.nunpair1_ = 1 ∧ s.nunpair2_ = 1
  · obtain ⟨c1, c2, c3, c4⟩ := hc
    have hd : s.doneDiscord_ = false := h4.mpr ⟨c1, c2, by omega, by omega⟩
    have hdc : s.doneConcord_ = false := h5 c2
    have hv : converts s = true := by simp [converts, hd, c2, c3, c4]
    simp [hd, hdc, hv, c1, c2, c3, c4]
  · have hv : converts s = false := by
      cases hd : s.doneDiscord_
      · have := h4.mp hd
        simp only [converts, hd, Bool.not_false, Bool.true_and, Bool.and_eq_false_imp,
          Bool.and_eq_true, decide_eq_true_eq, decide_eq_false_iff_not]
        intro ⟨a, b⟩ c
        exact hc ⟨this.1, a, b, c⟩
      · simp [converts, hd]
    have hx : ¬ ((if s.doneDiscord_ = true then s.exitDiscord_
        else if converts s = true ∨ s.ndiscord_ > 0 then Exit.WITH_ALIGNMENTS
        else Exit.NO_ALIGNMENTS) = Exit.WITH_ALIGNMENTS) := by
      cases hd : s.doneDiscord_ <;> simp [hv, h2, h3]
    simp [hc, hx]

theorem discordant_reported_iff_witness :
    [Event.unpaired true, Event.unpaired false].all Event.isReport = true ∧
    ((getReport paramsM3 (finish (run paramsM3 (nextRead paramsM3 noRead true)
        [Event.unpaired true, Event.unpaired false]))).ndiscordAln = 1 ↔
      (paramsM3.discord = true ∧
        (run paramsM3 (nextRead paramsM3 noRead true)
          [Event.unpaired true, Event.unpaired false]).nconcord_ = 0 ∧
        (run paramsM3 (nextRead paramsM3 noRead true)
          [Event.unpaired true, Event.unpaired false]).nunpair1_ = 1 ∧
        (run paramsM3 (nextRead paramsM3 noRead true)
          [Event.unpaired true, Event.unpaired false]).nunpair2_ = 1)) :=
  ⟨by decide,
    (discordant_reported_iff paramsM3 noRead [Event.unpaired true, Event.unpaired false]
      (by decide)).1⟩

theorem concordTrumps_false (p : ReportingParams) (s : ReportingState)
    (hm : p.mhitsSet = true) (h : s.doneConcord_ = ceilingHit p s.nconcord_) :
    concordTrumps p s = false := by
  unfold concordTrumps
  rw [areDone_eq]
  cases h1 : ceilingHit p (s.nconcord_ + 1)
  · cases h0 : ceilingHit p s.nconcord_
    · simp [h, h0]
    · rw [ceilingHit_succ p _ h0] at h1
      exact absurd h1 (by simp)
  · cases hs : p.msample <;> simp [ceilingExit, hm, hs]

theorem CeilingInv_nextRead (p : ReportingParams) (s0 : ReportingState)
    (hm : p.mhitsSet = true) : CeilingInv p (nextRead p s0 true) := by
  have h0 : ceilingHit p 0 = false := ceilingHit_zero p (fun h => by simp [hm] at h)
  unfold CeilingInv nextRead
  cases p.discord <;> cases p.mixed <;> simp [h0]

theorem CeilingInv_foundConcordant (p : ReportingParams) (s : ReportingState)
    (hm : p.mhitsSet = true) (h : CeilingInv p s) : CeilingInv p (foundConcordant p s) := by
  obtain ⟨h1, h2, h3⟩ := h
  have ht := concordTrumps_false p s hm h1
  rw [foundConcordant_eq]
  unfold CeilingInv
  simp only [ht, Bool.or_false, Bool.and_false, Bool.false_eq_true, if_false]
  refine ⟨?_, ?_, h3⟩
  · rw [areDone_eq]
    cases hh : ceilingHit p (s.nconcord_ + 1)
    · cases h0 : ceilingHit p s.nconcord_
      · simp [h1, h0]
      · rw [ceilingHit_succ p _ h0] at hh
        exact absurd hh (by simp)
    · simp
  · rw [areDone_eq]
    cases hh : ceilingHit p (s.nconcord_ + 1)
    · cases h0 : ceilingHit p s.nconcord_
      · simp [h2, h0]
      · rw [ceilingHit_succ p _ h0] at hh
        exact absurd hh (by simp)
    · simp

theorem ceilingInv_mate (p : ReportingParams) (n : Nat) (d : Bool) (e : Exit)
    (hd : d = ceilingHit p n)
    (he : e = if ceilingHit p n then ceilingExit p else Exit.DID_NOT_EXIT) :
    (d || ceilingHit p (n + 1)) = ceilingHit p (n + 1) ∧
    (if (!d && ceilingHit p (n + 1)) = true then ceilingExit p else e) =
      if ceilingHit p (n + 1) then ceilingExit p else Exit.DID_NOT_EXIT := by
  subst hd he
  cases h0 : ceilingHit p n
  · cases h1 : ceilingHit p (n + 1) <;> simp
  · simp [ceilingHit_succ p n h0]

theorem CeilingInv_foundUnpaired (p : ReportingParams) (s : ReportingState) (m : Bool)
    (h : CeilingInv p s) : CeilingInv p (foundUnpaired p s m) := by
  obtain ⟨h1, h2, h3⟩ := h
  cases m
  · rw [foundUnpaired_false_eq]
    refine ⟨h1, h2, fun hx => ?_⟩
    obtain ⟨a, b, c, d⟩ := h3 hx
    obtain ⟨e, f⟩ := ceilingInv_mate p s.nunpair2_ _ _ c d
    exact ⟨a, b, e, f⟩
  · rw [foundUnpaired_true_eq]
    refine ⟨h1, h2, fun hx => ?_⟩
    obtain ⟨a, b, c, d⟩ := h3 hx
    obtain ⟨e, f⟩ := ceilingInv_mate p s.nunpair1_ _ _ a b
    exact ⟨e, f, c, d⟩

theorem CeilingInv_run (p : ReportingParams) (s : ReportingState) (evs : List Event)
    (hm : p.mhitsSet = true) (hev : evs.all Event.isReport = true) (h : CeilingInv p s) :
    CeilingInv p (run p s evs) := by
  induction evs generalizing s with
  | nil => exact h
  | cons e es ih =>
    simp only [List.all_cons, Bool.and_eq_true] at hev
    refine ih _ hev.2 ?_
    cases e with
    | concordant => exact CeilingInv_foundConcordant p s hm h
    | discordant => simp [Event.isReport] at hev
    | unpaired m => exact CeilingInv_foundUnpaired p s m h
    | finish => simp [Event.isReport] at hev

/-- The concordant category exits with `SHORT_CIRCUIT_m` only under a `-m`
ceiling (`mhits` set, `msample = false`). -/
theorem exitConcord_SHORT_CIRCUIT_m_mode (p : ReportingParams) (s : ReportingState)
    (evs : List Event)
    (h : s.exitConcord_ = Exit.SHORT_CIRCUIT_m → p.mhitsSet = true ∧ p.msample = false) :
    (run p s evs).exitConcord_ = Exit.SHORT_CIRCUIT_m →
      p.mhitsSet = true ∧ p.msample = false := by
  induction evs generalizing s with
  | nil => exact h
  | cons e es ih =>
    refine ih _ ?_
    cases e with
    | concordant =>
      simp only [step]
      rw [foundConcordant_eq, areDone_eq]
      cases hh : ceilingHit p (s.nconcord_ + 1)
      · simpa using h
      · cases hm : p.mhitsSet <;> cases hs : p.msample <;> simp [ceilingExit, hm, hs]
    | discordant =>
      simp only [step]
      rw [foundDiscordant_eq]
      exact h
    | unpaired m =>
      simp only [step]
      cases m
      · rw [foundUnpaired_false_eq]
        exact h
      · rw [foundUnpaired_true_eq]
        exact h
    | finish =>
      simp only [step]
      rw [finish_eq]
      cases hd : s.doneConcord_
      · simp only [Bool.false_eq_true, if_false]
        split_ifs <;> simp
      · simpa using h

theorem getReport_concord_m_eq (p : ReportingParams) (s : ReportingState)
    (hp : s.paired_ = true) (he : s.exitConcord_ = Exit.SHORT_CIRCUIT_m)
    (hd : s.exitDiscord_ ≠ Exit.WITH_ALIGNMENTS) :
    getReport p s =
      getReportUnpaired p s
        { nconcordAln := 0, ndiscordAln := 0, nunpair1Aln := 0, nunpair2Aln := 0,
          pairMax := true,
          unpair1Max := p.mixed && decide (s.nunpair1_ > p.mhits),
          unpair2Max := p.mixed && decide (s.nunpair2_ > p.mhits) } := by
  unfold getReport
  simp only [hp, he, if_true]
  cases p.mixed <;> simp [hd]

/-- The per-mate rows of `getReport` for a mate closed by `finish` under a `-m`
ceiling. -/
theorem mate_SHORT_CIRCUIT_m (p : ReportingParams) (n : Nat) (d : Bool) (e x : Exit)
    (hm : p.mhitsSet = true) (hs : p.msample = false)
    (hd : d = ceilingHit p n)
    (he : e = if ceilingHit p n then ceilingExit p else Exit.DID_NOT_EXIT)
    (hx : x = if d then e
      else if n > 0 then Exit.WITH_ALIGNMENTS else Exit.NO_ALIGNMENTS) :
    mateAln p x n 0 = (if n > p.mhits then 0 else min n p.khits) ∧
    mateMax x (decide (n > p.mhits)) = decide (n > p.mhits) := by
  have hh : ceilingHit p n = decide (n > p.mhits) := by simp [ceilingHit, hm]
  have hc : ceilingExit p = Exit.SHORT_CIRCUIT_m := by simp [ceilingExit, hm, hs]
  subst hx he hd
  rw [hh, hc]
  by_cases h : n > p.mhits
  · simp [h, mateAln, mateMax]
  · rcases Nat.eq_zero_or_pos n with rfl | hn
    · simp [mateAln, mateMax]
    · simp [h, hn, mateAln, mateMax]

/-- C10 as stated fails: with `-k 2 -m 3` in mixed mode, a paired read with one
unpaired alignment for mate 1 and four concordant alignments leaves the
concordant category with `SHORT_CIRCUIT_m`, and `getReport` sets `pairMax` but
still reports the unpaired alignment of mate 1 (`nunpair1Aln = 1`). -/
theorem SHORT_CIRCUIT_m_still_reports_mate :
    (finish (run paramsM3 (nextRead paramsM3 noRead true)
      [Event.unpaired true, Event.concordant, Event.concordant, Event.concordant,
        Event.concordant])).exitConcord_ = Exit.SHORT_CIRCUIT_m ∧
    getReport paramsM3 (finish (run paramsM3 (nextRead paramsM3 noRead true)
      [Event.unpaired true, Event.concordant, Event.concordant, Event.concordant,
        Event.concordant])) =
      { nconcordAln := 0, ndiscordAln := 0, nunpair1Aln := 1, nunpair2Aln := 0,
        pairMax := true, unpair1Max := false, unpair2Max := false } := by
  decide

/-- C10 (amended): for a paired read, after any sequence of `foundConcordant` and
`foundUnpaired` calls and `finish`, if the concordant category exited with
`SHORT_CIRCUIT_m` then `getReport` sets `pairMax = true` and
`nconcordAln = ndiscordAln = 0`; without mixed mode `nunpair1Aln = nunpair2Aln = 0`
and both unpair max flags are false; in mixed mode `unpairXMax` is true exactly
when `nunpairX > mhits`, and `nunpairXAln` is 0 when `nunpairX > mhits` and
`min(nunpairX, khits)` otherwise. -/
theorem SHORT_CIRCUIT_m_report (p : ReportingParams) (s0 : ReportingState)
    (evs : List Event) (hev : evs.all Event.isReport = true)
    (he : (finish (run p (nextRead p s0 true) evs)).exitConcord_ = Exit.SHORT_CIRCUIT_m) :
    (getReport p (finish (run p (nextRead p s0 true) evs))).pairMax = true ∧
    (getReport p (finish (run p (nextRead p s0 true) evs))).nconcordAln = 0 ∧
    (getReport p (finish (run p (nextRead p s0 true) evs))).ndiscordAln = 0 ∧
    (p.mixed = false →
      (getReport p (finish (run p (nextRead p s0 true) evs))).nunpair1Aln = 0 ∧
      (getReport p (finish (run p (nextRead p s0 true) evs))).nunpair2Aln = 0 ∧
      (getReport p (finish (run p (nextRead p s0 true) evs))).unpair1Max = false ∧
      (getReport p (finish (run p (nextRead p s0 true) evs))).unpair2Max = false) ∧
    (p.mixed = true →
      (getReport p (finish (run p (nextRead p s0 true) evs))).unpair1Max =
        decide ((finish (run p (nextRead p s0 true) evs)).nunpair1_ > p.mhits) ∧
      (getReport p (finish (run p (nextRead p s0 true) evs))).unpair2Max =
        decide ((finish (run p (nextRead p s0 true) evs)).nunpair2_ > p.mhits) ∧
      (getReport p (finish (run p (nextRead p s0 true) evs))).nunpair1Aln =
        (if (finish (run p (nextRead p s0 true) evs)).nunpair1_ > p.mhits then 0
         else min (finish (run p (nextRead p s0 true) evs)).nunpair1_ p.khits) ∧
      (getReport p (finish (run p (nextRead p s0 true) evs))).nunpair2Aln =
        (if (finish (run p (nextRead p s0 true) evs)).nunpair2_ > p.mhits then 0
         else min (finish (run p (nextRead p s0 true) evs)).nunpair2_ p.khits)) := by
  have hmode := exitConcord_SHORT_CIRCUIT_m_mode p (nextRead p s0 true) (evs ++ [Event.finish])
    (by simp [nextRead])
  rw [run_append] at hmode
  obtain ⟨hm, hs⟩ := hmode he
  have hD := DiscordInv_run p _ evs hev (DiscordInv_nextRead p s0)
  have hC := CeilingInv_run p _ evs hm hev (CeilingInv_nextRead p s0 hm)
  generalize run p (nextRead p s0 true) evs = s at he hD hC ⊢
  obtain ⟨d1, d2, d3, d4, d5⟩ := hD
  obtain ⟨c1, c2, c3⟩ := hC
  -- the concordant counter is positive, so `finish` converts nothing
  have hdc : s.doneConcord_ = true := by
    rw [finish_eq] at he
    cases hd : s.doneConcord_
    · simp only [hd, Bool.false_eq_true, if_false] at he
      split_ifs at he
    · rfl
  have hnc : s.nconcord_ ≠ 0 := fun h0 => by simp [d5 h0] at hdc
  have hv : converts s = false := by simp [converts, hnc]
  have hfd : (finish s).exitDiscord_ ≠ Exit.WITH_ALIGNMENTS := by
    rw [finish_eq]
    cases hd : s.doneDiscord_ <;> simp [hv, d2, d3]
  have hfp : (finish s).paired_ = true := by rw [finish_eq]; exact d1
  have hf1 : (finish s).nunpair1_ = s.nunpair1_ := by rw [finish_eq]; simp [hv]
  have hf2 : (finish s).nunpair2_ = s.nunpair2_ := by rw [finish_eq]; simp [hv]
  have hx1 : (finish s).exitUnpair1_ = if s.doneUnpair1_ then s.exitUnpair1_
      else if s.nunpair1_ > 0 then Exit.WITH_ALIGNMENTS else Exit.NO_ALIGNMENTS := by
    rw [finish_eq]
  have hx2 : (finish s).exitUnpair2_ = if s.doneUnpair2_ then s.exitUnpair2_
      else if s.nunpair2_ > 0 then Exit.WITH_ALIGNMENTS else Exit.NO_ALIGNMENTS := by
    rw [finish_eq]
  rw [getReport_concord_m_eq p _ hfp he hfd, getReportUnpaired_eq, hfp, hf1, hf2]
  cases hmix : p.mixed
  · simp
  · obtain ⟨a1, a2, a3, a4⟩ := c3 hmix
    obtain ⟨m1, m2⟩ := mate_SHORT_CIRCUIT_m p s.nunpair1_ _ _ _ hm hs a1 a2 hx1
    obtain ⟨m3, m4⟩ := mate_SHORT_CIRCUIT_m p s.nunpair2_ _ _ _ hm hs a3 a4 hx2
    by_cases hz : s.nunpair1_ + s.nunpair2_ = 0
    · have z1 : s.nunpair1_ = 0 := by omega
      have z2 : s.nunpair2_ = 0 := by omega
      simp [z1, z2]
    · simp [hz, m1, m2, m3, m4]

theorem SHORT_CIRCUIT_m_report_witness :
    ([Event.unpaired true, Event.concordant, Event.concordant, Event.concordant,
        Event.concordant].all Event.isReport = true ∧
      (finish (run paramsM3 (nextRead paramsM3 noRead true)
        [Event.unpaired true, Event.concordant, Event.concordant, Event.concordant,
          Event.concordant])).exitConcord_ = Exit.SHORT_CIRCUIT_m) ∧
    (getReport paramsM3 (finish (run paramsM3 (nextRead paramsM3 noRead true)
      [Event.unpaired true, Event.concordant, Event.concordant, Event.concordant,
        Event.concordant]))).pairMax = true :=
  ⟨⟨by decide, by decide⟩,
    (SHORT_CIRCUIT_m_report paramsM3 noRead
      [Event.unpaired true, Event.concordant, Event.concordant, Event.concordant,
        Event.concordant] (by decide) (by decide)).1⟩

/-! ## The event functions one by one -/

/-- C13: `areDone(cnt, done, exit)` called with `done = false`: if `mhits` is not
set and `cnt >= khits` it returns `done = true`, `exit = SHORT_CIRCUIT_k`; else if
`mhits` is set and `cnt > mhits` it returns `done = true` and
`exit = SHORT_CIRCUIT_M` when `msample`, `SHORT_CIRCUIT_m` otherwise; in every
other case `done` and `exit` are returned unchanged.  In particular, when `mhits`
is set and `cnt <= mhits`, nothing changes however large `cnt` is compared with
`khits`. -/
theorem areDone_spec (p : ReportingParams) (cnt : Nat) (exit : Exit) :
    areDone p cnt false exit =
      (if p.mhitsSet = false ∧ cnt ≥ p.khits then (true, Exit.SHORT_CIRCUIT_k)
       else if p.mhitsSet = true ∧ cnt > p.mhits then
         (true, if p.msample = true then Exit.SHORT_CIRCUIT_M else Exit.SHORT_CIRCUIT_m)
       else (false, exit)) ∧
    (p.mhitsSet = true → cnt ≤ p.mhits → areDone p cnt false exit = (false, exit)) := by
  refine ⟨?_, ?_⟩
  · unfold areDone
    cases hm : p.mhitsSet <;> cases hs : p.msample <;> simp
  · intro hm h
    unfold areDone
    simp [hm, Nat.not_lt.mpr h]

theorem areDone_spec_witness :
    (paramsM3.mhitsSet = true ∧ 3 ≤ paramsM3.mhits) ∧
    areDone paramsM3 3 false Exit.DID_NOT_EXIT = (false, Exit.DID_NOT_EXIT) :=
  ⟨⟨rfl, by decide⟩, (areDone_spec paramsM3 3 Exit.DID_NOT_EXIT).2 rfl (by decide)⟩

/-- C14: `nextRead(paired)` does not depend on the previous state; all four
counters are 0 and `done()` is false.  For `paired = false` the concordant,
discordant and mate-2 categories are done with exit `DID_NOT_ENTER` and mate 1 is
open with `DID_NOT_EXIT`.  For `paired = true` the concordant category is open,
the discordant category is open iff `discord` is set, both unpaired categories
are open iff `mixed` is set, and every category that is not open is done with
exit `DID_NOT_ENTER`. -/
theorem nextRead_spec (p : ReportingParams) (s s' : ReportingState) (paired : Bool) :
    nextRead p s paired = nextRead p s' paired ∧
    (nextRead p s paired).nconcord_ = 0 ∧ (nextRead p s paired).ndiscord_ = 0 ∧
    (nextRead p s paired).nunpair1_ = 0 ∧ (nextRead p s paired).nunpair2_ = 0 ∧
    (nextRead p s paired).done = false ∧
    nextRead p s false =
      { state_ := Phase.UNPAIRED, paired_ := false,
        nconcord_ := 0, ndiscord_ := 0, nunpair1_ := 0, nunpair2_ := 0,
        doneConcord_ := true, doneDiscord_ := true, doneUnpair1_ := false,
        doneUnpair2_ := true, doneUnpair_ := false, done_ := false,
        exitConcord_ := Exit.DID_NOT_ENTER, exitDiscord_ := Exit.DID_NOT_ENTER,
        exitUnpair1_ := Exit.DID_NOT_EXIT, exitUnpair2_ := Exit.DID_NOT_ENTER } ∧
    nextRead p s true =
      { state_ := Phase.CONCORDANT_PAIRS, paired_ := true,
        nconcord_ := 0, ndiscord_ := 0, nunpair1_ := 0, nunpair2_ := 0,
        doneConcord_ := false, doneDiscord_ := !p.discord, doneUnpair1_ := !p.mixed,
        doneUnpair2_ := !p.mixed, doneUnpair_ := !p.mixed, done_ := false,
        exitConcord_ := Exit.DID_NOT_EXIT,
        exitDiscord_ := if p.discord then Exit.DID_NOT_EXIT else Exit.DID_NOT_ENTER,
        exitUnpair1_ := if p.mixed then Exit.DID_NOT_EXIT else Exit.DID_NOT_ENTER,
        exitUnpair2_ := if p.mixed then Exit.DID_NOT_EXIT else Exit.DID_NOT_ENTER } := by
  refine ⟨?_, ?_, ?_, ?_, ?_, ?_, ?_, ?_⟩
  · cases paired <;> rfl
  · cases paired <;> rfl
  · cases paired <;> rfl
  · cases paired <;> rfl
  · cases paired <;> rfl
  · cases paired <;> rfl
  · rfl
  · cases hd : p.discord <;> cases hm : p.mixed <;> simp [nextRead, hd, hm]


/-- C15: `foundConcordant` increases `nconcord` by exactly 1 and leaves the
discordant category done with exit `SHORT_CIRCUIT_TRUMPED`.  If the concordant
category is done afterwards with exit `SHORT_CIRCUIT_k`, both unpaired categories
are done, those that were open get the exit `SHORT_CIRCUIT_TRUMPED` (the others
keep theirs) and the call returns true (`done()`).  If the concordant category is
open afterwards, or its exit is `SHORT_CIRCUIT_m` or `SHORT_CIRCUIT_M`, the done
flags and exits of both unpaired categories are unchanged.  When the concordant
category was open before the call (the asserted precondition), these are the only
outcomes. -/
theorem foundConcordant_spec (p : ReportingParams) (s : ReportingState) :
    (foundConcordant p s).nconcord_ = s.nconcord_ + 1 ∧
    (foundConcordant p s).doneDiscord_ = true ∧
    (foundConcordant p s).exitDiscord_ = Exit.SHORT_CIRCUIT_TRUMPED ∧
    ((foundConcordant p s).doneConcord_ = true ∧
        (foundConcordant p s).exitConcord_ = Exit.SHORT_CIRCUIT_k →
      (foundConcordant p s).doneUnpair1_ = true ∧
      (foundConcordant p s).doneUnpair2_ = true ∧
      (foundConcordant p s).exitUnpair1_ =
        (if s.doneUnpair1_ then s.exitUnpair1_ else Exit.SHORT_CIRCUIT_TRUMPED) ∧
      (foundConcordant p s).exitUnpair2_ =
        (if s.doneUnpair2_ then s.exitUnpair2_ else Exit.SHORT_CIRCUIT_TRUMPED) ∧
      (foundConcordant p s).done = true) ∧
    ((foundConcordant p s).doneConcord_ = false ∨
        (foundConcordant p s).exitConcord_ = Exit.SHORT_CIRCUIT_m ∨
        (foundConcordant p s).exitConcord_ = Exit.SHORT_CIRCUIT_M →
      (foundConcordant p s).doneUnpair1_ = s.doneUnpair1_ ∧
      (foundConcordant p s).doneUnpair2_ = s.doneUnpair2_ ∧
      (foundConcordant p s).exitUnpair1_ = s.exitUnpair1_ ∧
      (foundConcordant p s).exitUnpair2_ = s.exitUnpair2_) ∧
    (s.doneConcord_ = false →
      (foundConcordant p s).doneConcord_ = false ∨
      (foundConcordant p s).exitConcord_ = Exit.SHORT_CIRCUIT_k ∨
      (foundConcordant p s).exitConcord_ = Exit.SHORT_CIRCUIT_m ∨
      (foundConcordant p s).exitConcord_ = Exit.SHORT_CIRCUIT_M) := by
  rw [foundConcordant_eq]
  refine ⟨rfl, rfl, rfl, ?_, ?_, ?_⟩
  · simp only [done, concordTrumps]
    rintro ⟨h1, h2⟩
    simp only [h1, h2]
    cases s.doneUnpair1_ <;> cases s.doneUnpair2_ <;> simp
  · simp only [concordTrumps]
    intro h
    rcases h with h | h | h <;> simp [h]
  · intro h
    rw [areDone_eq, h]
    cases ceilingHit p (s.nconcord_ + 1)
    · simp
    · cases hm : p.mhitsSet <;> cases hs : p.msample <;> simp [ceilingExit, hm, hs]

theorem foundConcordant_spec_witness :
    (nextRead paramsK2 noRead true).doneConcord_ = false ∧
    (foundConcordant paramsK2 (nextRead paramsK2 noRead true)).nconcord_ = 0 + 1 :=
  ⟨rfl, (foundConcordant_spec paramsK2 (nextRead paramsK2 noRead true)).1⟩

/-- C16: `foundUnpaired(m)` increases the counter of mate `m` by exactly 1,
whether or not that category is done, and leaves `nconcord`, `ndiscord`, the other
mate's counter, and the done flag and exit code of the concordant category and of
the other mate unchanged.  The discordant category becomes done with exit
`NO_ALIGNMENTS` exactly when the new counter of mate `m` exceeds 1; otherwise its
done flag and exit are unchanged. -/
theorem foundUnpaired_frame (p : ReportingParams) (s : ReportingState) :
    ((foundUnpaired p s true).nunpair1_ = s.nunpair1_ + 1 ∧
      (foundUnpaired p s true).nunpair2_ = s.nunpair2_ ∧
      (foundUnpaired p s true).nconcord_ = s.nconcord_ ∧
      (foundUnpaired p s true).ndiscord_ = s.ndiscord_ ∧
      (foundUnpaired p s true).doneConcord_ = s.doneConcord_ ∧
      (foundUnpaired p s true).exitConcord_ = s.exitConcord_ ∧
      (foundUnpaired p s true).doneUnpair2_ = s.doneUnpair2_ ∧
      (foundUnpaired p s true).exitUnpair2_ = s.exitUnpair2_ ∧
      (foundUnpaired p s true).doneDiscord_ =
        (if s.nunpair1_ + 1 > 1 then true else s.doneDiscord_) ∧
      (foundUnpaired p s true).exitDiscord_ =
        (if s.nunpair1_ + 1 > 1 then Exit.NO_ALIGNMENTS else s.exitDiscord_)) ∧
    ((foundUnpaired p s false).nunpair2_ = s.nunpair2_ + 1 ∧
      (foundUnpaired p s false).nunpair1_ = s.nunpair1_ ∧
      (foundUnpaired p s false).nconcord_ = s.nconcord_ ∧
      (foundUnpaired p s false).ndiscord_ = s.ndiscord_ ∧
      (foundUnpaired p s false).doneConcord_ = s.doneConcord_ ∧
      (foundUnpaired p s false).exitConcord_ = s.exitConcord_ ∧
      (foundUnpaired p s false).doneUnpair1_ = s.doneUnpair1_ ∧
      (foundUnpaired p s false).exitUnpair1_ = s.exitUnpair1_ ∧
      (foundUnpaired p s false).doneDiscord_ =
        (if s.nunpair2_ + 1 > 1 then true else s.doneDiscord_) ∧
      (foundUnpaired p s false).exitDiscord_ =
        (if s.nunpair2_ + 1 > 1 then Exit.NO_ALIGNMENTS else s.exitDiscord_)) := by
  rw [foundUnpaired_true_eq, foundUnpaired_false_eq]
  refine ⟨⟨rfl, rfl, rfl, rfl, rfl, rfl, rfl, rfl, ?_, rfl⟩,
    ⟨rfl, rfl, rfl, rfl, rfl, rfl, rfl, rfl, ?_, rfl⟩⟩
  · simp only []
    split_ifs with h <;> simp [h]
  · simp only []
    split_ifs with h <;> simp [h]


/-! ## Paired reads without mixed mode -/

theorem step_paired (p : ReportingParams) (s : ReportingState) (e : Event) :
    (step p s e).paired_ = s.paired_ := by
  cases e with
  | concordant => simp only [step]; rw [foundConcordant_eq]
  | discordant => simp only [step]; rw [foundDiscordant_eq]
  | unpaired m =>
    simp only [step]
    cases m
    · rw [foundUnpaired_false_eq]
    · rw [foundUnpaired_true_eq]
  | finish => simp only [step]; rw [finish_eq]

theorem run_paired (p : ReportingParams) (s : ReportingState) (evs : List Event) :
    (run p s evs).paired_ = s.paired_ := by
  induction evs generalizing s with
  | nil => rfl
  | cons e es ih => simp only [run]; rw [ih, step_paired]

/-- A done flag of an unpaired category is never reset. -/
theorem step_doneUnpair (p : ReportingParams) (s : ReportingState) (e : Event) :
    (s.doneUnpair1_ = true → (step p s e).doneUnpair1_ = true) ∧
    (s.doneUnpair2_ = true → (step p s e).doneUnpair2_ = true) := by
  cases e with
  | concordant =>
    simp only [step]; rw [foundConcordant_eq]
    exact ⟨fun h => by simp [h], fun h => by simp [h]⟩
  | discordant =>
    simp only [step]; rw [foundDiscordant_eq]
    exact ⟨fun _ => rfl, fun _ => rfl⟩
  | unpaired m =>
    simp only [step]
    cases m
    · rw [foundUnpaired_false_eq]
      exact ⟨fun h => h, fun h => by simp [h]⟩
    · rw [foundUnpaired_true_eq]
      exact ⟨fun h => by simp [h], fun h => h⟩
  | finish =>
    simp only [step]; rw [finish_eq]
    exact ⟨fun _ => rfl, fun _ => rfl⟩

theorem run_doneUnpair (p : ReportingParams) (s : ReportingState) (evs : List Event) :
    (s.doneUnpair1_ = true → (run p s evs).doneUnpair1_ = true) ∧
    (s.doneUnpair2_ = true → (run p s evs).doneUnpair2_ = true) := by
  induction evs generalizing s with
  | nil => exact ⟨id, id⟩
  | cons e es ih =>
    simp only [run]
    exact ⟨fun h => (ih _).1 ((step_doneUnpair p s e).1 h),
      fun h => (ih _).2 ((step_doneUnpair p s e).2 h)⟩

theorem getReport_not_mixed (p : ReportingParams) (s : ReportingState)
    (hp : s.paired_ = true) (hm : p.mixed = false) :
    (getReport p s).nunpair1Aln = 0 ∧ (getReport p s).nunpair2Aln = 0 ∧
    (getReport p s).unpair1Max = false ∧ (getReport p s).unpair2Max = false := by
  unfold getReport
  simp only [hp, hm, if_true, Bool.false_eq_true, if_false]
  split_ifs <;> simp [getReportUnpaired_eq, hp, hm]

/-- C12: for a paired read with `mixed = false`, in every state reached from
`nextRead(true)` by any calls of the state machine, `doneUnpaired(true)` and
`doneUnpaired(false)` are true, and `getReport` returns
`nunpair1Aln = nunpair2Aln = 0` and `unpair1Max = unpair2Max = false`. -/
theorem not_mixed_reports_no_unpaired (p : ReportingParams) (s0 : ReportingState)
    (evs : List Event) (hm : p.mixed = false) :
    (run p (nextRead p s0 true) evs).doneUnpaired true = true ∧
    (run p (nextRead p s0 true) evs).doneUnpaired false = true ∧
    (getReport p (run p (nextRead p s0 true) evs)).nunpair1Aln = 0 ∧
    (getReport p (run p (nextRead p s0 true) evs)).nunpair2Aln = 0 ∧
    (getReport p (run p (nextRead p s0 true) evs)).unpair1Max = false ∧
    (getReport p (run p (nextRead p s0 true) evs)).unpair2Max = false := by
  have h0 : (nextRead p s0 true).doneUnpair1_ = true ∧
      (nextRead p s0 true).doneUnpair2_ = true ∧ (nextRead p s0 true).paired_ = true := by
    simp [nextRead, hm]
  have hd := run_doneUnpair p (nextRead p s0 true) evs
  have hp : (run p (nextRead p s0 true) evs).paired_ = true := by
    rw [run_paired]; exact h0.2.2
  exact ⟨by simpa [doneUnpaired] using hd.1 h0.1, by simpa [doneUnpaired] using hd.2 h0.2.1,
    getReport_not_mixed p _ hp hm⟩

theorem not_mixed_reports_no_unpaired_witness :
    paramsM1NotMixed.mixed = false ∧
    (getReport paramsM1NotMixed
      (run paramsM1NotMixed (nextRead paramsM1NotMixed noRead true)
        [Event.unpaired true, Event.unpaired true, Event.finish])).unpair1Max = false :=
  ⟨rfl,
    (not_mixed_reports_no_unpaired paramsM1NotMixed noRead
      [Event.unpaired true, Event.unpaired true, Event.finish] rfl).2.2.2.2.1⟩


/-! ## The per-mate table of `getReport` -/

theorem MateInv_nextRead (p : ReportingParams) (s0 : ReportingState) (paired : Bool) :
    MateInv (nextRead p s0 paired) := by
  unfold MateInv nextRead
  cases paired <;> cases p.discord <;> cases p.mixed <;> simp [Exit.isCeiling]

theorem MateInv_foundConcordant (p : ReportingParams) (s : ReportingState)
    (h : MateInv s) : MateInv (foundConcordant p s) := by
  obtain ⟨h1, h2, h3, h4⟩ := h
  rw [foundConcordant_eq]
  refine ⟨?_, ?_, fun _ => rfl, fun _ h0 => absurd h0 (Nat.succ_ne_zero _)⟩
  · simp only []
    split_ifs
    · simp [Exit.isCeiling]
    · exact h1
  · simp only []
    split_ifs
    · simp [Exit.isCeiling]
    · exact h2

theorem MateInv_foundUnpaired (p : ReportingParams) (s : ReportingState) (m : Bool)
    (h : MateInv s) : MateInv (foundUnpaired p s m) := by
  obtain ⟨h1, h2, h3, h4⟩ := h
  cases m
  · rw [foundUnpaired_false_eq]
    exact ⟨h1, fun _ => Nat.succ_le_succ (Nat.zero_le _), fun hp => by simp [h3 hp], h4⟩
  · rw [foundUnpaired_true_eq]
    exact ⟨fun _ => Nat.succ_le_succ (Nat.zero_le _), h2, fun hp => by simp [h3 hp], h4⟩

theorem MateInv_run (p : ReportingParams) (s : ReportingState) (evs : List Event)
    (hev : evs.all Event.isReport = true) (h : MateInv s) : MateInv (run p s evs) := by
  induction evs generalizing s with
  | nil => exact h
  | cons e es ih =>
    simp only [List.all_cons, Bool.and_eq_true] at hev
    refine ih _ hev.2 ?_
    cases e with
    | concordant => exact MateInv_foundConcordant p s h
    | discordant => simp [Event.isReport] at hev
    | unpaired m => exact MateInv_foundUnpaired p s m h
    | finish => simp [Event.isReport] at hev

theorem mate_table (p : ReportingParams) (e : Exit) (n : Nat) :
    (mateAln p e n 0, mateMax e false) = unpairedTable p e n := by
  cases e <;> rfl

theorem mate_table_zero (p : ReportingParams) (e : Exit) (h : e.isCeiling = false) :
    unpairedTable p e 0 = (0, false) := by
  cases e <;> simp [Exit.isCeiling] at h <;> simp [unpairedTable]

/-- The per-mate table on a state whose unpaired categories, where closed by
`areDone`, have positive counters, when `getReport` gets as far as the unpaired
part. -/
theorem getReport_table (p : ReportingParams) (s : ReportingState)
    (h1 : s.exitUnpair1_.isCeiling = true → 1 ≤ s.nunpair1_)
    (h2 : s.exitUnpair2_.isCeiling = true → 1 ≤ s.nunpair2_)
    (hgo : s.paired_ = false ∨
      (p.mixed = true ∧ s.exitConcord_ ≠ Exit.SHORT_CIRCUIT_k ∧
        s.exitConcord_ ≠ Exit.SHORT_CIRCUIT_M ∧ s.exitConcord_ ≠ Exit.WITH_ALIGNMENTS ∧
        s.exitConcord_ ≠ Exit.SHORT_CIRCUIT_m ∧ s.exitDiscord_ ≠ Exit.WITH_ALIGNMENTS)) :
    ((getReport p s).nunpair1Aln, (getReport p s).unpair1Max) =
      unpairedTable p s.exitUnpair1_ s.nunpair1_ ∧
    ((getReport p s).nunpair2Aln, (getReport p s).unpair2Max) =
      unpairedTable p s.exitUnpair2_ s.nunpair2_ := by
  have hr : getReport p s = getReportUnpaired p s
      { nconcordAln := 0, ndiscordAln := 0, nunpair1Aln := 0, nunpair2Aln := 0,
        pairMax := false, unpair1Max := false, unpair2Max := false } := by
    rcases hgo with hp | ⟨_, a, b, c, d, e⟩
    · exact getReport_unpaired_read p s hp
    · unfold getReport
      simp [a, b, c, d, e]
  have hg : (s.paired_ && !p.mixed) = false := by
    rcases hgo with hp | ⟨hm, _⟩
    · simp [hp]
    · simp [hm]
  rw [hr, getReportUnpaired_eq, hg]
  by_cases hz : s.nunpair1_ + s.nunpair2_ = 0
  · have z1 : s.nunpair1_ = 0 := by omega
    have z2 : s.nunpair2_ = 0 := by omega
    have c1 : s.exitUnpair1_.isCeiling = false := by
      cases hc : s.exitUnpair1_.isCeiling
      · rfl
      · have := h1 hc; omega
    have c2 : s.exitUnpair2_.isCeiling = false := by
      cases hc : s.exitUnpair2_.isCeiling
      · rfl
      · have := h2 hc; omega
    simp [z1, z2, mate_table_zero p _ c1, mate_table_zero p _ c2]
  · simp [hz, mate_table]


/-- C11: take a read, paired or not, after `nextRead` and any sequence of
`foundConcordant` and `foundUnpaired` calls, before or after `finish`.  If the
read is unpaired, or it is paired in mixed mode with no concordant alignment
found (`nconcord = 0`) and no discordant alignment reported (`ndiscordAln = 0`),
then `getReport` returns for each mate X the pair (`nunpairXAln`, `unpairXMax`)
that the table gives for that mate's own exit code and counter: `SHORT_CIRCUIT_k`
gives (`khits`, false), `SHORT_CIRCUIT_M` gives (1, true), `SHORT_CIRCUIT_m` gives
(0, true), `WITH_ALIGNMENTS` gives (`min(nunpairX, khits)`, false) and any other
exit gives (0, false). -/
theorem unpaired_report_follows_table (p : ReportingParams) (s0 : ReportingState)
    (paired : Bool) (evs : List Event) (hev : evs.all Event.isReport = true)
    (s : ReportingState)
    (hs : s = run p (nextRead p s0 paired) evs ∨
      s = finish (run p (nextRead p s0 paired) evs))
    (hc : s.paired_ = false ∨
      (p.mixed = true ∧ s.nconcord_ = 0 ∧ (getReport p s).ndiscordAln = 0)) :
    ((getReport p s).nunpair1Aln, (getReport p s).unpair1Max) =
      unpairedTable p s.exitUnpair1_ s.nunpair1_ ∧
    ((getReport p s).nunpair2Aln, (getReport p s).unpair2Max) =
      unpairedTable p s.exitUnpair2_ s.nunpair2_ := by
  have hI := MateInv_run p _ evs hev (MateInv_nextRead p s0 paired)
  generalize run p (nextRead p s0 paired) evs = t at hI hs
  obtain ⟨k1, k2, k3, k4⟩ := hI
  rcases hs with rfl | rfl
  · -- before `finish`
    refine getReport_table p s k1 k2 ?_
    rcases hc with hp | ⟨hm, hn, hd⟩
    · exact Or.inl hp
    · cases hp : s.paired_
      · exact Or.inl rfl
      · obtain ⟨-, he⟩ := k4 hp hn
        rw [getReport_ndiscordAln] at hd
        refine Or.inr ⟨hm, by simp [he], by simp [he], by simp [he], by simp [he], ?_⟩
        intro hw
        simp [hp, he, hw] at hd
  · -- after `finish`
    have hpf : (finish t).paired_ = t.paired_ := by rw [finish_eq]
    have hnf : (finish t).nconcord_ = t.nconcord_ := by rw [finish_eq]
    -- `finish` converted nothing
    have hv : converts t = false := by
      cases hd : t.doneDiscord_
      · have hp : t.paired_ = true := by
          cases hp : t.paired_
          · simp [k3 hp] at hd
          · rfl
        rcases hc with hc | ⟨hm, hn, hr⟩
        · rw [hpf, hp] at hc; exact absurd hc (by simp)
        · rw [hnf] at hn
          obtain ⟨hdc, -⟩ := k4 hp hn
          rw [getReport_ndiscordAln, finish_eq] at hr
          cases hv : converts t
          · rfl
          · simp [hp, hdc, hn, hd, hv] at hr
      · simp [converts, hd]
    have hx1 : (finish t).exitUnpair1_ = (if t.doneUnpair1_ then t.exitUnpair1_
        else if t.nunpair1_ > 0 then Exit.WITH_ALIGNMENTS else Exit.NO_ALIGNMENTS) := by
      rw [finish_eq]
    have hx2 : (finish t).exitUnpair2_ = (if t.doneUnpair2_ then t.exitUnpair2_
        else if t.nunpair2_ > 0 then Exit.WITH_ALIGNMENTS else Exit.NO_ALIGNMENTS) := by
      rw [finish_eq]
    have hn1 : (finish t).nunpair1_ = t.nunpair1_ := by rw [finish_eq]; simp [hv]
    have hn2 : (finish t).nunpair2_ = t.nunpair2_ := by rw [finish_eq]; simp [hv]
    have k1' : (finish t).exitUnpair1_.isCeiling = true → 1 ≤ (finish t).nunpair1_ := by
      rw [hx1, hn1]
      split_ifs
      · exact k1
      all_goals simp [Exit.isCeiling]
    have k2' : (finish t).exitUnpair2_.isCeiling = true → 1 ≤ (finish t).nunpair2_ := by
      rw [hx2, hn2]
      split_ifs
      · exact k2
      all_goals simp [Exit.isCeiling]
    refine getReport_table p _ k1' k2' ?_
    rcases hc with hp | ⟨hm, hn, hd⟩
    · exact Or.inl hp
    · cases hp : t.paired_
      · exact Or.inl (by rw [hpf, hp])
      · rw [hnf] at hn
        obtain ⟨hdc, -⟩ := k4 hp hn
        have he : (finish t).exitConcord_ = Exit.NO_ALIGNMENTS := by
          rw [finish_eq]; simp [hdc, hn]
        rw [getReport_ndiscordAln] at hd
        refine Or.inr ⟨hm, by simp [he], by simp [he], by simp [he], by simp [he], ?_⟩
        intro hw
        simp [hpf, hp, he, hw] at hd

theorem unpaired_report_follows_table_witness :
    ([Event.unpaired true, Event.unpaired true].all Event.isReport = true ∧
      (finish (run paramsM1 (nextRead paramsM1 noRead true)
          [Event.unpaired true, Event.unpaired true]) =
        run paramsM1 (nextRead paramsM1 noRead true)
          [Event.unpaired true, Event.unpaired true] ∨
      finish (run paramsM1 (nextRead paramsM1 noRead true)
          [Event.unpaired true, Event.unpaired true]) =
        finish (run paramsM1 (nextRead paramsM1 noRead true)
          [Event.unpaired true, Event.unpaired true])) ∧
      ((finish (run paramsM1 (nextRead paramsM1 noRead true)
          [Event.unpaired true, Event.unpaired true])).paired_ = false ∨
        (paramsM1.mixed = true ∧
          (finish (run paramsM1 (nextRead paramsM1 noRead true)
            [Event.unpaired true, Event.unpaired true])).nconcord_ = 0 ∧
          (getReport paramsM1 (finish (run paramsM1 (nextRead paramsM1 noRead true)
            [Event.unpaired true, Event.unpaired true]))).ndiscordAln = 0))) ∧
    ((getReport paramsM1 (finish (run paramsM1 (nextRead paramsM1 noRead true)
        [Event.unpaired true, Event.unpaired true]))).nunpair1Aln,
      (getReport paramsM1 (finish (run paramsM1 (nextRead paramsM1 noRead true)
        [Event.unpaired true, Event.unpaired true]))).unpair1Max) = (0, true) :=
  ⟨⟨by decide, Or.inr rfl, Or.inr (by decide)⟩,
    (unpaired_report_follows_table paramsM1 noRead true
      [Event.unpaired true, Event.unpaired true] (by decide) _ (Or.inr rfl)
      (Or.inr (by decide))).1⟩


/-! ## The alignment sink: discordant pairs and random selection -/

open AlnSinkWrap

/-- C18: `prepareDiscordants` returns true if and only if `rs1u_` and `rs2u_` each
hold exactly one alignment; when it returns true and `rs1_` and `rs2_` were empty,
`rs1_` becomes `[rs1u_[0]]` and `rs2_` becomes `[rs2u_[0]]`; when it returns false
the sink, and so each of the four lists, is unchanged. -/
theorem prepareDiscordants_spec (w : AlnSinkWrap) :
    ((prepareDiscordants w).2 = true ↔ w.rs1u_.length = 1 ∧ w.rs2u_.length = 1) ∧
    ((prepareDiscordants w).2 = true → w.rs1_ = [] → w.rs2_ = [] →
      ∃ a b, w.rs1u_ = [a] ∧ w.rs2u_ = [b] ∧
        (prepareDiscordants w).1.rs1_ = [a] ∧ (prepareDiscordants w).1.rs2_ = [b]) ∧
    ((prepareDiscordants w).2 = false → (prepareDiscordants w).1 = w) := by
  unfold prepareDiscordants
  by_cases h : w.rs1u_.length = 1 ∧ w.rs2u_.length = 1
  · simp only [h, and_self, dite_true, true_iff, forall_const]
    refine ⟨trivial, ?_, by simp⟩
    intro h1 h2
    obtain ⟨ha, hb⟩ := h
    obtain ⟨a, ha⟩ := List.length_eq_one.mp ha
    obtain ⟨b, hb⟩ := List.length_eq_one.mp hb
    exact ⟨a, b, ha, hb, by simp [h1, ha], by simp [h2, hb]⟩
  · simp [h]

theorem prepareDiscordants_spec_witness :
    ((prepareDiscordants { AlnSinkWrap.fresh paramsM3 true with
        rs1u_ := [AlnRes.sample 1], rs2u_ := [AlnRes.sample 2] }).2 = true ↔
      [AlnRes.sample 1].length = 1 ∧ [AlnRes.sample 2].length = 1) :=
  (prepareDiscordants_spec { AlnSinkWrap.fresh paramsM3 true with
    rs1u_ := [AlnRes.sample 1], rs2u_ := [AlnRes.sample 2] }).1

/-- C19 does not hold of the code: on a sink whose unpaired lists hold one
alignment each (and whose paired lists are empty) `prepareDiscordants` returns
true and copies the two alignments to `rs1_`/`rs2_`, but `rs1u_` and `rs2u_` are
not cleared: each still holds its alignment. -/
theorem prepareDiscordants_keeps_unpaired :
    (prepareDiscordants { AlnSinkWrap.fresh paramsM3 true with
        rs1u_ := [AlnRes.sample 1], rs2u_ := [AlnRes.sample 2] }).2 = true ∧
    (prepareDiscordants { AlnSinkWrap.fresh paramsM3 true with
        rs1u_ := [AlnRes.sample 1], rs2u_ := [AlnRes.sample 2] }).1.rs1_ =
      [AlnRes.sample 1] ∧
    (prepareDiscordants { AlnSinkWrap.fresh paramsM3 true with
        rs1u_ := [AlnRes.sample 1], rs2u_ := [AlnRes.sample 2] }).1.rs1u_ =
      [AlnRes.sample 1] ∧
    (prepareDiscordants { AlnSinkWrap.fresh paramsM3 true with
        rs1u_ := [AlnRes.sample 1], rs2u_ := [AlnRes.sample 2] }).1.rs2u_ =
      [AlnRes.sample 2] := by
  decide



theorem selectLoop_getElem? (sz : Nat) (hsz : sz < 2 ^ 32) :
    ∀ (k i off : Nat) (sel : List Nat), off < sz → sel.length = sz → k ≤ sz →
      (selectLoop sz k i off sel).length = sz ∧
      ∀ x, x < sz → (selectLoop sz k i off sel)[x]? =
        if (if off ≤ x then x - off else x + sz - off) < k
        then some (i + (if off ≤ x then x - off else x + sz - off)) else sel[x]? := by
  intro k
  induction k with
  | zero =>
    intro i off sel _ hl _
    exact ⟨hl, fun x _ => by simp [selectLoop]⟩
  | succ k ih =>
    intro i off sel ho hl hk
    have hw : (off + 1) % 2 ^ 32 = off + 1 := Nat.mod_eq_of_lt (by omega)
    have ho' : (if off + 1 = sz then 0 else off + 1) < sz := by split_ifs <;> omega
    obtain ⟨h1, h2⟩ := ih (i + 1) (if off + 1 = sz then 0 else off + 1) (sel.set off i)
      ho' (by simp [hl]) (by omega)
    simp only [selectLoop, hw]
    refine ⟨h1, fun x hx => ?_⟩
    rw [h2 x hx, List.getElem?_set]
    by_cases hxo : off = x
    · subst hxo
      have : ¬ ((if (if off + 1 = sz then 0 else off + 1) ≤ off then
          off - (if off + 1 = sz then 0 else off + 1)
          else off + sz - (if off + 1 = sz then 0 else off + 1)) < k) := by
        split_ifs <;> omega
      simp [this, hl, ho]
    · simp only [hxo, if_false]
      by_cases h0 : off + 1 = sz
      · simp only [h0, if_true, Nat.zero_le, Nat.sub_zero]
        have hle : ¬ off ≤ x := by omega
        simp only [hle, if_false]
        have e : x + sz - off = x + 1 := by omega
        simp only [e]
        by_cases hk' : x < k
        · have : x + 1 < k + 1 := by omega
          simp [hk', this]; omega
        · have : ¬ x + 1 < k + 1 := by omega
          simp [hk', this]
      · simp only [h0, if_false]
        by_cases hle : off ≤ x
        · have hle' : off + 1 ≤ x := by omega
          simp only [hle, hle', if_true]
          by_cases hk' : x - (off + 1) < k
          · have : x - off < k + 1 := by omega
            simp [hk', this]; omega
          · have : ¬ x - off < k + 1 := by omega
            simp [hk', this]
        · have hle' : ¬ off + 1 ≤ x := by omega
          simp only [hle, hle', if_false]
          by_cases hk' : x + sz - (off + 1) < k
          · have : x + sz - off < k + 1 := by omega
            simp [hk', this]; omega
          · have : ¬ x + sz - off < k + 1 := by omega
            simp [hk', this]


theorem selectLoop_countP (sz : Nat) (hsz : sz < 2 ^ 32) :
    ∀ (k i off : Nat) (sel : List Nat), off < sz → sel.length = sz → k ≤ sz → 1 ≤ i →
      (∀ x, x < sz → (if off ≤ x then x - off else x + sz - off) < k → sel[x]? = some 0) →
      (selectLoop sz k i off sel).countP (fun v => v != 0) =
        sel.countP (fun v => v != 0) + k := by
  intro k
  induction k with
  | zero =>
    intro i off sel _ _ _ _ _
    simp [selectLoop]
  | succ k ih =>
    intro i off sel ho hl hk hi hz
    have hw : (off + 1) % 2 ^ 32 = off + 1 := Nat.mod_eq_of_lt (by omega)
    have ho' : (if off + 1 = sz then 0 else off + 1) < sz := by split_ifs <;> omega
    have hol : off < sel.length := by omega
    have h0 : sel[off] = 0 := by
      have := hz off ho (by simp)
      rw [List.getElem?_eq_getElem hol] at this
      exact Option.some.inj this
    have hz' : ∀ x, x < sz →
        (if (if off + 1 = sz then 0 else off + 1) ≤ x then
          x - (if off + 1 = sz then 0 else off + 1)
          else x + sz - (if off + 1 = sz then 0 else off + 1)) < k →
        (sel.set off i)[x]? = some 0 := by
      intro x hx hd
      have hne : off ≠ x := by
        intro h
        subst h
        split_ifs at hd <;> omega
      rw [List.getElem?_set_ne hne]
      refine hz x hx ?_
      split_ifs at hd ⊢ <;> omega
    simp only [selectLoop, hw]
    rw [ih (i + 1) _ (sel.set off i) ho' (by simp [hl]) (by omega) (by omega) hz',
      List.countP_set _ _ _ _ hol, h0]
    have hi' : (i != 0) = true := by simp; omega
    simp [hi']
    omega

theorem resizeList_length (l : List Nat) (sz : Nat) : (resizeList l sz).length = sz := by
  simp [resizeList]
  omega

theorem mod_add_wrap (r i sz : Nat) (hr : r < sz) (hi : i < sz) :
    (r + i) % sz = if r + i < sz then r + i else r + i - sz := by
  split_ifs with h
  · exact Nat.mod_eq_of_lt h
  · rw [Nat.mod_eq_sub_mod (by omega), Nat.mod_eq_of_lt (by omega)]


theorem selectAlnsToReport_offset (rs : List AlnRes) (num : Nat) (select : List Nat)
    (rndU32 : Nat) (h : 2 ≤ rs.length) :
    (selectAlnsToReport rs num select rndU32).2 = rndU32 % (rs.length % 2 ^ 32) := by
  have h3 : ¬ rs.length < 1 := by omega
  have h4 : ¬ rs.length = 1 := by omega
  simp only [selectAlnsToReport, h3, h4, if_false]

/-- C17 as stated fails for a list of `2^32` alignments or more: the offset is
drawn modulo `(uint32_t)sz`.  With `sz = 2^32 + 1`, `num = 1` and
`rnd.nextU32() = 5` the claim has `r = 5 mod sz = 5` returned, but
`(uint32_t)sz = 1` and the function returns `5 mod 1 = 0`. -/
theorem selectAlnsToReport_list_beyond_uint32 :
    (List.replicate (2 ^ 32 + 1) (AlnRes.sample 0)).length = 2 ^ 32 + 1 ∧
    5 % (2 ^ 32 + 1) = 5 ∧
    (selectAlnsToReport (List.replicate (2 ^ 32 + 1) (AlnRes.sample 0)) 1 [] 5).2 = 0 := by
  have hl : (List.replicate (2 ^ 32 + 1) (AlnRes.sample 0)).length = 2 ^ 32 + 1 :=
    List.length_replicate _ _
  refine ⟨hl, by norm_num, ?_⟩
  rw [selectAlnsToReport_offset _ _ _ _ (by rw [hl]; norm_num), hl]
  norm_num

/-- C17 (amended): for a list `rs` of fewer than `2^32` alignments and
`num >= 1`, with `sz` the size of `rs`, `r = rnd.nextU32() mod sz` and
`n = min(num, sz)`: if `sz >= 2` the function returns `r` and a `select` list of
length `sz` with `select[(r + i) mod sz] = i + 1` for every `i < n` and 0
everywhere else; if `sz = 1` it yields `select = [1]` and returns 0; if `sz = 0`
it yields the empty list and returns 0.  Hence exactly `min(num, sz)` entries are
selected (non-zero) and, for `sz >= 1`, the returned index is `< sz` and is the
entry marked 1. -/
theorem selectAlnsToReport_spec (rs : List AlnRes) (num : Nat) (select : List Nat)
    (rndU32 : Nat) (hsz : rs.length < 2 ^ 32) (hnum : 1 ≤ num) :
    (2 ≤ rs.length →
      (selectAlnsToReport rs num select rndU32).2 = rndU32 % rs.length ∧
      (selectAlnsToReport rs num select rndU32).1.length = rs.length ∧
      (∀ i, i < min num rs.length →
        (selectAlnsToReport rs num select rndU32).1[(rndU32 % rs.length + i) % rs.length]? =
          some (i + 1)) ∧
      (∀ x, x < rs.length →
        (∀ i, i < min num rs.length → x ≠ (rndU32 % rs.length + i) % rs.length) →
        (selectAlnsToReport rs num select rndU32).1[x]? = some 0)) ∧
    (rs.length = 1 → selectAlnsToReport rs num select rndU32 = ([1], 0)) ∧
    (rs.length = 0 → selectAlnsToReport rs num select rndU32 = ([], 0)) ∧
    (selectAlnsToReport rs num select rndU32).1.countP (fun v => v != 0) =
      min num rs.length ∧
    (1 ≤ rs.length →
      (selectAlnsToReport rs num select rndU32).2 < rs.length ∧
      (selectAlnsToReport rs num select rndU32).1[
        (selectAlnsToReport rs num select rndU32).2]? = some 1) := by
  have hone : rs.length = 1 → selectAlnsToReport rs num select rndU32 = ([1], 0) := by
    intro h1
    have hl := resizeList_length select 1
    obtain ⟨a, ha⟩ := List.length_eq_one.mp hl
    simp [selectAlnsToReport, h1, ha]
  have hzero : rs.length = 0 → selectAlnsToReport rs num select rndU32 = ([], 0) := by
    intro h0
    have hl := resizeList_length select 0
    simp [selectAlnsToReport, h0, List.length_eq_zero.mp hl]
  -- the case of two alignments or more
  have htwo : 2 ≤ rs.length →
      selectAlnsToReport rs num select rndU32 =
        (selectLoop rs.length (min num rs.length) 1 (rndU32 % rs.length)
          (List.replicate rs.length 0), rndU32 % rs.length) := by
    intro h2
    have hm : rs.length % 2 ^ 32 = rs.length := Nat.mod_eq_of_lt hsz
    have hn : (if rs.length < num then rs.length else num) = min num rs.length := by
      split_ifs <;> omega
    have h3 : ¬ rs.length < 1 := by omega
    have h4 : ¬ rs.length = 1 := by omega
    simp only [selectAlnsToReport, h3, h4, if_false, resizeList_length, hm, hn]
  have hr : 2 ≤ rs.length → rndU32 % rs.length < rs.length :=
    fun h2 => Nat.mod_lt _ (by omega)
  have hget := fun h2 => selectLoop_getElem? rs.length hsz (min num rs.length) 1
    (rndU32 % rs.length) (List.replicate rs.length 0) (hr h2) (List.length_replicate _ _)
    (Nat.min_le_right _ _)
  refine ⟨?_, hone, hzero, ?_, ?_⟩
  · intro h2
    obtain ⟨g1, g2⟩ := hget h2
    rw [htwo h2]
    refine ⟨rfl, g1, ?_, ?_⟩
    · intro i hi
      have hi' : i < rs.length := by omega
      have hx : (rndU32 % rs.length + i) % rs.length < rs.length := Nat.mod_lt _ (by omega)
      rw [g2 _ hx, mod_add_wrap _ _ _ (hr h2) hi']
      split_ifs <;> first | omega | (simp; omega)
    · intro x hx hne
      rw [g2 x hx]
      have hd : ¬ (if rndU32 % rs.length ≤ x then x - rndU32 % rs.length
          else x + rs.length - rndU32 % rs.length) < min num rs.length := by
        intro hlt
        refine hne _ hlt ?_
        have hlt' : (if rndU32 % rs.length ≤ x then x - rndU32 % rs.length
          else x + rs.length - rndU32 % rs.length) < rs.length := by omega
        rw [mod_add_wrap _ _ _ (hr h2) hlt']
        have := hr h2
        split_ifs at hlt' ⊢ <;> omega
      simp [hd, hx]
  · rcases Nat.lt_or_ge rs.length 2 with hlt | h2
    · rcases Nat.eq_zero_or_pos rs.length with h0 | hpos
      · rw [hzero h0, h0]; simp
      · have h1 : rs.length = 1 := by omega
        rw [hone h1, h1]
        simp
        omega
    · rw [htwo h2]
      simp only []
      rw [selectLoop_countP rs.length hsz _ 1 _ _ (hr h2) (List.length_replicate _ _)
        (Nat.min_le_right _ _) (Nat.le_refl 1)]
      · simp [List.countP_replicate]
      · intro x hx _
        simp [hx]
  · intro h1
    rcases Nat.lt_or_ge rs.length 2 with hlt | h2
    · have h1' : rs.length = 1 := by omega
      rw [hone h1', h1']
      simp
    · obtain ⟨-, g2⟩ := hget h2
      rw [htwo h2]
      refine ⟨hr h2, ?_⟩
      simp only []
      rw [g2 _ (hr h2)]
      have : 0 < min num rs.length := by omega
      simp [this]

theorem selectAlnsToReport_spec_witness :
    ((List.replicate 5 (AlnRes.sample 0)).length < 2 ^ 32 ∧ 1 ≤ 3) ∧
    (selectAlnsToReport (List.replicate 5 (AlnRes.sample 0)) 3 [] 13).1.countP
        (fun v => v != 0) =
      min 3 (List.replicate 5 (AlnRes.sample 0)).length :=
  ⟨⟨by decide, by decide⟩,
    (selectAlnsToReport_spec (List.replicate 5 (AlnRes.sample 0)) 3 [] 13
      (by decide) (by decide)).2.2.2.1⟩


/-! ## `extendSeeds`: the returned flag and the reports -/

theorem LogOK_nil (args : ExtendArgs) : LogOK args [] false :=
  ⟨fun h => by simp at h, fun _ a h => by simp at h, fun _ a r h => by simp at h⟩

theorem LogOK_append (args : ExtendArgs) (l1 l2 : List Call) (r : Bool)
    (h1 : LogOK args l1 false) (h2 : LogOK args l2 r) : LogOK args (l1 ++ l2) r := by
  obtain ⟨-, a2, a3⟩ := h1
  obtain ⟨b1, b2, b3⟩ := h2
  refine ⟨fun hr => ?_, fun hr a hm => ?_, fun hi a r hm => ?_⟩
  · obtain ⟨hi, pre, a, hl, hn⟩ := b1 hr
    refine ⟨hi, l1 ++ pre, a, by rw [hl, List.append_assoc], fun x hm => ?_⟩
    rcases List.mem_append.mp hm with hm | hm
    · exact a2 rfl x hm
    · exact hn x hm
  · rcases List.mem_append.mp hm with hm | hm
    · exact a2 rfl a hm
    · exact b2 hr a hm
  · rcases List.mem_append.mp hm with hm | hm
    · exact a3 hi a r hm
    · exact b3 hi a r hm

theorem LogOK_call (args : ExtendArgs) (c : Call) (h : ∀ a r, c ≠ Call.report a r) :
    LogOK args [c] false :=
  ⟨fun hr => by simp at hr, fun _ a hm => h a true (by simpa using (List.mem_singleton.mp hm).symm),
    fun _ a r hm => h a r (by simpa using (List.mem_singleton.mp hm).symm)⟩

theorem LogOK_report (args : ExtendArgs) (a : AlnRes) (r : Bool)
    (hi : args.reportImmediately = true) : LogOK args [Call.report a r] r := by
  refine ⟨fun hr => ⟨hi, [], a, by simp [hr], fun x hm => by simp at hm⟩,
    fun hr x hm => ?_, fun h0 => by simp [hi] at h0⟩
  simp [hr] at hm

/-- A loop that first writes the calls `mid`, none of them a report that returned
true, and then goes on from the state `S`. -/
theorem log_extend (args : ExtendArgs) (f : ExtendState × Bool) (st S : ExtendState)
    (mid : List Call) (hS : S.log = st.log ++ mid) (hmid : LogOK args mid false)
    (h : ∃ new, f.1.log = S.log ++ new ∧ LogOK args new f.2) :
    ∃ new, f.1.log = st.log ++ new ∧ LogOK args new f.2 := by
  obtain ⟨new, e, ok⟩ := h
  exact ⟨mid ++ new, by rw [e, hS, List.append_assoc], LogOK_append _ _ _ _ hmid ok⟩

/-- The stretch of the log written by the loop over the alignments of one
dynamic-programming problem. -/
theorem extendAlns_log (args : ExtendArgs) (alns : List (Option AlnRes)) :
    ∀ st : ExtendState, ∃ new,
      (extendAlns args st alns).1.log = st.log ++ new ∧
      LogOK args new (extendAlns args st alns).2 := by
  induction alns with
  | nil => exact fun st => ⟨[], by simp [extendAlns], LogOK_nil args⟩
  | cons x rest ih =>
    intro st
    have hnext : LogOK args [Call.next] false := LogOK_call args _ (by simp)
    cases x with
    | none => exact ⟨[Call.next], by simp [extendAlns], hnext⟩
    | some res =>
      simp only [extendAlns]
      by_cases h1 : overlap st.redAnchor_ res = true
      · simp only [h1, if_true]
        exact log_extend args _ st _ [Call.next] rfl hnext (ih _)
      · simp only [h1]
        by_cases h2 : args.reportImmediately = true
        · simp only [h2, if_true]
          generalize st.msink.report (if args.mate1 = true then some res else none)
            (if args.mate1 = true then none else some res) = rp
          obtain ⟨w, r⟩ := rp
          cases r
          · simp only [Bool.false_eq_true, if_false]
            exact log_extend args _ st _ ([Call.next] ++ [Call.report res false])
              (by simp) (LogOK_append _ _ _ _ hnext (LogOK_report args res false h2)) (ih _)
          · simp only [if_true]
            exact ⟨[Call.next] ++ [Call.report res true], by simp,
              LogOK_append _ _ _ _ hnext (LogOK_report args res true h2)⟩
        · simp only [h2]
          exact log_extend args _ st _ [Call.next] rfl hnext (ih _)


/-- The stretch of the log written by the loop over the elements of one
walker. -/
theorem extendWalk_log (args : ExtendArgs) (rank rdoff : Nat) (fw : Bool)
    (walk : List WalkElt) :
    ∀ st : ExtendState, ∃ new,
      (extendWalk args rank rdoff fw st walk).1.log = st.log ++ new ∧
      LogOK args new (extendWalk args rank rdoff fw st walk).2 := by
  induction walk with
  | nil => exact fun st => ⟨[], by simp [extendWalk], LogOK_nil args⟩
  | cons wr more ih =>
    intro st
    have hadv : LogOK args [Call.advance rank] false := LogOK_call args _ (by simp)
    have hfr : ∀ c, LogOK args [Call.frame c] false := fun c => LogOK_call args _ (by simp)
    have hdp : ∀ t o, LogOK args [Call.dp t o] false := fun t o => LogOK_call args _ (by simp)
    simp only [extendWalk]
    generalize (if args.color = true then 1 else 0) = cbit
    generalize args.joinedToTextOff wr.len wr.toff = t
    generalize ({ ref := 0, off := (wr.toff : Int) - (rdoff : Int), fw := fw } : Coord) = c
    have hm1 : LogOK args ([Call.advance rank] ++ [Call.frame c]) false :=
      LogOK_append _ _ _ _ hadv (hfr c)
    have hm2 : LogOK args
        ([Call.advance rank] ++ [Call.frame c] ++ [Call.dp t.1 ((t.2.1 : Int) - (rdoff : Int))])
        false := LogOK_append _ _ _ _ hm1 (hdp _ _)
    by_cases h1 : c ∈ st.redSeed1_
    · simp only [h1, if_true]
      exact log_extend args _ st _ [Call.advance rank] rfl hadv (ih _)
    · simp only [h1, if_false]
      by_cases h2 : t.1 = 4294967295
      · simp only [h2, if_true]
        exact log_extend args _ st _ [Call.advance rank] rfl hadv (ih _)
      · simp only [h2, if_false]
        cases h3 : args.frameSeedExtension ((t.2.1 : Int) - (rdoff : Int)) (args.rdlen + cbit)
          ((t.2.2 + cbit) % 2 ^ 32)
        · simp only [Bool.not_false, if_true]
          exact log_extend args _ st _ ([Call.advance rank] ++ [Call.frame c]) (by simp)
            hm1 (ih _)
        · simp only [Bool.not_true, Bool.false_eq_true, if_false]
          cases h4 : wr.aligned
          · simp only [Bool.not_false, if_true]
            exact log_extend args _ st _ _ (by simp) hm2 (ih _)
          · simp only [Bool.not_true, Bool.false_eq_true, if_false]
            obtain ⟨new, e, ok⟩ := extendAlns_log args wr.alns
              { redSeed1_ := c :: st.redSeed1_, redAnchor_ := st.redAnchor_,
                rshit := st.rshit, msink := st.msink,
                log := st.log ++ [Call.advance rank] ++ [Call.frame c] ++
                  [Call.dp t.1 ((t.2.1 : Int) - (rdoff : Int))] }
            generalize extendAlns args
              { redSeed1_ := c :: st.redSeed1_, redAnchor_ := st.redAnchor_,
                rshit := st.rshit, msink := st.msink,
                log := st.log ++ [Call.advance rank] ++ [Call.frame c] ++
                  [Call.dp t.1 ((t.2.1 : Int) - (rdoff : Int))] } wr.alns = out at e ok ⊢
            obtain ⟨S, r⟩ := out
            simp only at e ok ⊢
            cases r
            · simp only [Bool.false_eq_true, if_false]
              refine log_extend args _ st S
                ([Call.advance rank] ++ [Call.frame c] ++
                  [Call.dp t.1 ((t.2.1 : Int) - (rdoff : Int))] ++ new) ?_
                (LogOK_append _ _ _ _ hm2 ok) (ih _)
              rw [e]
              simp
            · simp only [if_true]
              refine ⟨[Call.advance rank] ++ [Call.frame c] ++
                  [Call.dp t.1 ((t.2.1 : Int) - (rdoff : Int))] ++ new, ?_,
                LogOK_append _ _ _ _ hm2 ok⟩
              rw [e]
              simp

/-- The stretch of the log written by the loop over the seed hits. -/
theorem extendRanks_log (args : ExtendArgs) (hits : List SeedHit) :
    ∀ (i : Nat) (st : ExtendState), ∃ new,
      (extendRanks args st i hits).1.log = st.log ++ new ∧
      LogOK args new (extendRanks args st i hits).2 := by
  induction hits with
  | nil => exact fun i st => ⟨[], by simp [extendRanks], LogOK_nil args⟩
  | cons hit hits ih =>
    intro i st
    simp only [extendRanks]
    generalize (if (!hit.fw) = true then
      (((args.rdlen : Int) - (hit.rdoff : Int) - (hit.seedlen : Int)) % 2 ^ 32).toNat
      else hit.rdoff) = rdoff
    obtain ⟨new, e, ok⟩ := extendWalk_log args i rdoff hit.fw hit.walk st
    cases hr : (extendWalk args i rdoff hit.fw st hit.walk).2
    · rw [hr] at ok
      simp only [Bool.false_eq_true, if_false]
      exact log_extend args _ st _ new e ok (ih _ _)
    · simp only [if_true]
      exact ⟨new, e, hr ▸ ok⟩


theorem nil_of_append_singleton {α : Type} (pre post pre' : List α) (x y : α)
    (h : pre ++ x :: post = pre' ++ [y]) (hx : x ∉ pre') : post = [] := by
  by_contra hne
  apply hx
  have h2 := congrArg List.dropLast h
  rw [List.dropLast_concat, List.dropLast_append_of_ne_nil _ (by simp),
    List.dropLast_cons_of_ne_nil hne] at h2
  rw [← h2]
  simp

/-- C20: `extendSeeds` returns true if and only if `reportImmediately` is true and
some call of `msink->report` returned true; a report that returned true is the
last call the function makes (no walker advance, framing, dynamic-programming
problem or report follows it); with `reportImmediately = false` the function
returns false and never calls `report`.  Here `new` is the stretch of the log
that the call of `extendSeeds` writes. -/
theorem extendSeeds_returns_at_first_true_report (args : ExtendArgs)
    (hits : List SeedHit) (poss : Nat) (st : ExtendState) :
    ∃ new, (extendSeeds args hits poss st).1.log = st.log ++ new ∧
      ((extendSeeds args hits poss st).2 = true ↔
        args.reportImmediately = true ∧ ∃ a, Call.report a true ∈ new) ∧
      (∀ pre a post, new = pre ++ Call.report a true :: post → post = []) ∧
      (args.reportImmediately = false →
        (extendSeeds args hits poss st).2 = false ∧ ∀ a r, Call.report a r ∉ new) := by
  obtain ⟨new, e, ok1, ok2, ok3⟩ := extendRanks_log args (hits.take poss) 0 st
  refine ⟨new, e, ⟨fun hr => ?_, fun ⟨_, a, ha⟩ => ?_⟩, fun pre a post hn => ?_, fun hi => ?_⟩
  · obtain ⟨hi, pre, a, hl, -⟩ := ok1 hr
    exact ⟨hi, a, by rw [hl]; simp⟩
  · cases hr : (extendSeeds args hits poss st).2
    · exact absurd ha (ok2 hr a)
    · rfl
  · cases hr : (extendSeeds args hits poss st).2
    · exact absurd (by rw [hn]; simp) (ok2 hr a)
    · obtain ⟨-, pre', a', hl, hno⟩ := ok1 hr
      exact nil_of_append_singleton pre post pre' _ _ (hn ▸ hl) (hno a)
  · refine ⟨?_, ok3 hi⟩
    cases hr : (extendSeeds args hits poss st).2
    · rfl
    · obtain ⟨hi', -⟩ := ok1 hr
      rw [hi] at hi'
      exact absurd hi' (by simp)

/-- With `-k 2` and immediate reporting, `extendSeeds` on the sample hits returns
true at the second reported alignment, which ends the log. -/
theorem extendSeeds_sample_run :
    (extendSeeds (ExtendArgs.sample true) SeedHit.samples 2 (ExtendState.fresh paramsK2)).2
      = true ∧
    (extendSeeds (ExtendArgs.sample true) SeedHit.samples 2
        (ExtendState.fresh paramsK2)).1.log =
      [Call.advance 0, Call.frame { ref := 0, off := 100, fw := true }, Call.dp 0 100,
        Call.next, Call.report (AlnRes.sample 100) false, Call.next, Call.next,
        Call.report (AlnRes.sample 200) true] ∧
    (extendSeeds (ExtendArgs.sample false) SeedHit.samples 2
        (ExtendState.fresh paramsK2)).2 = false := by
  decide

/-! ## The assertions of `getReport` on the states the driver produces -/

theorem SinkInv_nextRead (p : ReportingParams) (s0 : ReportingState) (paired : Bool)
    (hk : 1 ≤ p.khits) : SinkInv p (ReportingState.nextRead p s0 paired) := by
  have h0 : ceilingHit p 0 = false := ceilingHit_zero p (fun _ => hk)
  unfold SinkInv MateOk Consistent ReportingState.nextRead
  cases paired <;> cases p.discord <;> cases p.mixed <;> simp [h0]

theorem concordTrumps_open (p : ReportingParams) (s : ReportingState)
    (hd : s.doneConcord_ = false) :
    concordTrumps p s = (ceilingHit p (s.nconcord_ + 1) && !p.mhitsSet) := by
  unfold concordTrumps
  rw [areDone_eq]
  cases h : ceilingHit p (s.nconcord_ + 1) <;> cases hm : p.mhitsSet <;>
    cases hs : p.msample <;> simp [hd, ceilingExit, hm, hs]

theorem SinkInv_foundConcordant (p : ReportingParams) (s : ReportingState)
    (hpre : sinkPre s Event.concordant = true) (h : SinkInv p s) :
    SinkInv p (foundConcordant p s) := by
  obtain ⟨⟨c1, c2, c3⟩, hc, ⟨hd1, hd2, hd3⟩, ⟨m1a, m1b⟩, ⟨m2a, m2b⟩, hu⟩ := h
  simp only [sinkPre, Bool.and_eq_true, Bool.not_eq_true'] at hpre
  obtain ⟨hdone, hdc⟩ := hpre
  have hp : s.paired_ = true := by
    cases hpp : s.paired_
    · have := (hu hpp).1
      rw [hdc] at this
      exact absurd this (by simp)
    · rfl
  have hec : s.exitConcord_ = Exit.DID_NOT_EXIT := by
    rcases hc hp with ⟨_, e, _⟩ | ⟨d, _, _⟩
    · exact e
    · rw [hdc] at d
      exact absurd d (by simp)
  have hct := concordTrumps_open p s hdc
  rw [foundConcordant_eq]
  rw [areDone_eq, hct, hdc, hec]
  unfold SinkInv MateOk Consistent
  simp only [hp]
  cases hh : ceilingHit p (s.nconcord_ + 1) <;> cases hm : p.mhitsSet <;>
    cases hd1x : s.doneUnpair1_ <;> cases hd2x : s.doneUnpair2_ <;>
    simp_all [ceilingExit] <;> tauto

theorem MateOk_found (p : ReportingParams) (s t : ReportingState) (d : Bool) (e : Exit)
    (n : Nat) (hp : t.paired_ = s.paired_) (he : t.exitConcord_ = s.exitConcord_)
    (h : MateOk p s d e n) :
    MateOk p t (d || ceilingHit p (n + 1))
      (if (!d && ceilingHit p (n + 1)) = true then ceilingExit p else e) (n + 1) := by
  obtain ⟨ha, hb⟩ := h
  unfold MateOk
  rw [hp, he]
  cases hd : d
  · obtain ⟨e0, -⟩ := ha hd
    cases hh : ceilingHit p (n + 1) <;> simp [e0]
  · have h1 := hb hd
    simp only [Bool.true_or, Bool.not_true, Bool.false_and, Bool.false_eq_true, if_false,
      true_implies]
    refine ⟨fun hx => absurd hx (by simp), ?_⟩
    rcases h1 with h1 | ⟨h1, h2⟩ | h1
    · exact Or.inl h1
    · exact Or.inr (Or.inl ⟨h1, ceilingHit_succ p n h2⟩)
    · exact Or.inr (Or.inr h1)

theorem MateOk_frame (p : ReportingParams) (s t : ReportingState) (d : Bool) (e : Exit)
    (n : Nat) (hp : t.paired_ = s.paired_) (he : t.exitConcord_ = s.exitConcord_)
    (h : MateOk p s d e n) : MateOk p t d e n := by
  unfold MateOk at *
  rw [hp, he]
  exact h

theorem SinkInv_foundUnpaired (p : ReportingParams) (s : ReportingState) (m : Bool)
    (h : SinkInv p s) : SinkInv p (foundUnpaired p s m) := by
  obtain ⟨hcons, hc, ⟨hd1, hd2, hd3⟩, m1, m2, hu⟩ := h
  have hcons' := Consistent_foundUnpaired p s m hcons
  cases m
  · have k2 := MateOk_found p s (foundUnpaired p s false) _ _ _
      (by rw [foundUnpaired_false_eq]) (by rw [foundUnpaired_false_eq]) m2
    have k1 := MateOk_frame p s (foundUnpaired p s false) _ _ _
      (by rw [foundUnpaired_false_eq]) (by rw [foundUnpaired_false_eq]) m1
    refine ⟨hcons', ?_, ?_, ?_, ?_, ?_⟩
    · rw [foundUnpaired_false_eq]; exact hc
    · rw [foundUnpaired_false_eq]
      refine ⟨hd1, ?_, ?_⟩
      · simp only []
        split_ifs <;> simp [hd2]
      · simp only [Bool.or_eq_false_iff]
        exact fun hx => hd3 hx.1
    · rw [foundUnpaired_false_eq] at k1 ⊢; exact k1
    · rw [foundUnpaired_false_eq] at k2 ⊢; exact k2
    · rw [foundUnpaired_false_eq]
      intro hp
      obtain ⟨a, b, c, d⟩ := hu hp
      simp [a, b, c, d]
  · have k1 := MateOk_found p s (foundUnpaired p s true) _ _ _
      (by rw [foundUnpaired_true_eq]) (by rw [foundUnpaired_true_eq]) m1
    have k2 := MateOk_frame p s (foundUnpaired p s true) _ _ _
      (by rw [foundUnpaired_true_eq]) (by rw [foundUnpaired_true_eq]) m2
    refine ⟨hcons', ?_, ?_, ?_, ?_, ?_⟩
    · rw [foundUnpaired_true_eq]; exact hc
    · rw [foundUnpaired_true_eq]
      refine ⟨hd1, ?_, ?_⟩
      · simp only []
        split_ifs <;> simp [hd2]
      · simp only [Bool.or_eq_false_iff]
        exact fun hx => hd3 hx.1
    · rw [foundUnpaired_true_eq] at k1 ⊢; exact k1
    · rw [foundUnpaired_true_eq] at k2 ⊢; exact k2
    · rw [foundUnpaired_true_eq]
      intro hp
      obtain ⟨a, b, c, d⟩ := hu hp
      simp [a, b, c, d]

theorem SinkInv_step (p : ReportingParams) (s : ReportingState) (e : Event)
    (hpre : sinkPre s e = true) (h : SinkInv p s) : SinkInv p (step p s e) := by
  cases e with
  | concordant => exact SinkInv_foundConcordant p s hpre h
  | discordant => simp [sinkPre] at hpre
  | unpaired m => exact SinkInv_foundUnpaired p s m h
  | finish => simp [sinkPre] at hpre

theorem SinkInv_run (p : ReportingParams) (s : ReportingState) (evs : List Event)
    (hok : sinkOk p s evs = true) (h : SinkInv p s) : SinkInv p (run p s evs) := by
  induction evs generalizing s with
  | nil => exact h
  | cons e es ih =>
    simp only [sinkOk, Bool.and_eq_true] at hok
    exact ih _ hok.2 (SinkInv_step p s e hok.1 h)

theorem sinkPre_of_driverPre (s : ReportingState) (e : Event)
    (h : driverPre s e = true) : sinkPre s e = true := by
  cases e with
  | concordant =>
    simp only [driverPre, sinkPre, Bool.and_eq_true] at h ⊢
    exact ⟨h.1.1, h.2⟩
  | discordant => simp [driverPre] at h
  | unpaired m =>
    simp only [driverPre, sinkPre, Bool.and_eq_true] at h ⊢
    exact h.1
  | finish => simp [driverPre] at h

theorem sinkOk_of_driverOk (p : ReportingParams) (s : ReportingState) (evs : List Event)
    (h : driverOk p s evs = true) : sinkOk p s evs = true := by
  induction evs generalizing s with
  | nil => rfl
  | cons e es ih =>
    simp only [driverOk, sinkOk, Bool.and_eq_true] at h ⊢
    exact ⟨sinkPre_of_driverPre s e h.1, ih _ h.2⟩

theorem UnpairedReadInv_step (p : ReportingParams) (s : ReportingState) (e : Event)
    (hpre : driverPre s e = true) (hs : SinkInv p s) (h : UnpairedReadInv p s) :
    UnpairedReadInv p (step p s e) := by
  intro hp
  rw [step_paired] at hp
  obtain ⟨h1, h2⟩ := h hp
  obtain ⟨⟨c1, -, -⟩, -, -, ⟨m1a, -⟩, -, hu⟩ := hs
  obtain ⟨u1, u2, u3, -⟩ := hu hp
  cases e with
  | concordant => simp [driverPre, hp] at hpre
  | discordant => simp [driverPre] at hpre
  | finish => simp [driverPre] at hpre
  | unpaired m =>
    simp only [driverPre, hp, Bool.false_or, Bool.and_eq_true, Bool.not_eq_true'] at hpre
    obtain ⟨hdone, hm⟩ := hpre
    subst hm
    have hd1 : s.doneUnpair1_ = false := by
      rw [hdone, u1, u2, u3] at c1
      simpa using c1.symm
    have hh := (m1a hd1).2
    simp only [step]
    rw [foundUnpaired_true_eq]
    refine ⟨h1, fun hm => ?_⟩
    simp only [ceilingHit, hm, if_true, decide_eq_false_iff_not] at hh
    simp only []
    omega

theorem UnpairedReadInv_run (p : ReportingParams) (s : ReportingState) (evs : List Event)
    (hok : driverOk p s evs = true) (hs : SinkInv p s) (h : UnpairedReadInv p s) :
    UnpairedReadInv p (run p s evs) := by
  induction evs generalizing s with
  | nil => exact h
  | cons e es ih =>
    simp only [driverOk, Bool.and_eq_true] at hok
    exact ih _ hok.2 (SinkInv_step p s e (sinkPre_of_driverPre s e hok.1) hs)
      (UnpairedReadInv_step p s e hok.1 hs h)

theorem UnpairedReadInv_nextRead (p : ReportingParams) (s0 : ReportingState)
    (paired : Bool) : UnpairedReadInv p (ReportingState.nextRead p s0 paired) := by
  unfold UnpairedReadInv ReportingState.nextRead
  cases paired <;> simp

theorem ceilingExit_cases (p : ReportingParams) :
    ceilingExit p = Exit.SHORT_CIRCUIT_k ∨ ceilingExit p = Exit.SHORT_CIRCUIT_M ∨
      ceilingExit p = Exit.SHORT_CIRCUIT_m := by
  unfold ceilingExit
  cases p.mhitsSet <;> cases p.msample <;> simp

/-- What a limit that was hit says about the exit code `areDone` writes. -/
theorem ceilingExit_facts (p : ReportingParams) (n : Nat) (h : ceilingHit p n = true) :
    (ceilingExit p = Exit.SHORT_CIRCUIT_k → p.khits ≤ n) ∧
    (ceilingExit p = Exit.SHORT_CIRCUIT_M → p.msample = true ∧ 0 < n ∧ p.mhits < n) ∧
    (ceilingExit p = Exit.SHORT_CIRCUIT_m → p.msample = false ∧ p.mhits < n) ∧
    ceilingExit p ≠ Exit.WITH_ALIGNMENTS ∧ ceilingExit p ≠ Exit.NO_ALIGNMENTS ∧
    ceilingExit p ≠ Exit.SHORT_CIRCUIT_TRUMPED ∧ ceilingExit p ≠ Exit.DID_NOT_ENTER := by
  unfold ceilingHit at h
  unfold ceilingExit
  cases hs : p.mhitsSet <;> cases hx : p.msample <;> simp [hs] at h ⊢ <;> omega

/-- The exit code `finish` leaves in an unpaired category, and what it says about
the counter. -/
theorem mate_finish_facts (p : ReportingParams) (s : ReportingState) (d : Bool) (e : Exit)
    (n : Nat) (h : MateOk p s d e n) :
    ∀ e', e' = (if d = true then e else if n > 0 then Exit.WITH_ALIGNMENTS
        else Exit.NO_ALIGNMENTS) →
      (e' = Exit.SHORT_CIRCUIT_TRUMPED →
        s.paired_ = true ∧ s.exitConcord_ = Exit.SHORT_CIRCUIT_k) ∧
      (e' = Exit.SHORT_CIRCUIT_k → p.khits ≤ n) ∧
      (e' = Exit.SHORT_CIRCUIT_M → p.msample = true ∧ 0 < n ∧ p.mhits < n) ∧
      (e' = Exit.WITH_ALIGNMENTS → 0 < n) ∧
      (e' = Exit.SHORT_CIRCUIT_m → p.msample = false ∧ p.mhits < n) := by
  intro e' he'
  obtain ⟨ha, hb⟩ := h
  cases hd : d
  · rw [hd] at he'
    simp only [Bool.false_eq_true, if_false] at he'
    by_cases hn : n > 0
    · simp only [hn, if_true] at he'
      subst he'
      simp [hn]
    · simp only [hn, if_false] at he'
      subst he'
      simp
  · rw [hd] at he'
    simp only [if_true] at he'
    subst he'
    rcases hb hd with h1 | ⟨h1, h2⟩ | ⟨h1, h2, h3⟩
    · simp [h1]
    · obtain ⟨f1, f2, f3, f4, f5, f6, f7⟩ := ceilingExit_facts p n h2
      rw [h1]
      exact ⟨fun hx => absurd hx f6, f1, f2, fun hx => absurd hx f4, f3⟩
    · simp [h1, h2, h3]

/-- The assertions of the mate blocks of `getReport` hold for exit codes and
counters as `finish` leaves them. -/
theorem getReportUnpairedAsserts_of_facts (p : ReportingParams) (s : ReportingState)
    (h1 : s.exitUnpair1_ ≠ Exit.SHORT_CIRCUIT_TRUMPED)
    (h2 : s.exitUnpair2_ ≠ Exit.SHORT_CIRCUIT_TRUMPED)
    (a1 : s.exitUnpair1_ = Exit.SHORT_CIRCUIT_k → p.khits ≤ s.nunpair1_)
    (a2 : s.exitUnpair1_ = Exit.SHORT_CIRCUIT_M → p.msample = true ∧ 0 < s.nunpair1_)
    (a3 : s.exitUnpair1_ = Exit.WITH_ALIGNMENTS → 0 < s.nunpair1_)
    (a4 : s.exitUnpair1_ = Exit.SHORT_CIRCUIT_m → p.msample = false)
    (a5 : p.mhitsSet = true → s.paired_ = false → s.nunpair1_ ≤ p.mhits + 1)
    (b2 : s.exitUnpair2_ = Exit.SHORT_CIRCUIT_M → p.msample = true ∧ 0 < s.nunpair2_)
    (b3 : s.exitUnpair2_ = Exit.WITH_ALIGNMENTS → 0 < s.nunpair2_)
    (b4 : s.exitUnpair2_ = Exit.SHORT_CIRCUIT_m → p.msample = false)
    (b5 : p.mhitsSet = true → s.paired_ = false → s.nunpair2_ ≤ p.mhits + 1) :
    getReportUnpairedAsserts p s = true := by
  unfold getReportUnpairedAsserts
  simp only [h1, h2, ne_eq, not_false_eq_true, decide_True, Bool.true_and]
  by_cases g : ((s.paired_ && !p.mixed) || s.nunpair1_ + s.nunpair2_ == 0) = true
  · rw [if_pos g]
  · rw [if_neg g]
    simp only [Bool.and_eq_true]
    refine ⟨⟨⟨?_, ?_⟩, ?_⟩, ?_⟩
    · split_ifs with x1 x2 x3
      · simpa using a1 x1
      · simpa using a2 x2
      · simpa using a3 x3
      · rfl
    · split_ifs with x1
      · simpa using a4 x1
      · cases hm : p.mhitsSet
        · rfl
        · cases hp : s.paired_
          · simpa using a5 hm hp
          · rfl
    · split_ifs with x1 x2 x3
      · rfl
      · simpa using b2 x2
      · simpa using b3 x3
      · rfl
    · split_ifs with x1
      · simpa using b4 x1
      · cases hm : p.mhitsSet
        · rfl
        · cases hp : s.paired_
          · simpa using b5 hm hp
          · rfl

/-- The assertions of `getReport` hold on the state `finish` leaves, for every
state that satisfies the invariants of the calls the driver makes. -/
theorem getReportAsserts_finish (p : ReportingParams) (s : ReportingState)
    (hk : 1 ≤ p.khits) (hm : 1 ≤ p.mhits) (hs : SinkInv p s)
    (hu : UnpairedReadInv p s) : getReportAsserts p (finish s) = true := by
  obtain ⟨-, hc, ⟨hd1, hd2, hd3⟩, m1, m2, hun⟩ := hs
  obtain ⟨t1, a1, a2, a3, a4⟩ := mate_finish_facts p s _ _ _ m1 _ rfl
  obtain ⟨t2, -, b2, b3, b4⟩ := mate_finish_facts p s _ _ _ m2 _ rfl
  have h0 : ceilingHit p 0 = false := ceilingHit_zero p (fun _ => hk)
  have hkm : (decide (p.khits > 0) && decide (p.mhits > 0)) = true := by
    simp only [Bool.and_eq_true, decide_eq_true_eq]
    omega
  unfold getReportAsserts
  rw [hkm, Bool.true_and]
  cases hp : s.paired_
  · -- an unpaired read
    obtain ⟨u1, u2, u3, u4⟩ := hun hp
    obtain ⟨v1, v2⟩ := hu hp
    have hv : converts s = false := by simp [converts, u2]
    have e0 : (finish s).paired_ = false := by rw [finish_eq]; exact hp
    rw [e0]
    simp only [Bool.false_eq_true, if_false]
    apply getReportUnpairedAsserts_of_facts <;> rw [finish_eq] <;>
      simp only [hv, Bool.false_eq_true, if_false]
    · exact fun hx => by simpa [hp] using (t1 hx).1
    · exact fun hx => by simpa [hp] using (t2 hx).1
    · exact a1
    · exact fun hx => ⟨(a2 hx).1, (a2 hx).2.1⟩
    · exact a3
    · exact fun hx => (a4 hx).1
    · exact fun hx _ => v2 hx
    · exact fun hx => ⟨(b2 hx).1, (b2 hx).2.1⟩
    · exact b3
    · exact fun hx => (b4 hx).1
    · exact fun _ _ => by omega
  · -- a paired read
    have e0 : (finish s).paired_ = true := by rw [finish_eq]; exact hp
    rw [e0]
    simp only [if_true]
    have hcc := hc hp
    by_cases hv : converts s = true
    · -- the two unpaired alignments become one discordant alignment
      have hv' := hv
      simp only [converts, Bool.and_eq_true, Bool.not_eq_true', decide_eq_true_eq] at hv'
      obtain ⟨⟨⟨w1, w2⟩, w3⟩, w4⟩ := hv'
      have hdc : s.doneConcord_ = false := by
        rcases hcc with ⟨x, -, -⟩ | ⟨-, -, x⟩
        · exact x
        · rw [w2, h0] at x
          exact absurd x (by simp)
      have e1 : (finish s).exitConcord_ = Exit.NO_ALIGNMENTS := by
        rw [finish_eq]
        simp [hdc, w2]
      have e2 : (finish s).exitDiscord_ = Exit.WITH_ALIGNMENTS := by
        rw [finish_eq]
        simp [w1, hv]
      have e3 : (finish s).nconcord_ = 0 := by rw [finish_eq]; exact w2
      rw [e1, e2, e3]
      simp [(hd3 w1).1]
    · have hv' : converts s = false := by simpa using hv
      have e1 : (finish s).exitConcord_ =
          (if s.doneConcord_ = true then s.exitConcord_
            else if s.nconcord_ > 0 then Exit.WITH_ALIGNMENTS else Exit.NO_ALIGNMENTS) := by
        rw [finish_eq]
      have e2 : (finish s).exitDiscord_ ≠ Exit.WITH_ALIGNMENTS := by
        rw [finish_eq]
        simp only [hv', Bool.false_eq_true, false_or, hd1, gt_iff_lt, lt_self_iff_false,
          if_false]
        split_ifs
        · exact hd2
        · simp
      have e3 : (finish s).nconcord_ = s.nconcord_ := by rw [finish_eq]
      rw [e1, e3, if_neg e2]
      have hU : ((if s.doneConcord_ = true then s.exitConcord_
            else if s.nconcord_ > 0 then Exit.WITH_ALIGNMENTS else Exit.NO_ALIGNMENTS)
            ≠ Exit.SHORT_CIRCUIT_k) → getReportUnpairedAsserts p (finish s) = true := by
        intro hne
        have hnk : s.exitConcord_ ≠ Exit.SHORT_CIRCUIT_k := by
          rcases hcc with ⟨x, y, -⟩ | ⟨x, -, -⟩
          · rw [y]; simp
          · simpa [x] using hne
        apply getReportUnpairedAsserts_of_facts <;> rw [finish_eq] <;>
          simp only [hv', Bool.false_eq_true, if_false]
        · exact fun hx => hnk (t1 hx).2
        · exact fun hx => hnk (t2 hx).2
        · exact a1
        · exact fun hx => ⟨(a2 hx).1, (a2 hx).2.1⟩
        · exact a3
        · exact fun hx => (a4 hx).1
        · exact fun _ hx => by simp [hp] at hx
        · exact fun hx => ⟨(b2 hx).1, (b2 hx).2.1⟩
        · exact b3
        · exact fun hx => (b4 hx).1
        · exact fun _ hx => by simp [hp] at hx
      rcases hcc with ⟨x, y, z⟩ | ⟨x, y, z⟩
      · rw [x] at hU ⊢
        simp only [Bool.false_eq_true, if_false] at hU ⊢
        by_cases hn : s.nconcord_ > 0
        · simp [hn]
        · simp only [hn, if_false] at hU ⊢
          have : s.nconcord_ = 0 := by omega
          simp [this, hU]
      · rw [x, y] at hU ⊢
        simp only [if_true] at hU ⊢
        obtain ⟨f1, f2, f3, f4, f5, f6, f7⟩ := ceilingExit_facts p _ z
        by_cases g1 : ceilingExit p = Exit.SHORT_CIRCUIT_k
        · rw [if_pos g1]
          simpa using f1 g1
        · rw [if_neg g1]
          by_cases g2 : ceilingExit p = Exit.SHORT_CIRCUIT_M
          · rw [if_pos g2]
            simpa using ⟨(f2 g2).1, (f2 g2).2.1⟩
          · rw [if_neg g2, if_neg f4]
            have g3 : ceilingExit p = Exit.SHORT_CIRCUIT_m := by
              rcases ceilingExit_cases p with g | g | g
              · exact absurd g g1
              · exact absurd g g2
              · exact g
            rw [if_pos g3]
            simp [(f3 g3).1, hU g1]

/-- C27: for every parameter set with `khits >= 1` and `mhits >= 1`, after
`nextRead` (from any previous state, paired or not) and any sequence of
`foundConcordant`/`foundUnpaired` calls made as the driver makes them (while
`done()` is false, `foundConcordant` only on a paired read whose concordant
category is open, only `foundUnpaired(true)` on an unpaired read), followed by
`finish`, every assertion that `getReport` executes holds: among them that no
unpaired exit code is `SHORT_CIRCUIT_TRUMPED` when the unpaired section is
reached, that `nconcord >= khits` under `SHORT_CIRCUIT_k`, and that `msample`
agrees with the exit codes `SHORT_CIRCUIT_m` and `SHORT_CIRCUIT_M`. -/
theorem getReport_asserts_hold (p : ReportingParams) (s0 : ReportingState)
    (paired : Bool) (evs : List Event) (hk : 1 ≤ p.khits) (hm : 1 ≤ p.mhits)
    (hok : driverOk p (ReportingState.nextRead p s0 paired) evs = true) :
    getReportAsserts p
      (ReportingState.finish (run p (ReportingState.nextRead p s0 paired) evs)) = true :=
  getReportAsserts_finish p _ hk hm
    (SinkInv_run p _ evs (sinkOk_of_driverOk p _ evs hok) (SinkInv_nextRead p s0 paired hk))
    (UnpairedReadInv_run p _ evs hok (SinkInv_nextRead p s0 paired hk)
      (UnpairedReadInv_nextRead p s0 paired))

theorem getReport_asserts_hold_witness :
    1 ≤ paramsM3.khits ∧ 1 ≤ paramsM3.mhits ∧
    driverOk paramsM3 (ReportingState.nextRead paramsM3 noRead true)
      [Event.unpaired true, Event.unpaired false, Event.concordant] = true ∧
    getReportAsserts paramsM3
      (ReportingState.finish (run paramsM3 (ReportingState.nextRead paramsM3 noRead true)
        [Event.unpaired true, Event.unpaired false, Event.concordant])) = true :=
  ⟨by decide, by decide, by decide,
    getReport_asserts_hold paramsM3 noRead true
      [Event.unpaired true, Event.unpaired false, Event.concordant]
      (by decide) (by decide) (by decide)⟩

/-! ## The sink never asks to report more than it holds -/

theorem report_rp (w : AlnSinkWrap) (rs1 rs2 : Option AlnRes) :
    (w.report rs1 rs2).1.rp_ = w.rp_ := by
  unfold AlnSinkWrap.report
  cases rs1 <;> cases rs2 <;> simp <;> split_ifs <;> rfl

theorem report_st (w : AlnSinkWrap) (rs1 rs2 : Option AlnRes) :
    (w.report rs1 rs2).1.st_ = step w.rp_ w.st_ (reportEvent (rs1, rs2)) := by
  unfold AlnSinkWrap.report reportEvent
  cases rs1 <;> cases rs2 <;> simp [step] <;> split_ifs <;> rfl

theorem report_lists (w : AlnSinkWrap) (rs1 rs2 : Option AlnRes) :
    (w.report rs1 rs2).1.rs1_.length =
        w.rs1_.length + (if isPairCall (rs1, rs2) then 1 else 0) ∧
    (w.report rs1 rs2).1.rs2_.length =
        w.rs2_.length + (if isPairCall (rs1, rs2) then 1 else 0) ∧
    (w.report rs1 rs2).1.rs1u_.length =
        w.rs1u_.length + (if isMate1Call (rs1, rs2) then 1 else 0) ∧
    (w.report rs1 rs2).1.rs2u_.length =
        w.rs2u_.length + (if isMate2Call (rs1, rs2) then 1 else 0) := by
  unfold AlnSinkWrap.report isPairCall isMate1Call isMate2Call
  cases rs1 <;> cases rs2 <;> simp <;> split_ifs <;> simp

theorem step_counters (p : ReportingParams) (s : ReportingState)
    (c : Option AlnRes × Option AlnRes) (h : (c.1.isSome || c.2.isSome) = true) :
    (step p s (reportEvent c)).nconcord_ =
        s.nconcord_ + (if isPairCall c then 1 else 0) ∧
    (step p s (reportEvent c)).nunpair1_ =
        s.nunpair1_ + (if isMate1Call c then 1 else 0) ∧
    (step p s (reportEvent c)).nunpair2_ =
        s.nunpair2_ + (if isMate2Call c then 1 else 0) := by
  obtain ⟨a, b⟩ := c
  cases a <;> cases b <;> simp [reportEvent, isPairCall, isMate1Call, isMate2Call, step] at h ⊢
  · rw [foundUnpaired_false_eq]; simp
  · rw [foundUnpaired_true_eq]; simp
  · rw [foundConcordant_eq]; simp

theorem ListInv_report (w : AlnSinkWrap) (rs1 rs2 : Option AlnRes)
    (h : (rs1.isSome || rs2.isSome) = true) (hl : ListInv w) :
    ListInv (w.report rs1 rs2).1 := by
  obtain ⟨l1, l2, l3, l4⟩ := hl
  obtain ⟨a1, a2, a3, a4⟩ := report_lists w rs1 rs2
  obtain ⟨b1, b2, b3⟩ := step_counters w.rp_ w.st_ (rs1, rs2) h
  unfold ListInv
  rw [report_st, a1, a2, a3, a4, b1, b2, b3, l1, l2, l3, l4]
  exact ⟨rfl, rfl, rfl, rfl⟩

theorem sinkPre_of_reportPre (w : AlnSinkWrap) (rs1 rs2 : Option AlnRes)
    (h : w.reportPre rs1 rs2 = true) :
    sinkPre w.st_ (reportEvent (rs1, rs2)) = true ∧ (rs1.isSome || rs2.isSome) = true := by
  unfold AlnSinkWrap.reportPre at h
  simp only [Bool.and_eq_true, ReportingState.done, ReportingState.doneConcordant] at h
  obtain ⟨⟨h1, h2⟩, h3⟩ := h
  refine ⟨?_, h1⟩
  unfold reportEvent
  cases hp : (rs1.isSome && rs2.isSome)
  · simpa [sinkPre] using h2
  · simp only [hp, Bool.not_true, Bool.false_or] at h3
    simp only [if_true, sinkPre, Bool.and_eq_true]
    exact ⟨h2, h3⟩

/-- What a sequence of `report` calls keeps and what it adds to the four lists. -/
theorem reports_inv (calls : List (Option AlnRes × Option AlnRes)) :
    ∀ w : AlnSinkWrap, reportsOk w calls = true → SinkInv w.rp_ w.st_ → ListInv w →
      SinkInv w.rp_ (reports w calls).st_ ∧ ListInv (reports w calls) ∧
      (reports w calls).rp_ = w.rp_ ∧
      (reports w calls).rs1_.length = w.rs1_.length + (calls.filter isPairCall).length ∧
      (reports w calls).rs2_.length = w.rs2_.length + (calls.filter isPairCall).length ∧
      (reports w calls).rs1u_.length = w.rs1u_.length + (calls.filter isMate1Call).length ∧
      (reports w calls).rs2u_.length =
        w.rs2u_.length + (calls.filter isMate2Call).length := by
  induction calls with
  | nil => exact fun w _ hs hl => ⟨hs, hl, rfl, rfl, rfl, rfl, rfl⟩
  | cons c cs ih =>
    intro w hok hs hl
    simp only [reportsOk, Bool.and_eq_true] at hok
    obtain ⟨hpre, hrest⟩ := hok
    obtain ⟨hsp, hsome⟩ := sinkPre_of_reportPre w c.1 c.2 hpre
    have hs' : SinkInv (w.report c.1 c.2).1.rp_ (w.report c.1 c.2).1.st_ := by
      rw [report_rp, report_st]
      exact SinkInv_step w.rp_ w.st_ _ hsp hs
    obtain ⟨i1, i2, i3, i4, i5, i6, i7⟩ :=
      ih (w.report c.1 c.2).1 hrest hs' (ListInv_report w c.1 c.2 hsome hl)
    obtain ⟨a1, a2, a3, a4⟩ := report_lists w c.1 c.2
    rw [report_rp] at i1 i3
    simp only [reports]
    refine ⟨i1, i2, i3, ?_, ?_, ?_, ?_⟩
    · rw [i4, a1, List.filter_cons]
      split_ifs <;> (simp; try omega)
    · rw [i5, a2, List.filter_cons]
      split_ifs <;> (simp; try omega)
    · rw [i6, a3, List.filter_cons]
      split_ifs <;> (simp; try omega)
    · rw [i7, a4, List.filter_cons]
      split_ifs <;> (simp; try omega)

theorem mateAln_within (p : ReportingParams) (e : Exit) (n N : Nat)
    (hn : n ≤ N) (a1 : e = Exit.SHORT_CIRCUIT_k → p.khits ≤ N)
    (a2 : e = Exit.SHORT_CIRCUIT_M → 0 < N) : mateAln p e n 0 ≤ N := by
  cases e <;> simp [mateAln] at a1 a2 ⊢ <;> omega

theorem mateMax_within (p : ReportingParams) (e : Exit) (old : Bool) (N : Nat)
    (ho : old = true → p.mhits ≤ N)
    (a2 : e = Exit.SHORT_CIRCUIT_M → p.mhits < N)
    (a4 : e = Exit.SHORT_CIRCUIT_m → p.mhits < N) :
    mateMax e old = true → p.mhits ≤ N := by
  cases e <;> simp [mateMax] at a2 a4 ⊢ <;> first | exact ho | omega

/-- The per-mate part of `getReport` asks for no more unpaired alignments than the
bounds `N1`, `N2`, given what the exit codes say about the bounds. -/
theorem getReportUnpaired_within (p : ReportingParams) (s : ReportingState) (r : Report)
    (N1 N2 : Nat) (hr1 : r.nunpair1Aln = 0) (hr2 : r.nunpair2Aln = 0)
    (ho1 : r.unpair1Max = true → p.mhits ≤ N1) (ho2 : r.unpair2Max = true → p.mhits ≤ N2)
    (hn1 : s.nunpair1_ ≤ N1) (hn2 : s.nunpair2_ ≤ N2)
    (a1 : s.exitUnpair1_ = Exit.SHORT_CIRCUIT_k → p.khits ≤ N1)
    (a2 : s.exitUnpair1_ = Exit.SHORT_CIRCUIT_M → p.mhits < N1)
    (a4 : s.exitUnpair1_ = Exit.SHORT_CIRCUIT_m → p.mhits < N1)
    (b1 : s.exitUnpair2_ = Exit.SHORT_CIRCUIT_k → p.khits ≤ N2)
    (b2 : s.exitUnpair2_ = Exit.SHORT_CIRCUIT_M → p.mhits < N2)
    (b4 : s.exitUnpair2_ = Exit.SHORT_CIRCUIT_m → p.mhits < N2) :
    (getReportUnpaired p s r).nunpair1Aln ≤ N1 ∧
    (getReportUnpaired p s r).nunpair2Aln ≤ N2 ∧
    ((getReportUnpaired p s r).unpair1Max = true → p.mhits ≤ N1) ∧
    ((getReportUnpaired p s r).unpair2Max = true → p.mhits ≤ N2) := by
  rw [getReportUnpaired_eq]
  split
  · exact ⟨by omega, by omega, ho1, ho2⟩
  · rw [hr1, hr2]
    exact ⟨mateAln_within p _ _ _ hn1 a1 (fun h => by have := a2 h; omega),
      mateAln_within p _ _ _ hn2 b1 (fun h => by have := b2 h; omega),
      mateMax_within p _ _ _ ho1 a2 a4, mateMax_within p _ _ _ ho2 b2 b4⟩

/-- After `finish`, `getReport` asks for no more alignments of a kind than were
counted, a repetitiveness flag comes with at least `mhits` counted alignments, and
a discordant alignment is asked for only when no concordant alignment and exactly
one unpaired alignment of each mate were counted. -/
theorem getReport_within (p : ReportingParams) (s : ReportingState)
    (hk : 1 ≤ p.khits) (hs : SinkInv p s) :
    (getReport p (finish s)).nconcordAln ≤ s.nconcord_ ∧
    (getReport p (finish s)).nunpair1Aln ≤ s.nunpair1_ ∧
    (getReport p (finish s)).nunpair2Aln ≤ s.nunpair2_ ∧
    (getReport p (finish s)).ndiscordAln ≤ 1 ∧
    ((getReport p (finish s)).pairMax = true → p.mhits ≤ s.nconcord_) ∧
    ((getReport p (finish s)).unpair1Max = true → p.mhits ≤ s.nunpair1_) ∧
    ((getReport p (finish s)).unpair2Max = true → p.mhits ≤ s.nunpair2_) ∧
    ((getReport p (finish s)).ndiscordAln = 1 →
      s.nconcord_ = 0 ∧ s.nunpair1_ = 1 ∧ s.nunpair2_ = 1) := by
  obtain ⟨-, hc, ⟨hd1, hd2, hd3⟩, m1, m2, hun⟩ := hs
  obtain ⟨-, a1, a2, -, a4⟩ := mate_finish_facts p s _ _ _ m1 _ rfl
  obtain ⟨-, b1, b2, -, b4⟩ := mate_finish_facts p s _ _ _ m2 _ rfl
  have h0 : ceilingHit p 0 = false := ceilingHit_zero p (fun _ => hk)
  have hn1 : (finish s).nunpair1_ ≤ s.nunpair1_ := by
    rw [finish_eq]; simp only []; split_ifs <;> omega
  have hn2 : (finish s).nunpair2_ ≤ s.nunpair2_ := by
    rw [finish_eq]; simp only []; split_ifs <;> omega
  have e3 : (finish s).nconcord_ = s.nconcord_ := by rw [finish_eq]
  have hU : ∀ r : Report, r.nunpair1Aln = 0 → r.nunpair2Aln = 0 →
      (r.unpair1Max = true → p.mhits ≤ s.nunpair1_) →
      (r.unpair2Max = true → p.mhits ≤ s.nunpair2_) →
      (getReportUnpaired p (finish s) r).nunpair1Aln ≤ s.nunpair1_ ∧
      (getReportUnpaired p (finish s) r).nunpair2Aln ≤ s.nunpair2_ ∧
      ((getReportUnpaired p (finish s) r).unpair1Max = true → p.mhits ≤ s.nunpair1_) ∧
      ((getReportUnpaired p (finish s) r).unpair2Max = true → p.mhits ≤ s.nunpair2_) := by
    intro r r1 r2 o1 o2
    apply getReportUnpaired_within p (finish s) r _ _ r1 r2 o1 o2 hn1 hn2 <;>
      rw [finish_eq] <;> simp only []
    · exact a1
    · exact fun hx => (a2 hx).2.2
    · exact fun hx => (a4 hx).2
    · exact b1
    · exact fun hx => (b2 hx).2.2
    · exact fun hx => (b4 hx).2
  have hD : (getReport p (finish s)).ndiscordAln = 1 →
      s.nconcord_ = 0 ∧ s.nunpair1_ = 1 ∧ s.nunpair2_ = 1 := by
    rw [getReport_ndiscordAln]
    intro hx
    by_cases hv : converts s = true
    · simp only [converts, Bool.and_eq_true, Bool.not_eq_true', decide_eq_true_eq] at hv
      exact ⟨hv.1.1.2, hv.1.2, hv.2⟩
    · exfalso
      have hv' : converts s = false := by simpa using hv
      have e2 : (finish s).exitDiscord_ ≠ Exit.WITH_ALIGNMENTS := by
        rw [finish_eq]
        simp only [hv', Bool.false_eq_true, false_or, hd1, gt_iff_lt, lt_self_iff_false,
          if_false]
        split_ifs
        · exact hd2
        · simp
      simp [e2] at hx
  have hDle : (getReport p (finish s)).ndiscordAln ≤ 1 := by
    rw [getReport_ndiscordAln]
    split_ifs <;> omega
  have main : (getReport p (finish s)).nconcordAln ≤ s.nconcord_ ∧
      (getReport p (finish s)).nunpair1Aln ≤ s.nunpair1_ ∧
      (getReport p (finish s)).nunpair2Aln ≤ s.nunpair2_ ∧
      ((getReport p (finish s)).pairMax = true → p.mhits ≤ s.nconcord_) ∧
      ((getReport p (finish s)).unpair1Max = true → p.mhits ≤ s.nunpair1_) ∧
      ((getReport p (finish s)).unpair2Max = true → p.mhits ≤ s.nunpair2_) := by
    unfold getReport
    cases hp : (finish s).paired_
    · simp only [Bool.false_eq_true, if_false]
      obtain ⟨u1, u2, u3, u4⟩ := hU ⟨0, 0, 0, 0, false, false, false⟩ rfl rfl
        (by simp) (by simp)
      exact ⟨by rw [getReportUnpaired_nconcordAln]; simp, u1, u2,
        by rw [getReportUnpaired_pairMax]; simp, u3, u4⟩
    · simp only [if_true]
      have hpp : s.paired_ = true := by rw [finish_eq] at hp; exact hp
      have e1 : (finish s).exitConcord_ =
          (if s.doneConcord_ = true then s.exitConcord_
            else if s.nconcord_ > 0 then Exit.WITH_ALIGNMENTS else Exit.NO_ALIGNMENTS) := by
        rw [finish_eq]
      rw [e1, e3]
      rcases hc hpp with ⟨x, y, z⟩ | ⟨x, y, z⟩
      · rw [x]
        simp only [Bool.false_eq_true, if_false]
        by_cases hn : s.nconcord_ > 0
        · simp only [hn, if_true]
          simp
        · simp only [hn, if_false]
          simp only [reduceCtorEq, if_false]
          split_ifs
          · simp
          · obtain ⟨u1, u2, u3, u4⟩ := hU ⟨0, 0, 0, 0, false, false, false⟩ rfl rfl
              (by simp) (by simp)
            exact ⟨by rw [getReportUnpaired_nconcordAln]; simp, u1, u2,
              by rw [getReportUnpaired_pairMax]; simp, u3, u4⟩
      · rw [x, y]
        simp only [if_true]
        obtain ⟨f1, f2, f3, f4, f5, f6, f7⟩ := ceilingExit_facts p _ z
        have hfl : ∀ r : Report, r.unpair1Max = decide ((finish s).nunpair1_ > p.mhits) →
            r.unpair2Max = decide ((finish s).nunpair2_ > p.mhits) →
            (r.unpair1Max = true → p.mhits ≤ s.nunpair1_) ∧
            (r.unpair2Max = true → p.mhits ≤ s.nunpair2_) := by
          intro r q1 q2
          rw [q1, q2]
          simp only [decide_eq_true_eq]
          exact ⟨fun hx => by omega, fun hx => by omega⟩
        rcases ceilingExit_cases p with g | g | g
        · rw [if_pos g]
          simpa using f1 g
        · have g1 : ceilingExit p ≠ Exit.SHORT_CIRCUIT_k := by rw [g]; simp
          rw [if_neg g1, if_pos g]
          obtain ⟨-, q1, q2⟩ := f2 g
          cases hmx : p.mixed
          · simp only [Bool.false_eq_true, if_false]
            simp
            omega
          · simp only [if_true]
            obtain ⟨w1, w2⟩ := hfl ⟨0, 0, 0, 0, true,
              decide ((finish s).nunpair1_ > p.mhits),
              decide ((finish s).nunpair2_ > p.mhits)⟩ rfl rfl
            exact ⟨by show 1 ≤ s.nconcord_; omega, Nat.zero_le _, Nat.zero_le _,
              fun _ => by omega, w1, w2⟩
        · have g1 : ceilingExit p ≠ Exit.SHORT_CIRCUIT_k := by rw [g]; simp
          have g2 : ceilingExit p ≠ Exit.SHORT_CIRCUIT_M := by rw [g]; simp
          rw [if_neg g1, if_neg g2, if_neg f4, if_pos g]
          obtain ⟨-, q2⟩ := f3 g
          cases hmx : p.mixed
          · simp only [Bool.false_eq_true, if_false]
            split_ifs
            · simp
              omega
            · obtain ⟨u1, u2, u3, u4⟩ := hU ⟨0, 0, 0, 0, true, false, false⟩ rfl rfl
                (by simp) (by simp)
              exact ⟨by rw [getReportUnpaired_nconcordAln]; simp, u1, u2,
                fun _ => by omega, u3, u4⟩
          · simp only [if_true]
            obtain ⟨w1, w2⟩ := hfl ⟨0, 0, 0, 0, true,
              decide ((finish s).nunpair1_ > p.mhits),
              decide ((finish s).nunpair2_ > p.mhits)⟩ rfl rfl
            split_ifs
            · exact ⟨Nat.zero_le _, Nat.zero_le _, Nat.zero_le _, fun _ => by omega, w1, w2⟩
            · obtain ⟨u1, u2, u3, u4⟩ := hU ⟨0, 0, 0, 0, true,
                decide ((finish s).nunpair1_ > p.mhits),
                decide ((finish s).nunpair2_ > p.mhits)⟩ rfl rfl w1 w2
              exact ⟨by rw [getReportUnpaired_nconcordAln]; simp, u1, u2,
                fun _ => by omega, u3, u4⟩
  exact ⟨main.1, main.2.1, main.2.2.1, hDle, main.2.2.2.1, main.2.2.2.2.1,
    main.2.2.2.2.2, hD⟩

theorem SinkInv_sink_nextRead (w0 : AlnSinkWrap) (rd1 rd2 : Bool) (bestInit : Int)
    (hk : 1 ≤ w0.rp_.khits) :
    SinkInv (w0.nextRead rd1 rd2 bestInit).rp_ (w0.nextRead rd1 rd2 bestInit).st_ ∧
    ListInv (w0.nextRead rd1 rd2 bestInit) ∧
    (w0.nextRead rd1 rd2 bestInit).rs1_ = [] ∧ (w0.nextRead rd1 rd2 bestInit).rs2_ = [] ∧
    (w0.nextRead rd1 rd2 bestInit).rs1u_ = [] ∧
    (w0.nextRead rd1 rd2 bestInit).rs2u_ = [] := by
  refine ⟨SinkInv_nextRead w0.rp_ w0.st_ _ hk, ?_, rfl, rfl, rfl, rfl⟩
  unfold ListInv AlnSinkWrap.nextRead ReportingState.nextRead
  simp

/-- C28: after `AlnSinkWrap::nextRead` and any sequence of `report` calls made
while the reporting state is not done (pairs only while the concordant category is
open), `rs1_` and `rs2_` are as long as the number of pairs reported and `rs1u_`,
`rs2u_` as long as the numbers of unpaired reports of each mate; the values that
`finish` and `getReport` return at `finishRead` satisfy
`nconcord <= rs1_.size()`, `nunpair1 <= rs1u_.size()`, `nunpair2 <= rs2u_.size()`
and `ndiscord <= 1`, each repetitiveness flag comes with at least `mhits` entries
in its list, and whenever `ndiscord = 1`, `prepareDiscordants` returns true and
leaves exactly one alignment in each of `rs1_` and `rs2_`.  (`khits >= 1` is the
invariant of the reporting parameters.) -/
theorem sink_holds_what_it_reports (w0 : AlnSinkWrap) (rd1 rd2 : Bool) (bestInit : Int)
    (calls : List (Option AlnRes × Option AlnRes)) (hk : 1 ≤ w0.rp_.khits)
    (hok : reportsOk (w0.nextRead rd1 rd2 bestInit) calls = true) :
    (reports (w0.nextRead rd1 rd2 bestInit) calls).rs1_.length =
      (calls.filter isPairCall).length ∧
    (reports (w0.nextRead rd1 rd2 bestInit) calls).rs2_.length =
      (calls.filter isPairCall).length ∧
    (reports (w0.nextRead rd1 rd2 bestInit) calls).rs1u_.length =
      (calls.filter isMate1Call).length ∧
    (reports (w0.nextRead rd1 rd2 bestInit) calls).rs2u_.length =
      (calls.filter isMate2Call).length ∧
    (getReport w0.rp_ (ReportingState.finish
        (reports (w0.nextRead rd1 rd2 bestInit) calls).st_)).nconcordAln ≤
      (reports (w0.nextRead rd1 rd2 bestInit) calls).rs1_.length ∧
    (getReport w0.rp_ (ReportingState.finish
        (reports (w0.nextRead rd1 rd2 bestInit) calls).st_)).nunpair1Aln ≤
      (reports (w0.nextRead rd1 rd2 bestInit) calls).rs1u_.length ∧
    (getReport w0.rp_ (ReportingState.finish
        (reports (w0.nextRead rd1 rd2 bestInit) calls).st_)).nunpair2Aln ≤
      (reports (w0.nextRead rd1 rd2 bestInit) calls).rs2u_.length ∧
    (getReport w0.rp_ (ReportingState.finish
        (reports (w0.nextRead rd1 rd2 bestInit) calls).st_)).ndiscordAln ≤ 1 ∧
    ((getReport w0.rp_ (ReportingState.finish
        (reports (w0.nextRead rd1 rd2 bestInit) calls).st_)).pairMax = true →
      w0.rp_.mhits ≤ (reports (w0.nextRead rd1 rd2 bestInit) calls).rs1_.length) ∧
    ((getReport w0.rp_ (ReportingState.finish
        (reports (w0.nextRead rd1 rd2 bestInit) calls).st_)).unpair1Max = true →
      w0.rp_.mhits ≤ (reports (w0.nextRead rd1 rd2 bestInit) calls).rs1u_.length) ∧
    ((getReport w0.rp_ (ReportingState.finish
        (reports (w0.nextRead rd1 rd2 bestInit) calls).st_)).unpair2Max = true →
      w0.rp_.mhits ≤ (reports (w0.nextRead rd1 rd2 bestInit) calls).rs2u_.length) ∧
    ((getReport w0.rp_ (ReportingState.finish
        (reports (w0.nextRead rd1 rd2 bestInit) calls).st_)).ndiscordAln = 1 →
      (prepareDiscordants (reports (w0.nextRead rd1 rd2 bestInit) calls)).2 = true ∧
      (prepareDiscordants (reports (w0.nextRead rd1 rd2 bestInit) calls)).1.rs1_.length
        = 1 ∧
      (prepareDiscordants (reports (w0.nextRead rd1 rd2 bestInit) calls)).1.rs2_.length
        = 1) := by
  obtain ⟨n1, n2, n3, n4, n5, n6⟩ := SinkInv_sink_nextRead w0 rd1 rd2 bestInit hk
  obtain ⟨i1, ⟨l1, l2, l3, l4⟩, -, i4, i5, i6, i7⟩ :=
    reports_inv calls (w0.nextRead rd1 rd2 bestInit) hok n1 n2
  have hrp : (w0.nextRead rd1 rd2 bestInit).rp_ = w0.rp_ := rfl
  rw [hrp] at i1
  obtain ⟨g1, g2, g3, g4, g5, g6, g7, g8⟩ := getReport_within w0.rp_ _ hk i1
  generalize reports (w0.nextRead rd1 rd2 bestInit) calls = w at *
  rw [n3, n4, n5, n6] at *
  simp only [List.length_nil, Nat.zero_add] at i4 i5 i6 i7
  refine ⟨i4, i5, i6, i7, by omega, by omega, by omega, g4, fun h => by have := g5 h; omega,
    fun h => by have := g6 h; omega, fun h => by have := g7 h; omega, fun h => ?_⟩
  obtain ⟨c0, c1, c2⟩ := g8 h
  have hh : w.rs1u_.length = 1 ∧ w.rs2u_.length = 1 := ⟨by omega, by omega⟩
  unfold prepareDiscordants
  simp only [hh, and_self, dite_true, List.length_append, List.length_singleton, true_and]
  omega

theorem sink_holds_what_it_reports_witness :
    1 ≤ (AlnSinkWrap.fresh paramsM3 false).rp_.khits ∧
    reportsOk ((AlnSinkWrap.fresh paramsM3 false).nextRead true true 0)
      [(some (AlnRes.sample 1), none), (none, some (AlnRes.sample 2))] = true ∧
    (getReport (AlnSinkWrap.fresh paramsM3 false).rp_ (ReportingState.finish
        (reports ((AlnSinkWrap.fresh paramsM3 false).nextRead true true 0)
          [(some (AlnRes.sample 1), none), (none, some (AlnRes.sample 2))]).st_)).ndiscordAln
      ≤ 1 :=
  ⟨by decide, by decide,
    (sink_holds_what_it_reports (AlnSinkWrap.fresh paramsM3 false) true true 0
      [(some (AlnRes.sample 1), none), (none, some (AlnRes.sample 2))]
      (by decide) (by decide)).2.2.2.2.2.2.2.1⟩

/-! ## `finishRead`: which concordance counter a paired read increments -/

theorem countMate_concord (pair pairMax : Bool) (n : Nat) (um : Bool)
    (met : ReportingMetrics) :
    (countMate pair pairMax n um met).nconcord_0 = met.nconcord_0 ∧
    (countMate pair pairMax n um met).nconcord_uni = met.nconcord_uni ∧
    (countMate pair pairMax n um met).nconcord_rep = met.nconcord_rep := by
  unfold countMate
  split_ifs <;> exact ⟨rfl, rfl, rfl⟩

/-- On a paired read `finishRead` increments exactly one of `nconcord_0`,
`nconcord_uni`, `nconcord_rep`, except when `getReport` returns `pairMax` with no
concordant and no discordant alignment to report (the exit `SHORT_CIRCUIT_m` of
`-m` mode): then it increments none of them. -/
theorem finishRead_concordTotal (w : AlnSinkWrap) (met : ReportingMetrics) :
    (finishRead w true true met false).2.concordTotal =
      met.concordTotal +
        (if (getReport w.rp_ (ReportingState.finish w.st_)).pairMax = true ∧
            (getReport w.rp_ (ReportingState.finish w.st_)).nconcordAln = 0 ∧
            (getReport w.rp_ (ReportingState.finish w.st_)).ndiscordAln = 0 then 0
          else 1) := by
  unfold finishRead ReportingMetrics.concordTotal
  simp only [readIsPair, Bool.and_self, Bool.not_false, if_true, Bool.not_true, Bool.false_or,
    Bool.and_true]
  generalize getReport w.rp_ (ReportingState.finish w.st_) = r
  obtain ⟨nc, nd, n1, n2, pm, u1, u2⟩ := r
  cases pm <;> by_cases hc : nc = 0 <;> by_cases hd : nd = 0 <;>
    simp [hc, hd, Nat.pos_iff_ne_zero, countMate_concord] <;> omega

theorem countMate_unpaired (pairMax : Bool) (n : Nat) (um : Bool)
    (met : ReportingMetrics) :
    (countMate false pairMax n um met).nunp_0 + (countMate false pairMax n um met).nunp_uni +
        (countMate false pairMax n um met).nunp_rep =
      met.nunp_0 + met.nunp_uni + met.nunp_rep + 1 := by
  unfold countMate
  simp only [Bool.false_eq_true, if_false]
  split_ifs <;> simp only [] <;> omega

/-- On an unpaired read (exactly one of the two mates is present) `finishRead`
increments exactly one of `nunp_0`, `nunp_uni`, `nunp_rep`. -/
theorem finishRead_unpaired_total (w : AlnSinkWrap) (rd1 rd2 : Bool)
    (met : ReportingMetrics) (h : rd1 ≠ rd2) :
    (finishRead w rd1 rd2 met false).2.nunp_0 + (finishRead w rd1 rd2 met false).2.nunp_uni +
        (finishRead w rd1 rd2 met false).2.nunp_rep =
      met.nunp_0 + met.nunp_uni + met.nunp_rep + 1 := by
  have hp : readIsPair rd1 rd2 = false := by
    cases rd1 <;> cases rd2 <;> simp [readIsPair] at h ⊢
  unfold finishRead
  simp only [hp, Bool.not_false, if_true, Bool.false_eq_true, if_false, Bool.true_or,
    Bool.and_false]
  generalize getReport w.rp_ (ReportingState.finish w.st_) = r
  cases rd1 <;> cases rd2 <;> simp only [ne_eq, not_true_eq_false] at h
  all_goals simp only [Bool.false_eq_true, if_false, if_true]
  all_goals rw [countMate_unpaired]
  all_goals split_ifs <;> rfl

/-- C29 does not hold of the code: under `-k 1 -m 1` a paired read for which two
concordant pairs are reported exceeds the ceiling (`SHORT_CIRCUIT_m`);
`finishRead` then counts the read in `nread` and `npaired` but increments none of
`nconcord_0`, `nconcord_uni`, `nconcord_rep`, so their sum stays behind
`npaired`. -/
theorem finishRead_m_mode_counts_no_concordance :
    reportsOk ((AlnSinkWrap.fresh paramsM1 true).nextRead true true 0)
      [(some (AlnRes.sample 1), some (AlnRes.sample 100)),
        (some (AlnRes.sample 500), some (AlnRes.sample 600))] = true ∧
    (finishRead (reports ((AlnSinkWrap.fresh paramsM1 true).nextRead true true 0)
      [(some (AlnRes.sample 1), some (AlnRes.sample 100)),
        (some (AlnRes.sample 500), some (AlnRes.sample 600))]) true true
      ReportingMetrics.zero false).2 =
      { ReportingMetrics.zero with nread := 1, npaired := 1, nunp_rep_0 := 2 } := by
  decide

/-! ## SAM output: PNEXT of a mate and POS of the other mate -/

/-- For a nucleotide read, or when `exEnds_` is off, the PNEXT field of the record
of each aligned mate is the POS field of the record of the other mate. -/
theorem appendMate_PNEXT_eq_POS (exEnds_ color : Bool) (a b : AlnRes)
    (h : (color && exEnds_) = false) :
    (AlnSinkSam.appendMate exEnds_ color (some a) (some b)).PNEXT =
      (AlnSinkSam.appendMate exEnds_ color (some b) (some a)).POS := by
  simp [AlnSinkSam.appendMate, h]

/-- C30 does not hold of the code: for a colorspace pair with `exEnds_` set, whose
mates align at the offsets 10 and 100, the record of mate 1 has PNEXT 101 while the
record of mate 2 has POS 102, and the record of mate 2 has PNEXT 11 while the
record of mate 1 has POS 12: POS adds `offAdj`, PNEXT does not. -/
theorem appendMate_PNEXT_misses_offAdj :
    (AlnSinkSam.appendMate true true (some (AlnRes.sample 10))
      (some (AlnRes.sample 100))).PNEXT = 101 ∧
    (AlnSinkSam.appendMate true true (some (AlnRes.sample 100))
      (some (AlnRes.sample 10))).POS = 102 ∧
    (AlnSinkSam.appendMate true true (some (AlnRes.sample 100))
      (some (AlnRes.sample 10))).PNEXT = 11 ∧
    (AlnSinkSam.appendMate true true (some (AlnRes.sample 10))
      (some (AlnRes.sample 100))).POS = 12 := by
  decide

/-! ## `extendSeeds` with no rank to explore -/

/-- With no rank to explore (`poss = 0`), and with no seed hit, `extendSeeds`
returns false and leaves the driver state, the sink and the log as they were. -/
theorem extendSeeds_no_ranks (args : ExtendArgs) (hits : List SeedHit) (poss : Nat)
    (st : ExtendState) :
    extendSeeds args hits 0 st = (st, false) ∧ extendSeeds args [] poss st = (st, false) := by
  simp [extendSeeds, extendRanks]

/-! ## `extendSeeds`: anchors framed once, reported alignments not redundant -/

theorem Fresh_append {α : Type} (R : α → α → Prop) (ins1 ins2 : List α) :
    ∀ red : List α, Fresh R red ins1 → Fresh R (ins1.reverse ++ red) ins2 →
      Fresh R red (ins1 ++ ins2) := by
  induction ins1 with
  | nil => exact fun red _ h => by simpa using h
  | cons a rest ih =>
    intro red h1 h2
    obtain ⟨ha, hr⟩ := h1
    refine ⟨ha, ih (a :: red) hr ?_⟩
    simpa using h2

theorem Fresh_pairwise {α : Type} (R : α → α → Prop) (ins : List α) :
    ∀ red : List α, Fresh R red ins →
      ins.Pairwise (fun a b => ¬ R a b) ∧ ∀ a ∈ ins, ∀ b ∈ red, ¬ R b a := by
  induction ins with
  | nil => exact fun red _ => ⟨List.Pairwise.nil, fun a ha => by simp at ha⟩
  | cons a rest ih =>
    intro red ⟨ha, hr⟩
    obtain ⟨p, q⟩ := ih (a :: red) hr
    refine ⟨List.Pairwise.cons (fun b hb => q b hb a (by simp)) p, fun x hx b hb => ?_⟩
    rcases List.mem_cons.mp hx with rfl | hx
    · exact ha b hb
    · exact q x hx b (by simp [hb])

theorem framed_append (l1 l2 : List Call) : framed (l1 ++ l2) = framed l1 ++ framed l2 := by
  simp [framed]

theorem reported_append (l1 l2 : List Call) :
    reported (l1 ++ l2) = reported l1 ++ reported l2 := by
  simp [reported]

theorem advances_append (l1 l2 : List Call) :
    advances (l1 ++ l2) = advances l1 + advances l2 := by
  simp [advances]

theorem StepsU_refl (st : ExtendState) : StepsU st st :=
  ⟨[], [], [], by simp, by simp, trivial, by simp [framed], by simp [advances], by simp,
    trivial, by simp [reported]⟩

theorem StepsU_trans (a b c : ExtendState) (h1 : StepsU a b) (h2 : StepsU b c) :
    StepsU a c := by
  obtain ⟨n1, i1, j1, e1, s1, f1, fr1, r1, an1, fa1, rp1⟩ := h1
  obtain ⟨n2, i2, j2, e2, s2, f2, fr2, r2, an2, fa2, rp2⟩ := h2
  refine ⟨n1 ++ n2, i1 ++ i2, j1 ++ j2, ?_, ?_, ?_, ?_, ?_, ?_, ?_, ?_⟩
  · rw [e2, e1, List.append_assoc]
  · rw [s2, s1]; simp
  · exact Fresh_append _ _ _ _ f1 (s1 ▸ f2)
  · rw [framed_append]; exact fr1.append fr2
  · rw [advances_append, List.length_append]; omega
  · rw [an2, an1]; simp
  · exact Fresh_append _ _ _ _ fa1 (an1 ▸ fa2)
  · rw [reported_append]; exact rp1.append rp2

theorem overlap_eq_false (red : List AlnRes) (res : AlnRes) :
    overlap red res = false ↔ ∀ b ∈ red, ¬ Redundant b res := by
  unfold overlap Redundant
  simp [List.any_eq_false]

/-- What the loop over the alignments of one dynamic-programming problem does. -/
theorem extendAlns_steps (args : ExtendArgs) (alns : List (Option AlnRes)) :
    ∀ st : ExtendState, StepsU st (extendAlns args st alns).1 := by
  induction alns with
  | nil => exact fun st => by simpa [extendAlns] using StepsU_refl st
  | cons x rest ih =>
    intro st
    have hnext : StepsU st { st with log := st.log ++ [Call.next] } :=
      ⟨[Call.next], [], [], rfl, by simp, trivial, by simp [framed], by simp [advances],
        by simp, trivial, by simp [reported]⟩
    cases x with
    | none => simpa [extendAlns] using hnext
    | some res =>
      simp only [extendAlns]
      by_cases h1 : overlap st.redAnchor_ res = true
      · simp only [h1, if_true]
        exact StepsU_trans _ _ _ hnext (ih _)
      · simp only [h1]
        have hfr : ∀ b ∈ st.redAnchor_, ¬ Redundant b res :=
          (overlap_eq_false _ _).mp (by simpa using h1)
        by_cases h2 : args.reportImmediately = true
        · simp only [h2, if_true]
          generalize AlnSinkWrap.report st.msink (if args.mate1 = true then some res else none)
            (if args.mate1 = true then none else some res) = rp
          obtain ⟨w, r⟩ := rp
          have hrep : StepsU st
              { redSeed1_ := st.redSeed1_, redAnchor_ := res :: st.redAnchor_,
                rshit := st.rshit, msink := w,
                log := st.log ++ [Call.next] ++ [Call.report res r] } :=
            ⟨[Call.next, Call.report res r], [], [res], by simp, by simp, trivial,
              by simp [framed], by simp [advances], by simp, ⟨hfr, trivial⟩,
              by simp [reported]⟩
          cases r
          · simp only [Bool.false_eq_true, if_false]
            exact StepsU_trans _ _ _ hrep (ih _)
          · simpa using hrep
        · simp only [h2]
          have hins : StepsU st
              { redSeed1_ := st.redSeed1_, redAnchor_ := res :: st.redAnchor_,
                rshit := st.rshit, msink := st.msink, log := st.log ++ [Call.next] } :=
            ⟨[Call.next], [], [res], rfl, by simp, trivial, by simp [framed],
              by simp [advances], by simp, ⟨hfr, trivial⟩, by simp [reported]⟩
          exact StepsU_trans _ _ _ hins (ih _)

/-- What the loop over the elements of one walker does. -/
theorem extendWalk_steps (args : ExtendArgs) (rank rdoff : Nat) (fw : Bool)
    (walk : List WalkElt) :
    ∀ st : ExtendState, StepsU st (extendWalk args rank rdoff fw st walk).1 := by
  induction walk with
  | nil => exact fun st => by simpa [extendWalk] using StepsU_refl st
  | cons wr more ih =>
    intro st
    simp only [extendWalk]
    generalize (if args.color = true then 1 else 0) = cbit
    generalize args.joinedToTextOff wr.len wr.toff = t
    generalize ({ ref := 0, off := (wr.toff : Int) - (rdoff : Int), fw := fw } : Coord) = c
    by_cases h1 : c ∈ st.redSeed1_
    · simp only [h1, if_true]
      refine StepsU_trans _ _ _ ?_ (ih _)
      exact ⟨[Call.advance rank], [], [], rfl, by simp, trivial, by simp [framed],
        by simp [advances], by simp, trivial, by simp [reported]⟩
    · simp only [h1, if_false]
      have hfr : ∀ b ∈ st.redSeed1_, ¬ b = c := fun b hb hbc => h1 (hbc ▸ hb)
      have hskip : StepsU st
          { redSeed1_ := c :: st.redSeed1_, redAnchor_ := st.redAnchor_, rshit := st.rshit,
            msink := st.msink, log := st.log ++ [Call.advance rank] } :=
        ⟨[Call.advance rank], [c], [], rfl, by simp, ⟨hfr, trivial⟩, by simp [framed],
          by simp [advances], by simp, trivial, by simp [reported]⟩
      have hframe : StepsU st
          { redSeed1_ := c :: st.redSeed1_, redAnchor_ := st.redAnchor_, rshit := st.rshit,
            msink := st.msink, log := st.log ++ [Call.advance rank] ++ [Call.frame c] } :=
        ⟨[Call.advance rank, Call.frame c], [c], [], by simp, by simp, ⟨hfr, trivial⟩,
          by simp [framed], by simp [advances], by simp, trivial, by simp [reported]⟩
      have hdp : StepsU st
          { redSeed1_ := c :: st.redSeed1_, redAnchor_ := st.redAnchor_, rshit := st.rshit,
            msink := st.msink,
            log := st.log ++ [Call.advance rank] ++ [Call.frame c] ++
              [Call.dp t.1 ((t.2.1 : Int) - (rdoff : Int))] } :=
        ⟨[Call.advance rank, Call.frame c, Call.dp t.1 ((t.2.1 : Int) - (rdoff : Int))], [c],
          [], by simp, by simp, ⟨hfr, trivial⟩, by simp [framed], by simp [advances],
          by simp, trivial, by simp [reported]⟩
      by_cases h2 : t.1 = 4294967295
      · simp only [h2, if_true]
        exact StepsU_trans _ _ _ hskip (ih _)
      · simp only [h2, if_false]
        cases h3 : args.frameSeedExtension ((t.2.1 : Int) - (rdoff : Int)) (args.rdlen + cbit)
          ((t.2.2 + cbit) % 2 ^ 32)
        · simp only [Bool.not_false, if_true]
          exact StepsU_trans _ _ _ hframe (ih _)
        · simp only [Bool.not_true, Bool.false_eq_true, if_false]
          cases h4 : wr.aligned
          · simp only [Bool.not_false, if_true]
            exact StepsU_trans _ _ _ hdp (ih _)
          · simp only [Bool.not_true, Bool.false_eq_true, if_false]
            have ha := extendAlns_steps args wr.alns
              { redSeed1_ := c :: st.redSeed1_, redAnchor_ := st.redAnchor_,
                rshit := st.rshit, msink := st.msink,
                log := st.log ++ [Call.advance rank] ++ [Call.frame c] ++
                  [Call.dp t.1 ((t.2.1 : Int) - (rdoff : Int))] }
            generalize extendAlns args
              { redSeed1_ := c :: st.redSeed1_, redAnchor_ := st.redAnchor_,
                rshit := st.rshit, msink := st.msink,
                log := st.log ++ [Call.advance rank] ++ [Call.frame c] ++
                  [Call.dp t.1 ((t.2.1 : Int) - (rdoff : Int))] } wr.alns = out at ha ⊢
            obtain ⟨S, r⟩ := out
            simp only at ha ⊢
            have hS := StepsU_trans _ _ _ hdp ha
            cases r
            · simp only [Bool.false_eq_true, if_false]
              exact StepsU_trans _ _ _ hS (ih _)
            · simpa using hS

/-- What the loop over the seed hits does. -/
theorem extendRanks_steps (args : ExtendArgs) (hits : List SeedHit) :
    ∀ (i : Nat) (st : ExtendState), StepsU st (extendRanks args st i hits).1 := by
  induction hits with
  | nil => exact fun i st => by simpa [extendRanks] using StepsU_refl st
  | cons hit hits ih =>
    intro i st
    simp only [extendRanks]
    generalize (if (!hit.fw) = true then
      (((args.rdlen : Int) - (hit.rdoff : Int) - (hit.seedlen : Int)) % 2 ^ 32).toNat
      else hit.rdoff) = rdoff
    have hw := extendWalk_steps args i rdoff hit.fw hit.walk st
    cases hr : (extendWalk args i rdoff hit.fw st hit.walk).2
    · simp only [Bool.false_eq_true, if_false]
      exact StepsU_trans _ _ _ hw (ih _ _)
    · simpa using hw

/-! ## `extendSeedsPaired`: what each part of the function does -/

theorem pairedFramed_append (l1 l2 : List PairedCall) :
    pairedFramed (l1 ++ l2) = pairedFramed l1 ++ pairedFramed l2 := by
  simp [pairedFramed]

theorem unpairedReported_append (m : Bool) (l1 l2 : List PairedCall) :
    unpairedReported m (l1 ++ l2) = unpairedReported m l1 ++ unpairedReported m l2 := by
  simp [unpairedReported]

theorem pairedAdvances_append (l1 l2 : List PairedCall) :
    pairedAdvances (l1 ++ l2) = pairedAdvances l1 + pairedAdvances l2 := by
  simp [pairedAdvances]

theorem StepsP_refl (args : PairedArgs) (s : PairedState) : StepsP args s s :=
  ⟨[], [], [], [], by simp, by simp, trivial, by simp [pairedFramed],
    by simp [pairedAdvances], by simp, trivial, by simp [unpairedReported], by simp, trivial,
    by simp [unpairedReported], fun c hc => by simp at hc⟩

theorem StepsP_trans (args : PairedArgs) (a b c : PairedState) (h1 : StepsP args a b)
    (h2 : StepsP args b c) : StepsP args a c := by
  obtain ⟨n1, i1, j1, k1, e1, s1, f1, fr1, r1, a1, fa1, u1, b1, fb1, v1, p1⟩ := h1
  obtain ⟨n2, i2, j2, k2, e2, s2, f2, fr2, r2, a2, fa2, u2, b2, fb2, v2, p2⟩ := h2
  refine ⟨n1 ++ n2, i1 ++ i2, j1 ++ j2, k1 ++ k2, ?_, ?_, ?_, ?_, ?_, ?_, ?_, ?_, ?_, ?_, ?_,
    ?_⟩
  · rw [e2, e1, List.append_assoc]
  · rw [s2, s1]; simp
  · exact Fresh_append _ _ _ _ f1 (s1 ▸ f2)
  · rw [pairedFramed_append]; exact fr1.append fr2
  · rw [pairedAdvances_append, List.length_append]; omega
  · rw [a2, a1]; simp
  · exact Fresh_append _ _ _ _ fa1 (a1 ▸ fa2)
  · rw [unpairedReported_append, u1, u2]
  · rw [b2, b1]; simp
  · exact Fresh_append _ _ _ _ fb1 (b1 ▸ fb2)
  · rw [unpairedReported_append, v1, v2]
  · intro c hc
    rcases List.mem_append.mp hc with hc | hc
    · exact p1 c hc
    · exact p2 c hc

/-- A stretch that only writes calls to the log that are neither walker results,
framings nor reports. -/
theorem StepsP_log (args : PairedArgs) (s s' : PairedState) (new : List PairedCall)
    (hl : s'.log = s.log ++ new) (h1 : s'.redSeed1_ = s.redSeed1_)
    (h2 : s'.redSeed2_ = s.redSeed2_) (h3 : s'.rshit = s.rshit)
    (h4 : s'.redMate1_ = s.redMate1_) (h5 : s'.redMate2_ = s.redMate2_)
    (hf : pairedFramed new = []) (ha : pairedAdvances new = 0)
    (hu1 : unpairedReported true new = []) (hu2 : unpairedReported false new = [])
    (hp : ∀ c ∈ new, PairOk args c) : StepsP args s s' :=
  ⟨new, [], [], [], hl, by simp [PairedState.redSeedAnchor, h1, h2], trivial,
    by simp [hf], by simp [ha, h3], by simp [h4], trivial, hu1, by simp [h5], trivial, hu2,
    hp⟩

theorem reportUnpairedHit_steps (args : PairedArgs) (s : PairedState) (m : Bool)
    (r : AlnRes) : StepsP args s (reportUnpairedHit s m r).1 := by
  unfold reportUnpairedHit
  by_cases h1 : (!s.msink.st_.doneUnpaired m) = true
  · simp only [h1, if_true]
    by_cases h2 : (!overlap (if m = true then s.redMate1_ else s.redMate2_) r) = true
    · simp only [h2, if_true]
      have hfr : ∀ b ∈ (if m = true then s.redMate1_ else s.redMate2_), ¬ Redundant b r :=
        (overlap_eq_false _ _).mp (by simpa using h2)
      cases m
      · simp only [Bool.false_eq_true, if_false] at hfr ⊢
        exact ⟨[PairedCall.reportUnpaired false r _], [], [], [r], rfl,
          by simp [PairedState.redSeedAnchor], trivial, by simp [pairedFramed],
          by simp [pairedAdvances], by simp, trivial, by simp [unpairedReported], by simp,
          ⟨hfr, trivial⟩, by simp [unpairedReported], fun c hc => by
            rw [List.mem_singleton.mp hc]; trivial⟩
      · simp only [if_true] at hfr ⊢
        exact ⟨[PairedCall.reportUnpaired true r _], [], [r], [], rfl,
          by simp [PairedState.redSeedAnchor], trivial, by simp [pairedFramed],
          by simp [pairedAdvances], by simp, ⟨hfr, trivial⟩, by simp [unpairedReported],
          by simp, trivial, by simp [unpairedReported], fun c hc => by
            rw [List.mem_singleton.mp hc]; trivial⟩
    · simp only [h2]
      exact StepsP_refl args s
  · simp only [h1]
    exact StepsP_refl args s

theorem anchorUnpaired_steps (args : PairedArgs) (res : AlnRes) (s : PairedState) :
    StepsP args s (anchorUnpaired args res s).1 := by
  unfold anchorUnpaired
  have h := reportUnpairedHit_steps args s args.anchor1 res
  simp only []
  split_ifs <;> first | exact h | exact StepsP_refl args s

theorem reportBothUnpaired_steps (args : PairedArgs) (r1 r2 : AlnRes) (s : PairedState) :
    StepsP args s (reportBothUnpaired args r1 r2 s).1 := by
  unfold reportBothUnpaired
  simp only []
  split_ifs
  · exact reportUnpairedHit_steps _ _ _ _
  · exact StepsP_trans _ _ _ _ (reportUnpairedHit_steps _ _ _ _)
      (reportUnpairedHit_steps _ _ _ _)
  · exact StepsP_refl args s

theorem reportPairHit_steps (args : PairedArgs) (tidx tlen : Nat) (ofw : Bool)
    (res m : AlnRes) (s : PairedState)
    (hdc : s.msink.st_.doneConcordant = false)
    (hw : args.gReportOverhangs = true ∨ m.within tidx 0 ofw tlen = true)
    (hcl : args.peClassifyPair (if args.anchor1 then res else m).refoff
        (if args.anchor1 then res else m).extent (if args.anchor1 then res else m).fw
        (if args.anchor1 then m else res).refoff (if args.anchor1 then m else res).extent
        (if args.anchor1 then m else res).fw ≠ args.PE_ALS_DISCORD) :
    StepsP args s (reportPairHit args tidx tlen ofw res m s).1 := by
  unfold reportPairHit
  simp only []
  generalize hr1 : (if args.anchor1 = true then res else m) = r1 at hcl ⊢
  generalize hr2 : (if args.anchor1 = true then m else res) = r2 at hcl ⊢
  generalize AlnSinkWrap.report s.msink (some r1) (some r2) = rep
  obtain ⟨w, ret⟩ := rep
  have hpair : StepsP args s
      { s with
        msink := w
        log := s.log ++ [PairedCall.reportPair s.msink.st_ tidx tlen ofw r1 r2 ret] } := by
    refine StepsP_log args _ _ [PairedCall.reportPair s.msink.st_ tidx tlen ofw r1 r2 ret]
      rfl rfl rfl rfl rfl rfl (by simp [pairedFramed]) (by simp [pairedAdvances])
      (by simp [unpairedReported]) (by simp [unpairedReported]) (fun c hc => ?_)
    rw [List.mem_singleton.mp hc]
    refine ⟨hdc, ?_, hcl⟩
    rcases hw with hw | hw
    · exact Or.inl hw
    · refine Or.inr ?_
      rw [← hr2]
      cases ha : args.anchor1
      · simp only [ha, Bool.false_eq_true, if_false] at hr1 ⊢
        rw [← hr1]; exact hw
      · simpa using hw
  cases ret
  · simp only [Bool.false_eq_true, if_false]
    have hu := StepsP_trans _ _ _ _ hpair (reportBothUnpaired_steps args r1 r2
      { s with
        msink := w
        log := s.log ++ [PairedCall.reportPair s.msink.st_ tidx tlen ofw r1 r2 false] })
    split_ifs <;> exact hu
  · simpa using hpair

theorem pairFound_true (args : PairedArgs) (tidx tlen : Nat) (ofw : Bool) (res m : AlnRes)
    (s : PairedState) (h : pairFound args tidx tlen ofw res m s = true) :
    s.msink.st_.doneConcordant = false ∧
    (args.gReportOverhangs = true ∨ m.within tidx 0 ofw tlen = true) ∧
    args.peClassifyPair (if args.anchor1 then res else m).refoff
        (if args.anchor1 then res else m).extent (if args.anchor1 then res else m).fw
        (if args.anchor1 then m else res).refoff (if args.anchor1 then m else res).extent
        (if args.anchor1 then m else res).fw ≠ args.PE_ALS_DISCORD := by
  unfold pairFound at h
  simp only [] at h
  cases hdc : s.msink.st_.doneConcordant
  · simp only [hdc, Bool.false_eq_true, if_false] at h
    cases hg : args.gReportOverhangs <;> cases hw : m.within tidx 0 ofw tlen <;>
      cases ha : args.anchor1 <;> simp [hg, hw, ha] at h ⊢ <;> exact h
  · simp [hdc] at h

theorem mateBody_steps (args : PairedArgs) (tidx tlen : Nat) (ofw : Bool) (res : AlnRes)
    (s : PairedState) (o : Option AlnRes) :
    StepsP args s (mateBody args tidx tlen ofw res s o).1 := by
  cases o with
  | none =>
    simp only [mateBody]
    split_ifs
    · exact anchorUnpaired_steps args res s
    · exact StepsP_refl args s
  | some m =>
    simp only [mateBody]
    have h0 : StepsP args s
        (if (!overlap s.redAnchor_ m) = true then { s with redAnchor_ := m :: s.redAnchor_ }
          else s) := by
      split_ifs
      · exact StepsP_log args _ _ [] (by simp) rfl rfl rfl rfl rfl rfl rfl rfl rfl
          (fun c hc => by simp at hc)
      · exact StepsP_refl args s
    have hst : (if (!overlap s.redAnchor_ m) = true then
        { s with redAnchor_ := m :: s.redAnchor_ } else s).msink = s.msink := by
      split_ifs <;> rfl
    generalize (if (!overlap s.redAnchor_ m) = true then
        { s with redAnchor_ := m :: s.redAnchor_ } else s) = s' at h0 hst ⊢
    by_cases hr : args.reportImmediately = true
    · simp only [hr, if_true]
      by_cases hf : pairFound args tidx tlen ofw res m s' = true
      · simp only [hf, if_true]
        obtain ⟨a, b, c⟩ := pairFound_true args tidx tlen ofw res m s' hf
        exact StepsP_trans _ _ _ _ h0 (reportPairHit_steps args tidx tlen ofw res m s' a b c)
      · simp only [hf]
        exact StepsP_trans _ _ _ _ h0 (anchorUnpaired_steps args res s')
    · simp only [hr]
      exact h0

theorem mateLoop_steps (args : PairedArgs) (tidx tlen : Nat) (ofw : Bool) (res : AlnRes)
    (mates : List (Option AlnRes)) :
    ∀ s : PairedState, StepsP args s (mateLoop args tidx tlen ofw res s mates).1 := by
  induction mates with
  | nil => exact fun s => by simpa [mateLoop] using mateBody_steps args tidx tlen ofw res s none
  | cons x rest ih =>
    intro s
    have hnext : StepsP args s { s with log := s.log ++ [PairedCall.mateNext] } :=
      StepsP_log args _ _ [PairedCall.mateNext] rfl rfl rfl rfl rfl rfl
        (by simp [pairedFramed]) (by simp [pairedAdvances]) (by simp [unpairedReported])
        (by simp [unpairedReported]) (fun c hc => by rw [List.mem_singleton.mp hc]; trivial)
    cases x with
    | none =>
      simp only [mateLoop]
      exact StepsP_trans _ _ _ _ hnext (mateBody_steps _ _ _ _ _ _ _)
    | some m =>
      simp only [mateLoop]
      have hb := StepsP_trans _ _ _ _ hnext (mateBody_steps args tidx tlen ofw res
        { s with log := s.log ++ [PairedCall.mateNext] } (some m))
      generalize mateBody args tidx tlen ofw res
        { s with log := s.log ++ [PairedCall.mateNext] } (some m) = r at hb ⊢
      obtain ⟨S, b⟩ := r
      cases b with
      | none => exact StepsP_trans _ _ _ _ hb (ih S)
      | some b => exact hb

/-- A state that differs from `s` in `redAnchor_`, `swMateImmediately` and in calls
added to the log that are neither walker results, framings nor reports. -/
theorem StepsP_quiet (args : PairedArgs) (s : PairedState) (red : List AlnRes) (sw : Bool)
    (new : List PairedCall) (hf : pairedFramed new = []) (ha : pairedAdvances new = 0)
    (hu1 : unpairedReported true new = []) (hu2 : unpairedReported false new = [])
    (hp : ∀ c ∈ new, PairOk args c) :
    StepsP args s { s with redAnchor_ := red, swMateImmediately := sw, log := s.log ++ new } :=
  StepsP_log args _ _ new rfl rfl rfl rfl rfl rfl hf ha hu1 hu2 hp

theorem mateSearch_steps (args : PairedArgs) (tidx tlen : Nat) (x : AnchorAln)
    (s : PairedState) : StepsP args s (mateSearch args tidx tlen x s).1 := by
  unfold mateSearch
  simp only []
  cases s.msink.st_.doneConcordant <;> cases x.mate.otherMate <;>
    cases x.mate.frameFindMate <;>
    simp only [Bool.not_false, Bool.not_true, if_true, if_false, Bool.false_eq_true] <;>
    refine StepsP_trans _ _ _ _ ?_ (mateLoop_steps _ _ _ _ _ _ _)
  · exact StepsP_log args _ _ [PairedCall.otherMate] rfl rfl rfl rfl rfl rfl rfl rfl rfl rfl
      (fun c hc => by rw [List.mem_singleton.mp hc]; trivial)
  · exact StepsP_log args _ _ [PairedCall.otherMate] rfl rfl rfl rfl rfl rfl rfl rfl rfl rfl
      (fun c hc => by rw [List.mem_singleton.mp hc]; trivial)
  · exact StepsP_log args _ _ [PairedCall.otherMate, PairedCall.frameFindMate] (by simp) rfl
      rfl rfl rfl rfl rfl rfl rfl rfl (fun c hc => by
        simp only [List.mem_cons, List.mem_singleton, List.not_mem_nil, or_false] at hc
        rcases hc with h | h <;> (subst h; trivial))
  · exact StepsP_log args _ _
      [PairedCall.otherMate, PairedCall.frameFindMate, PairedCall.mateDp]
      (by simp) rfl rfl rfl rfl rfl rfl rfl rfl rfl (fun c hc => by
        simp only [List.mem_cons, List.mem_singleton, List.not_mem_nil, or_false] at hc
        rcases hc with h | h | h <;> (subst h; trivial))
  all_goals exact StepsP_refl args s

theorem anchorHit_steps (args : PairedArgs) (tidx tlen : Nat) (x : AnchorAln)
    (s : PairedState) : StepsP args s (anchorHit args tidx tlen x s).1 := by
  unfold anchorHit
  simp only []
  have h1 : StepsP args s
      (if (args.doneWithMate s.msink.st_ (!args.anchor1) &&
          !args.doneWithMate s.msink.st_ args.anchor1) = true then
        { s with redAnchor_ := x.res :: s.redAnchor_, swMateImmediately := false }
      else { s with redAnchor_ := x.res :: s.redAnchor_ }) := by
    split_ifs
    · simpa using StepsP_quiet args s (x.res :: s.redAnchor_) false [] rfl rfl rfl rfl
        (fun c hc => by simp at hc)
    · simpa using StepsP_quiet args s (x.res :: s.redAnchor_) s.swMateImmediately [] rfl rfl
        rfl rfl (fun c hc => by simp at hc)
  generalize (if (args.doneWithMate s.msink.st_ (!args.anchor1) &&
          !args.doneWithMate s.msink.st_ args.anchor1) = true then
        ({ s with redAnchor_ := x.res :: s.redAnchor_, swMateImmediately := false } :
          PairedState)
      else { s with redAnchor_ := x.res :: s.redAnchor_ }) = s1 at h1 ⊢
  split_ifs
  · exact StepsP_trans _ _ _ _ h1 (mateSearch_steps _ _ _ _ _)
  · exact StepsP_trans _ _ _ _ h1 (anchorUnpaired_steps _ _ _)
  · exact h1

theorem anchorLoop_steps (args : PairedArgs) (tidx tlen : Nat)
    (alns : List (Option AnchorAln)) :
    ∀ s : PairedState, StepsP args s (anchorLoop args tidx tlen s alns).1 := by
  induction alns with
  | nil => exact fun s => by simpa [anchorLoop] using StepsP_refl args s
  | cons x rest ih =>
    intro s
    have hnext : StepsP args s { s with log := s.log ++ [PairedCall.next] } :=
      StepsP_log args _ _ [PairedCall.next] rfl rfl rfl rfl rfl rfl
        (by simp [pairedFramed]) (by simp [pairedAdvances]) (by simp [unpairedReported])
        (by simp [unpairedReported]) (fun c hc => by rw [List.mem_singleton.mp hc]; trivial)
    cases x with
    | none => simpa [anchorLoop] using hnext
    | some x =>
      simp only [anchorLoop]
      split_ifs
      · exact StepsP_trans _ _ _ _ hnext (ih _)
      · have hb := StepsP_trans _ _ _ _ hnext (anchorHit_steps args tidx tlen x
          { s with log := s.log ++ [PairedCall.next] })
        generalize anchorHit args tidx tlen x
          { s with log := s.log ++ [PairedCall.next] } = r at hb ⊢
        obtain ⟨S, b⟩ := r
        cases b with
        | none => exact StepsP_trans _ _ _ _ hb (ih S)
        | some b => exact hb

/-- A stretch that handles one walker result whose coordinate `c` is new: it
inserts `c` into the anchor set and writes `new` to the log, in which the walker
result is recorded and at most the framing of `c`. -/
theorem StepsP_insert (args : PairedArgs) (s s' : PairedState) (new : List PairedCall)
    (c : Coord) (hl : s'.log = s.log ++ new)
    (hs : s'.redSeedAnchor args.anchor1 = c :: s.redSeedAnchor args.anchor1)
    (hc : c ∉ s.redSeedAnchor args.anchor1) (h3 : s'.rshit = s.rshit)
    (h4 : s'.redMate1_ = s.redMate1_) (h5 : s'.redMate2_ = s.redMate2_)
    (hf : (pairedFramed new).Sublist [c]) (ha : pairedAdvances new = 1)
    (hu1 : unpairedReported true new = []) (hu2 : unpairedReported false new = [])
    (hp : ∀ x ∈ new, PairOk args x) : StepsP args s s' :=
  ⟨new, [c], [], [], hl, by simp [hs], ⟨fun b hb hbc => hc (hbc ▸ hb), trivial⟩, hf,
    by simp [ha, h3], by simp [h4], trivial, hu1, by simp [h5], trivial, hu2, hp⟩

theorem PairOk_walk (args : PairedArgs) (rank : Nat) (c : Coord) (tidx : Nat) (refoff : Int) :
    ∀ x ∈ [PairedCall.advance rank, PairedCall.frame c, PairedCall.dp tidx refoff],
      PairOk args x := by
  intro x hx
  simp only [List.mem_cons, List.mem_singleton, List.not_mem_nil, or_false] at hx
  rcases hx with h | h | h <;> (subst h; trivial)

/-- What the loop over the elements of one walker does. -/
theorem pairedWalk_steps (args : PairedArgs) (rank rdoff : Nat) (fw : Bool)
    (walk : List PairedWalkElt) :
    ∀ s : PairedState, StepsP args s (pairedWalk args rank rdoff fw s walk).1 := by
  induction walk with
  | nil => exact fun s => by simpa [pairedWalk] using StepsP_refl args s
  | cons wr more ih =>
    intro s
    simp only [pairedWalk]
    generalize (if args.color = true then 1 else 0) = cbit
    generalize args.joinedToTextOff wr.len wr.toff = t
    generalize ({ ref := 0, off := (wr.toff : Int) - (rdoff : Int), fw := fw } : Coord) = c
    have hok := PairOk_walk args rank c t.1 ((t.2.1 : Int) - (rdoff : Int))
    by_cases h1 : c ∈ PairedState.redSeedAnchor
        { s with log := s.log ++ [PairedCall.advance rank] } args.anchor1
    · simp only [h1, if_true]
      refine StepsP_trans _ _ _ _ ?_ (ih _)
      exact ⟨[PairedCall.advance rank], [], [], [], rfl, by simp [PairedState.redSeedAnchor],
        trivial, by simp [pairedFramed], by simp [pairedAdvances], by simp, trivial,
        by simp [unpairedReported], by simp, trivial, by simp [unpairedReported],
        fun x hx => hok x (by simp_all)⟩
    · simp only [h1, if_false]
      have hc : c ∉ s.redSeedAnchor args.anchor1 := by
        simpa [PairedState.redSeedAnchor] using h1
      have hq : ∀ new : List PairedCall,
          (∀ x ∈ new, x ∈ [PairedCall.advance rank, PairedCall.frame c,
            PairedCall.dp t.1 ((t.2.1 : Int) - (rdoff : Int))]) → ∀ x ∈ new, PairOk args x :=
        fun new hsub x hx => hok x (hsub x hx)
      cases ha : args.anchor1
      all_goals simp only [Bool.false_eq_true, if_false, if_true]
      all_goals by_cases h2 : t.1 = 4294967295
      all_goals simp only [h2, if_true, if_false]
      all_goals try (
        refine StepsP_trans _ _ _ _ ?_ (ih _)
        exact StepsP_insert args _ _ [PairedCall.advance rank] c rfl
          (by simp [PairedState.redSeedAnchor, ha]) hc rfl rfl rfl
          (by simp [pairedFramed]) (by simp [pairedAdvances]) (by simp [unpairedReported])
          (by simp [unpairedReported]) (hq _ (by simp)))
      all_goals generalize args.frameSeedExtension _ _ _ = fr
      all_goals cases fr
      all_goals simp only [Bool.not_false, Bool.not_true, Bool.false_eq_true, if_true, if_false]
      all_goals try (
        refine StepsP_trans _ _ _ _ ?_ (ih _)
        exact StepsP_insert args _ _ [PairedCall.advance rank, PairedCall.frame c] c (by simp)
          (by simp [PairedState.redSeedAnchor, ha]) hc rfl rfl rfl
          (by simp [pairedFramed]) (by simp [pairedAdvances]) (by simp [unpairedReported])
          (by simp [unpairedReported]) (hq _ (by simp)))
      all_goals cases h4 : wr.aligned
      all_goals simp only [Bool.not_false, Bool.not_true, Bool.false_eq_true, if_true, if_false]
      all_goals try (
        refine StepsP_trans _ _ _ _ ?_ (ih _)
        exact StepsP_insert args _ _
          [PairedCall.advance rank, PairedCall.frame c,
            PairedCall.dp t.1 ((t.2.1 : Int) - (rdoff : Int))] c (by simp)
          (by simp [PairedState.redSeedAnchor, ha]) hc rfl rfl rfl
          (by simp [pairedFramed]) (by simp [pairedAdvances]) (by simp [unpairedReported])
          (by simp [unpairedReported]) (hq _ (by simp)))
      all_goals (
        split
        · refine StepsP_trans _ _ _ _ ?_ (anchorLoop_steps _ _ _ _ _)
          exact StepsP_insert args s _
            [PairedCall.advance rank, PairedCall.frame c,
              PairedCall.dp t.1 ((t.2.1 : Int) - (rdoff : Int))] c
            (by simp) (by simp [PairedState.redSeedAnchor, ha]) hc rfl rfl rfl
            (by simp [pairedFramed]) (by simp [pairedAdvances]) (by simp [unpairedReported])
            (by simp [unpairedReported]) (hq _ (by simp))
        · refine StepsP_trans _ _ _ _ (StepsP_trans _ _ _ _ ?_ (anchorLoop_steps _ _ _ _ _))
            (ih _)
          exact StepsP_insert args s _
            [PairedCall.advance rank, PairedCall.frame c,
              PairedCall.dp t.1 ((t.2.1 : Int) - (rdoff : Int))] c
            (by simp) (by simp [PairedState.redSeedAnchor, ha]) hc rfl rfl rfl
            (by simp [pairedFramed]) (by simp [pairedAdvances]) (by simp [unpairedReported])
            (by simp [unpairedReported]) (hq _ (by simp)))

/-- What the loop over the seed hits does. -/
theorem pairedRanks_steps (args : PairedArgs) (hits : List PairedSeedHit) :
    ∀ (i : Nat) (s : PairedState), StepsP args s (pairedRanks args s i hits).1 := by
  induction hits with
  | nil => exact fun i s => by simpa [pairedRanks] using StepsP_refl args s
  | cons hit hits ih =>
    intro i s
    simp only [pairedRanks]
    split
    · exact pairedWalk_steps _ _ _ _ _ _
    · exact StepsP_trans _ _ _ _ (pairedWalk_steps _ _ _ _ _ _) (ih _ _)

theorem extendSeedsPaired_steps (args : PairedArgs) (hits : List PairedSeedHit) (poss : Nat)
    (s : PairedState) : StepsP args s (extendSeedsPaired args hits poss s).1 :=
  pairedRanks_steps args (hits.take poss) 0 s

theorem extendSeeds_steps (args : ExtendArgs) (hits : List SeedHit) (poss : Nat)
    (st : ExtendState) : StepsU st (extendSeeds args hits poss st).1 :=
  extendRanks_steps args (hits.take poss) 0 st

theorem Fresh_nodup (red ins : List Coord) (h : Fresh (fun b a => b = a) red ins) :
    ins.Nodup ∧ ∀ c ∈ ins, c ∉ red := by
  obtain ⟨p, q⟩ := Fresh_pairwise _ ins red h
  exact ⟨p, fun c hc hr => q c hc c hr rfl⟩

/-! ## Anchor coordinates are framed once -/

/-- C21: within one call of `extendSeeds`, and within one call of
`extendSeedsPaired`, whatever the walkers yield: the coordinates for which
`frameSeedExtension` is called are pairwise distinct and none of them was in the
anchor set when the call began, so an anchor coordinate (`wr.toff` minus the
orientation-adjusted `rdoff`, with the orientation) is framed at most once; every
walker result either inserts its coordinate into the set or increments `rshit` by
one (the sum of `rshit` and the size of the set grows by the number of walker
results); and a walker result whose coordinate is already in the set is skipped:
the loop goes on with the next walker result from a state that differs only in
`rshit`, which is one more, and in the log entry of the walker result.  Here `new`
is the stretch of the log that the call writes; the anchor set is `redSeed1_` for
`extendSeeds` and `redSeed1_` or `redSeed2_`, by `anchor1`, for
`extendSeedsPaired`. -/
theorem anchor_framed_at_most_once (args : ExtendArgs) (hits : List SeedHit) (poss : Nat)
    (st : ExtendState) (pargs : PairedArgs) (phits : List PairedSeedHit) (pposs : Nat)
    (ps : PairedState) :
    (∃ new, (extendSeeds args hits poss st).1.log = st.log ++ new ∧
      (framed new).Nodup ∧ (∀ c ∈ framed new, c ∉ st.redSeed1_) ∧
      (extendSeeds args hits poss st).1.rshit +
          (extendSeeds args hits poss st).1.redSeed1_.length =
        st.rshit + st.redSeed1_.length + advances new) ∧
    (∀ (rank rdoff : Nat) (fw : Bool) (wr : WalkElt) (more : List WalkElt),
      ({ ref := 0, off := (wr.toff : Int) - (rdoff : Int), fw := fw } : Coord) ∈ st.redSeed1_ →
      extendWalk args rank rdoff fw st (wr :: more) =
        extendWalk args rank rdoff fw
          { st with rshit := st.rshit + 1, log := st.log ++ [Call.advance rank] } more) ∧
    (∃ new, (extendSeedsPaired pargs phits pposs ps).1.log = ps.log ++ new ∧
      (pairedFramed new).Nodup ∧
      (∀ c ∈ pairedFramed new, c ∉ ps.redSeedAnchor pargs.anchor1) ∧
      (extendSeedsPaired pargs phits pposs ps).1.rshit +
          ((extendSeedsPaired pargs phits pposs ps).1.redSeedAnchor pargs.anchor1).length =
        ps.rshit + (ps.redSeedAnchor pargs.anchor1).length + pairedAdvances new) ∧
    (∀ (rank rdoff : Nat) (fw : Bool) (wr : PairedWalkElt) (more : List PairedWalkElt),
      ({ ref := 0, off := (wr.toff : Int) - (rdoff : Int), fw := fw } : Coord) ∈
        ps.redSeedAnchor pargs.anchor1 →
      pairedWalk pargs rank rdoff fw ps (wr :: more) =
        pairedWalk pargs rank rdoff fw
          { ps with rshit := ps.rshit + 1, log := ps.log ++ [PairedCall.advance rank] }
          more) := by
  refine ⟨?_, ?_, ?_, ?_⟩
  · obtain ⟨new, ins, insA, e, s1, f1, fr, r1, -, -, -⟩ := extendSeeds_steps args hits poss st
    obtain ⟨nd, nm⟩ := Fresh_nodup _ _ f1
    refine ⟨new, e, fr.nodup nd, fun c hc => nm c (fr.subset hc), ?_⟩
    rw [s1, List.length_append, List.length_reverse]
    omega
  · intro rank rdoff fw wr more h
    simp [extendWalk, h]
  · obtain ⟨new, ins, ins1, ins2, e, s1, f1, fr, r1, -⟩ :=
      extendSeedsPaired_steps pargs phits pposs ps
    obtain ⟨nd, nm⟩ := Fresh_nodup _ _ f1
    refine ⟨new, e, fr.nodup nd, fun c hc => nm c (fr.subset hc), ?_⟩
    rw [s1, List.length_append, List.length_reverse]
    omega
  · intro rank rdoff fw wr more h
    have h' : ({ ref := 0, off := (wr.toff : Int) - (rdoff : Int), fw := fw } : Coord) ∈
        PairedState.redSeedAnchor { ps with log := ps.log ++ [PairedCall.advance rank] }
          pargs.anchor1 := by
      simpa [PairedState.redSeedAnchor] using h
    simp only [pairedWalk, h', if_true]

/-! ## Reported alignments are not redundant -/

theorem Fresh_reported (red ins rep : List AlnRes) (h : Fresh Redundant red ins)
    (hs : rep.Sublist ins) :
    rep.Pairwise (fun a b => redundant a b = false) ∧
    (∀ a ∈ rep, ∀ b ∈ red, redundant b a = false) ∧
    (∀ a ∈ rep, a ∈ ins.reverse ++ red) := by
  obtain ⟨p, q⟩ := Fresh_pairwise _ ins red h
  refine ⟨(p.sublist hs).imp (fun h => by simpa [Redundant] using h),
    fun a ha b hb => by simpa [Redundant] using q a (hs.subset ha) b hb,
    fun a ha => by simp [hs.subset ha]⟩

/-- C22: taking redundancy as same reference, same orientation and intersecting
intervals `[refoff, refoff + extent)`: the alignments that one call of
`extendSeeds` passes to `msink->report` are pairwise non-redundant, none is
redundant with an alignment that was in `redAnchor_` when the call began, and each
is in `redAnchor_` when the call ends (so that the next call does not report an
alignment redundant with it); and, for each mate, the alignments that one call of
`extendSeedsPaired` reports as unpaired alignments of the mate are pairwise
non-redundant, none is redundant with an alignment that was in the set of the mate
(`redMate1_`, `redMate2_`) when the call began, and each is in that set when the
call ends. -/
theorem reported_not_redundant (args : ExtendArgs) (hits : List SeedHit) (poss : Nat)
    (st : ExtendState) (pargs : PairedArgs) (phits : List PairedSeedHit) (pposs : Nat)
    (ps : PairedState) :
    (∃ new, (extendSeeds args hits poss st).1.log = st.log ++ new ∧
      (reported new).Pairwise (fun a b => redundant a b = false) ∧
      (∀ a ∈ reported new, ∀ b ∈ st.redAnchor_, redundant b a = false) ∧
      (∀ a ∈ reported new, a ∈ (extendSeeds args hits poss st).1.redAnchor_)) ∧
    (∃ new, (extendSeedsPaired pargs phits pposs ps).1.log = ps.log ++ new ∧
      (unpairedReported true new).Pairwise (fun a b => redundant a b = false) ∧
      (∀ a ∈ unpairedReported true new, ∀ b ∈ ps.redMate1_, redundant b a = false) ∧
      (∀ a ∈ unpairedReported true new,
        a ∈ (extendSeedsPaired pargs phits pposs ps).1.redMate1_) ∧
      (unpairedReported false new).Pairwise (fun a b => redundant a b = false) ∧
      (∀ a ∈ unpairedReported false new, ∀ b ∈ ps.redMate2_, redundant b a = false) ∧
      (∀ a ∈ unpairedReported false new,
        a ∈ (extendSeedsPaired pargs phits pposs ps).1.redMate2_)) := by
  constructor
  · obtain ⟨new, ins, insA, e, -, -, -, -, an, fa, rp⟩ := extendSeeds_steps args hits poss st
    obtain ⟨p, q, r⟩ := Fresh_reported _ _ _ fa rp
    exact ⟨new, e, p, q, an ▸ r⟩
  · obtain ⟨new, ins, ins1, ins2, e, -, -, -, -, a1, f1, u1, a2, f2, u2, -⟩ :=
      extendSeedsPaired_steps pargs phits pposs ps
    subst u1 u2
    obtain ⟨p1, q1, r1⟩ := Fresh_reported _ _ _ f1 (List.Sublist.refl _)
    obtain ⟨p2, q2, r2⟩ := Fresh_reported _ _ _ f2 (List.Sublist.refl _)
    exact ⟨new, e, p1, q1, a1 ▸ r1, p2, q2, a2 ▸ r2⟩

/-! ## Pairs are reported only while the concordant category is open -/

/-- C25: every call `msink->report` with both mates that `extendSeedsPaired` makes
is made for an opposite-mate alignment that was pulled from `oswa`, when
`msink->state().doneConcordant()` is false, the opposite alignment lies within the
reference unless overhangs are permitted, and `peClassifyPair` on the two
placements is not `PE_ALS_DISCORD`; so the concordant category is open at every
call of `foundConcordant` that the driver causes.  Here `new` is the stretch of the
log that the call of `extendSeedsPaired` writes, `before` the reporting state of
the sink when the report is made, and `r1`, `r2` the alignments of mate 1 and
mate 2, of which the one that is not the anchor is the opposite alignment. -/
theorem pair_reported_while_concordant_open (pargs : PairedArgs)
    (phits : List PairedSeedHit) (pposs : Nat) (ps : PairedState) :
    ∃ new, (extendSeedsPaired pargs phits pposs ps).1.log = ps.log ++ new ∧
      ∀ (before : ReportingState) (tidx tlen : Nat) (ofw : Bool) (r1 r2 : AlnRes)
        (ret : Bool), PairedCall.reportPair before tidx tlen ofw r1 r2 ret ∈ new →
        before.doneConcordant = false ∧
        (pargs.gReportOverhangs = true ∨
          (if pargs.anchor1 then r2 else r1).within tidx 0 ofw tlen = true) ∧
        pargs.peClassifyPair r1.refoff r1.extent r1.fw r2.refoff r2.extent r2.fw ≠
          pargs.PE_ALS_DISCORD := by
  obtain ⟨new, ins, ins1, ins2, e, -, -, -, -, -, -, -, -, -, -, hp⟩ :=
    extendSeedsPaired_steps pargs phits pposs ps
  exact ⟨new, e, fun before tidx tlen ofw r1 r2 ret hm => hp _ hm⟩

/-! ## extendSeeds and alignments that overhang the reference -/

theorem StepsU_mono (st st' : ExtendState) (h : StepsU st st') :
    (∀ a ∈ st.redAnchor_, a ∈ st'.redAnchor_) ∧ (∀ c ∈ st.log, c ∈ st'.log) := by
  obtain ⟨new, ins, insA, e, -, -, -, -, an, -, -⟩ := h
  exact ⟨fun a ha => by rw [an]; simp [ha], fun c hc => by rw [e]; simp [hc]⟩

/-- The loop of `extendSeeds` itself has no test on whether an alignment lies
within the reference: an alignment pulled that is not redundant with one of
`redAnchor_` is added to `redAnchor_`, and with `reportImmediately` it is
reported. -/
theorem extendAlns_adds_non_redundant (args : ExtendArgs) (st : ExtendState)
    (res : AlnRes) (rest : List (Option AlnRes))
    (hred : overlap st.redAnchor_ res = false) :
    res ∈ (extendAlns args st (some res :: rest)).1.redAnchor_ ∧
    (args.reportImmediately = true →
      ∃ ret, Call.report res ret ∈ (extendAlns args st (some res :: rest)).1.log) := by
  simp only [extendAlns, hred, Bool.false_eq_true, if_false]
  by_cases h2 : args.reportImmediately = true
  · simp only [h2, if_true, true_implies]
    generalize AlnSinkWrap.report st.msink (if args.mate1 = true then some res else none)
      (if args.mate1 = true then none else some res) = rp
    obtain ⟨w, r⟩ := rp
    cases r
    · simp only [Bool.false_eq_true, if_false]
      obtain ⟨m1, m2⟩ := StepsU_mono _ _ (extendAlns_steps args rest
        { redSeed1_ := st.redSeed1_, redAnchor_ := res :: st.redAnchor_,
          rshit := st.rshit, msink := w,
          log := st.log ++ [Call.next] ++ [Call.report res false] })
      exact ⟨m1 res (by simp), false, m2 _ (by simp)⟩
    · exact ⟨by simp, true, by simp⟩
  · simp only [h2, Bool.false_eq_true, if_false, false_implies, and_true]
    exact (StepsU_mono _ _ (extendAlns_steps args rest
      { redSeed1_ := st.redSeed1_, redAnchor_ := res :: st.redAnchor_,
        rshit := st.rshit, msink := st.msink, log := st.log ++ [Call.next] })).1 res
      (by simp)

/-- On the sample reference of length 1000 with overhangs disallowed: at the
alignment at offset 995 of extent 10 the run ends with nothing added and nothing
reported, also not the alignment that the aligner would have answered next; the
alignment at offset 100 is added and reported. -/
theorem extendAlnsAsserted_sample :
    (AlnRes.sample 995).within 0 0 true 1000 = false ∧
    (lastState (extendAlnsAsserted false 0 1000 true (ExtendArgs.sample true)
      (ExtendState.fresh paramsK2)
      [some (AlnRes.sample 995), some (AlnRes.sample 100)])).redAnchor_ = [] ∧
    (lastState (extendAlnsAsserted false 0 1000 true (ExtendArgs.sample true)
      (ExtendState.fresh paramsK2)
      [some (AlnRes.sample 995), some (AlnRes.sample 100)])).log = [Call.next] ∧
    (lastState (extendAlnsAsserted false 0 1000 true (ExtendArgs.sample true)
      (ExtendState.fresh paramsK2)
      [some (AlnRes.sample 995), some (AlnRes.sample 100)])).msink.rs1u_ = [] ∧
    (lastState (extendAlnsAsserted false 0 1000 true (ExtendArgs.sample true)
      (ExtendState.fresh paramsK2) [some (AlnRes.sample 100)])).redAnchor_ =
      [AlnRes.sample 100] ∧
    (lastState (extendAlnsAsserted false 0 1000 true (ExtendArgs.sample true)
      (ExtendState.fresh paramsK2) [some (AlnRes.sample 100)])).log =
      [Call.next, Call.report (AlnRes.sample 100) false] := by
  decide

/-! ## Mode 2: what extendSeedsPaired records when `mixed` is false -/

theorem KeepsShut_refl (s : PairedState) : KeepsShut s s :=
  fun h => ⟨h, rfl, rfl⟩

theorem KeepsShut_trans (s t u : PairedState) (h1 : KeepsShut s t) (h2 : KeepsShut t u) :
    KeepsShut s u := by
  intro h
  obtain ⟨a, b, c⟩ := h1 h
  obtain ⟨a', b', c'⟩ := h2 a
  exact ⟨a', b'.trans b, c'.trans c⟩

theorem KeepsShut_same (s t : PairedState) (hm : t.msink = s.msink)
    (h1 : t.redMate1_ = s.redMate1_) (h2 : t.redMate2_ = s.redMate2_) : KeepsShut s t :=
  fun h => ⟨hm ▸ h, h1, h2⟩

theorem KeepsShut_then (s t u : PairedState) (h : KeepsShut t u) (hm : t.msink = s.msink)
    (h1 : t.redMate1_ = s.redMate1_) (h2 : t.redMate2_ = s.redMate2_) : KeepsShut s u :=
  KeepsShut_trans s t u (KeepsShut_same s t hm h1 h2) h

theorem reportUnpairedHit_shut (s : PairedState) (mate1 : Bool) (r : AlnRes)
    (h : UnpairedShut s.msink) : reportUnpairedHit s mate1 r = (s, false) := by
  obtain ⟨h1, h2, -⟩ := h
  unfold reportUnpairedHit ReportingState.doneUnpaired
  cases mate1 <;> simp [h1, h2]

theorem anchorUnpaired_keeps (args : PairedArgs) (res : AlnRes) (s : PairedState) :
    KeepsShut s (anchorUnpaired args res s).1 := by
  intro h
  unfold anchorUnpaired
  simp only [reportUnpairedHit_shut s _ _ h, Bool.false_eq_true, if_false]
  split_ifs <;> exact ⟨h, rfl, rfl⟩

theorem reportBothUnpaired_shut (args : PairedArgs) (r1 r2 : AlnRes) (s : PairedState)
    (h : UnpairedShut s.msink) : reportBothUnpaired args r1 r2 s = (s, false) := by
  unfold reportBothUnpaired
  simp only [reportUnpairedHit_shut s _ _ h, Bool.false_eq_true, if_false]
  split_ifs <;> rfl

theorem report_pair_shut (w : AlnSinkWrap) (r1 r2 : AlnRes) (h : UnpairedShut w) :
    UnpairedShut (w.report (some r1) (some r2)).1 := by
  obtain ⟨h1, h2, h3, h4, h5, h6, h7, h8⟩ := h
  unfold AlnSinkWrap.report UnpairedShut
  simp only [Option.isSome_some, Bool.and_self, if_true]
  split_ifs <;> simp [foundConcordant_eq, h1, h2, h3, h4, h5, h7, h8]

theorem reportPairHit_keeps (args : PairedArgs) (tidx tlen : Nat) (ofw : Bool)
    (res m : AlnRes) (s : PairedState) :
    KeepsShut s (reportPairHit args tidx tlen ofw res m s).1 := by
  intro h
  unfold reportPairHit
  simp only []
  generalize (if args.anchor1 = true then res else m) = r1
  generalize (if args.anchor1 = true then m else res) = r2
  have hp := report_pair_shut s.msink r1 r2 h
  generalize AlnSinkWrap.report s.msink (some r1) (some r2) = rep at hp ⊢
  obtain ⟨w, ret⟩ := rep
  cases ret
  · simp only [Bool.false_eq_true, if_false]
    rw [reportBothUnpaired_shut _ _ _ _ hp]
    simp only [Bool.false_eq_true, if_false]
    split_ifs <;> exact ⟨hp, rfl, rfl⟩
  · exact ⟨hp, rfl, rfl⟩

theorem mateBody_keeps (args : PairedArgs) (tidx tlen : Nat) (ofw : Bool) (res : AlnRes)
    (s : PairedState) (o : Option AlnRes) :
    KeepsShut s (mateBody args tidx tlen ofw res s o).1 := by
  cases o with
  | none =>
    simp only [mateBody]
    split_ifs
    · exact anchorUnpaired_keeps args res s
    · exact KeepsShut_refl s
  | some m =>
    simp only [mateBody]
    have h0 : KeepsShut s
        (if (!overlap s.redAnchor_ m) = true then { s with redAnchor_ := m :: s.redAnchor_ }
          else s) := by
      split_ifs
      · exact KeepsShut_same _ _ rfl rfl rfl
      · exact KeepsShut_refl s
    generalize (if (!overlap s.redAnchor_ m) = true then
        { s with redAnchor_ := m :: s.redAnchor_ } else s) = s' at h0 ⊢
    by_cases hr : args.reportImmediately = true
    · simp only [hr, if_true]
      by_cases hf : pairFound args tidx tlen ofw res m s' = true
      · simp only [hf, if_true]
        exact KeepsShut_trans _ _ _ h0 (reportPairHit_keeps args tidx tlen ofw res m s')
      · simp only [hf]
        exact KeepsShut_trans _ _ _ h0 (anchorUnpaired_keeps args res s')
    · simp only [hr]
      exact h0

theorem mateLoop_keeps (args : PairedArgs) (tidx tlen : Nat) (ofw : Bool) (res : AlnRes)
    (mates : List (Option AlnRes)) :
    ∀ s : PairedState, KeepsShut s (mateLoop args tidx tlen ofw res s mates).1 := by
  induction mates with
  | nil => exact fun s => by simpa [mateLoop] using mateBody_keeps args tidx tlen ofw res s none
  | cons x rest ih =>
    intro s
    have hnext : KeepsShut s { s with log := s.log ++ [PairedCall.mateNext] } :=
      KeepsShut_same _ _ rfl rfl rfl
    cases x with
    | none =>
      simp only [mateLoop]
      exact KeepsShut_trans _ _ _ hnext (mateBody_keeps _ _ _ _ _ _ _)
    | some m =>
      simp only [mateLoop]
      have hb := KeepsShut_trans _ _ _ hnext (mateBody_keeps args tidx tlen ofw res
        { s with log := s.log ++ [PairedCall.mateNext] } (some m))
      generalize mateBody args tidx tlen ofw res
        { s with log := s.log ++ [PairedCall.mateNext] } (some m) = r at hb ⊢
      obtain ⟨S, b⟩ := r
      cases b with
      | none => exact KeepsShut_trans _ _ _ hb (ih S)
      | some b => exact hb

theorem mateSearch_keeps (args : PairedArgs) (tidx tlen : Nat) (x : AnchorAln)
    (s : PairedState) : KeepsShut s (mateSearch args tidx tlen x s).1 := by
  unfold mateSearch
  simp only []
  cases s.msink.st_.doneConcordant <;> cases x.mate.otherMate <;>
    cases x.mate.frameFindMate <;>
    simp only [Bool.not_false, Bool.not_true, if_true, if_false, Bool.false_eq_true] <;>
    exact KeepsShut_then _ _ _ (mateLoop_keeps _ _ _ _ _ _ _) rfl rfl rfl

theorem anchorHit_keeps (args : PairedArgs) (tidx tlen : Nat) (x : AnchorAln)
    (s : PairedState) : KeepsShut s (anchorHit args tidx tlen x s).1 := by
  unfold anchorHit
  simp only []
  have h1 : KeepsShut s
      (if (args.doneWithMate s.msink.st_ (!args.anchor1) &&
          !args.doneWithMate s.msink.st_ args.anchor1) = true then
        { s with redAnchor_ := x.res :: s.redAnchor_, swMateImmediately := false }
      else { s with redAnchor_ := x.res :: s.redAnchor_ }) := by
    split_ifs <;> exact KeepsShut_same _ _ rfl rfl rfl
  generalize (if (args.doneWithMate s.msink.st_ (!args.anchor1) &&
          !args.doneWithMate s.msink.st_ args.anchor1) = true then
        ({ s with redAnchor_ := x.res :: s.redAnchor_, swMateImmediately := false } :
          PairedState)
      else { s with redAnchor_ := x.res :: s.redAnchor_ }) = s1 at h1 ⊢
  split_ifs
  · exact KeepsShut_trans _ _ _ h1 (mateSearch_keeps _ _ _ _ _)
  · exact KeepsShut_trans _ _ _ h1 (anchorUnpaired_keeps _ _ _)
  · exact h1

theorem anchorLoop_keeps (args : PairedArgs) (tidx tlen : Nat)
    (alns : List (Option AnchorAln)) :
    ∀ s : PairedState, KeepsShut s (anchorLoop args tidx tlen s alns).1 := by
  induction alns with
  | nil => exact fun s => by simpa [anchorLoop] using KeepsShut_refl s
  | cons x rest ih =>
    intro s
    have hnext : KeepsShut s { s with log := s.log ++ [PairedCall.next] } :=
      KeepsShut_same _ _ rfl rfl rfl
    cases x with
    | none => simpa [anchorLoop] using hnext
    | some x =>
      simp only [anchorLoop]
      split_ifs
      · exact KeepsShut_trans _ _ _ hnext (ih _)
      · have hb := KeepsShut_trans _ _ _ hnext (anchorHit_keeps args tidx tlen x
          { s with log := s.log ++ [PairedCall.next] })
        generalize anchorHit args tidx tlen x
          { s with log := s.log ++ [PairedCall.next] } = r at hb ⊢
        obtain ⟨S, b⟩ := r
        cases b with
        | none => exact KeepsShut_trans _ _ _ hb (ih S)
        | some b => exact hb

theorem pairedWalk_keeps (args : PairedArgs) (rank rdoff : Nat) (fw : Bool)
    (walk : List PairedWalkElt) :
    ∀ s : PairedState, KeepsShut s (pairedWalk args rank rdoff fw s walk).1 := by
  induction walk with
  | nil => exact fun s => by simpa [pairedWalk] using KeepsShut_refl s
  | cons wr more ih =>
    intro s
    simp only [pairedWalk]
    generalize (if args.color = true then 1 else 0) = cbit
    generalize args.joinedToTextOff wr.len wr.toff = t
    generalize ({ ref := 0, off := (wr.toff : Int) - (rdoff : Int), fw := fw } : Coord) = c
    by_cases h1 : c ∈ PairedState.redSeedAnchor
        { s with log := s.log ++ [PairedCall.advance rank] } args.anchor1
    · simp only [h1, if_true]
      exact KeepsShut_then _ _ _ (ih _) rfl rfl rfl
    · simp only [h1, if_false]
      cases ha : args.anchor1
      all_goals simp only [Bool.false_eq_true, if_false, if_true]
      all_goals by_cases h2 : t.1 = 4294967295
      all_goals simp only [h2, if_true, if_false]
      all_goals try exact KeepsShut_then _ _ _ (ih _) rfl rfl rfl
      all_goals generalize args.frameSeedExtension _ _ _ = fr
      all_goals cases fr
      all_goals simp only [Bool.not_false, Bool.not_true, Bool.false_eq_true, if_true, if_false]
      all_goals try exact KeepsShut_then _ _ _ (ih _) rfl rfl rfl
      all_goals cases h4 : wr.aligned
      all_goals simp only [Bool.not_false, Bool.not_true, Bool.false_eq_true, if_true, if_false]
      all_goals try exact KeepsShut_then _ _ _ (ih _) rfl rfl rfl
      all_goals (
        split
        · exact KeepsShut_then _ _ _ (anchorLoop_keeps _ _ _ _ _) rfl rfl rfl
        · exact KeepsShut_then _ _ _
            (KeepsShut_trans _ _ _ (anchorLoop_keeps _ _ _ _ _) (ih _)) rfl rfl rfl)

theorem pairedRanks_keeps (args : PairedArgs) (hits : List PairedSeedHit) :
    ∀ (i : Nat) (s : PairedState), KeepsShut s (pairedRanks args s i hits).1 := by
  induction hits with
  | nil => exact fun i s => by simpa [pairedRanks] using KeepsShut_refl s
  | cons hit hits ih =>
    intro i s
    simp only [pairedRanks]
    split
    · exact pairedWalk_keeps _ _ _ _ _ _
    · exact KeepsShut_trans _ _ _ (pairedWalk_keeps _ _ _ _ _ _) (ih _ _)

theorem UnpairedShut_nextRead (w : AlnSinkWrap) (bestInit : Int)
    (hm : w.rp_.mixed = false) : UnpairedShut (w.nextRead true true bestInit) := by
  simp only [UnpairedShut, AlnSinkWrap.nextRead, ReportingState.nextRead, readIsPair, hm]
  cases w.rp_.discord <;> simp

theorem UnpairedShut_getReport (p : ReportingParams) (w : AlnSinkWrap)
    (h : UnpairedShut w) :
    (getReport p (ReportingState.finish w.st_)).ndiscordAln = 0 := by
  obtain ⟨-, -, h3, -, h5, h6, -, -⟩ := h
  have hc : converts w.st_ = false := by simp [converts, h3]
  have he : (ReportingState.finish w.st_).exitDiscord_ ≠ Exit.WITH_ALIGNMENTS := by
    rw [finish_eq]
    simp only [hc, h5]
    cases w.st_.doneDiscord_
    · simp
    · simpa using h6
  rw [getReport_ndiscordAln]
  simp [he]

/-- In Mode 2, whatever the collaborators answer: if the sink does not take
unpaired alignments when `extendSeedsPaired` is called, as after `nextRead` for a
paired read when `mixed` is false, the call reports no unpaired alignment, the
sink is in the same condition afterwards, and `getReport` after `finish` yields no
discordant alignment. -/
theorem extendSeedsPaired_shut (args : PairedArgs) (hits : List PairedSeedHit) (poss : Nat)
    (s : PairedState) (p : ReportingParams) (h : UnpairedShut s.msink) :
    UnpairedShut (extendSeedsPaired args hits poss s).1.msink ∧
    (∃ new, (extendSeedsPaired args hits poss s).1.log = s.log ++ new ∧
      unpairedReported true new = [] ∧ unpairedReported false new = []) ∧
    (getReport p (ReportingState.finish
      (extendSeedsPaired args hits poss s).1.msink.st_)).ndiscordAln = 0 := by
  obtain ⟨k, k1, k2⟩ := pairedRanks_keeps args (hits.take poss) 0 s h
  obtain ⟨new, ins, ins1, ins2, e, -, -, -, -, a1, -, u1, a2, -, u2, -⟩ :=
    extendSeedsPaired_steps args hits poss s
  refine ⟨k, ⟨new, e, ?_, ?_⟩, UnpairedShut_getReport p _ k⟩
  · have : ins1.reverse ++ s.redMate1_ = [] ++ s.redMate1_ := by
      rw [← a1]; exact k1
    rw [u1]
    simpa using List.append_cancel_right this
  · have : ins2.reverse ++ s.redMate2_ = [] ++ s.redMate2_ := by
      rw [← a2]; exact k2
    rw [u2]
    simpa using List.append_cancel_right this

/-- C26 fails on the code.  For a paired read in Mode 2 (`discord` true, `mixed`
false, `-k 1 -m 1`) `extendSeedsPaired` with immediate reporting is run with mate 1
as the anchor and then with mate 2 as the anchor, and finds one alignment for each
mate, not redundant with the other (both are in `redAnchor_`), and no pair.
Whatever `doneWithMate` answers, neither alignment is recorded in the sink: the
lists of unpaired alignments are empty, the unpaired counters are 0, and after
`finish` the report has no discordant alignment.  Had the two alignments been
recorded (`foundUnpaired` for each mate), `finish` and `getReport` would have
yielded one discordant alignment. -/
theorem mode2_unpaired_not_recorded (d : ReportingState → Bool → Bool) :
    (mode2Run d).redAnchor_ = [AlnRes.sample 500, AlnRes.sample 100] ∧
    (mode2Run d).msink.rs1_ = [] ∧ (mode2Run d).msink.rs2_ = [] ∧
    (mode2Run d).msink.rs1u_ = [] ∧ (mode2Run d).msink.rs2u_ = [] ∧
    (mode2Run d).msink.st_.nunpair1_ = 0 ∧ (mode2Run d).msink.st_.nunpair2_ = 0 ∧
    (getReport paramsM1NotMixed
      (ReportingState.finish (mode2Run d).msink.st_)).ndiscordAln = 0 ∧
    (getReport paramsM1NotMixed
      (ReportingState.finish (run paramsM1NotMixed
        (ReportingState.nextRead paramsM1NotMixed noRead true)
        [Event.unpaired true, Event.unpaired false]))).ndiscordAln = 1 := by
  have hm : (mode2Run d).redAnchor_ = [AlnRes.sample 500, AlnRes.sample 100] ∧
      (mode2Run d).msink = (AlnSinkWrap.fresh paramsM1NotMixed true).nextRead true true 0 := by
    cases h1 : d ⟨Phase.CONCORDANT_PAIRS, true, 0, 0, 0, 0, false, false, true, true, true,
        false, Exit.DID_NOT_EXIT, Exit.DID_NOT_EXIT, Exit.DID_NOT_ENTER, Exit.DID_NOT_ENTER⟩
        false <;>
    cases h2 : d ⟨Phase.CONCORDANT_PAIRS, true, 0, 0, 0, 0, false, false, true, true, true,
        false, Exit.DID_NOT_EXIT, Exit.DID_NOT_EXIT, Exit.DID_NOT_ENTER, Exit.DID_NOT_ENTER⟩
        true <;>
    simp [mode2Run, extendSeedsPaired, PairedSeedHit.sample, List.take, pairedRanks,
      pairedWalk, PairedArgs.sample, PairedState.fresh, PairedState.redSeedAnchor,
      anchorLoop, anchorHit, mateSearch, mateLoop, mateBody, anchorUnpaired,
      reportUnpairedHit, AlnSinkWrap.nextRead, AlnSinkWrap.fresh, ReportingState.nextRead,
      readIsPair, paramsM1NotMixed, ReportingState.doneUnpaired,
      ReportingState.doneConcordant, overlap, redundant, AlnRes.sample, h1, h2]
  obtain ⟨ha, hs⟩ := hm
  rw [hs]
  exact ⟨ha, rfl, rfl, rfl, rfl, rfl, rfl, by decide, by decide⟩
